import Mathlib

/-!
Shallow embedding of the jsondiff comparison engine.

The repository contains three revisions of the engine:
* `src/jsondiff.go` — the primary revision: `printSkipped`-based elision with
  `SkippedSliceString`/`SkippedKeysString` callbacks.  Embedded below with the
  suffix `F` (fuelled state-passing functions).
* `src/unnamed/part_000` — an earlier revision carrying the path-aware
  `Skip` exclusion predicate.  Embedded with the suffix `1`.
* the current revision, absent from `src/` — only its test file
  `src/jsondiff_test.go` is present.  It adds the `<<PRESENCE>>` marker and a
  nil-options guard.  Modelled from the spec (and pinned by the tests) with the
  suffix `P`.

Go machine state is threaded explicitly: the render context (`RCtx`) carries
the indentation level and the identity of the last opened tag; output buffers
are accumulated strings; the `context.diff` accumulator is represented by the
list of `context.result` calls (the trace), folded with `resultStep`, which is
the direct translation of `context.result`.  Fallible operations (the nil
skip-callback dereference, which panics in Go) return `Except String`.
Recursive walks take a fuel argument so that they are structurally recursive
and kernel-reducible; entry points supply `sizeOf`-derived fuel, and fuel
exhaustion is reported as the distinguished error string `"fuel"`, never
reachable from the entry points' budgets in the theorems below.
-/

/-- JSON value as decoded by `encoding/json` with `UseNumber()` into
`interface{}`: `nil`, `bool`, `json.Number` (the literal token), `string`,
`[]interface{}`, `map[string]interface{}`.  Go maps are unordered with unique
keys; the `obj` field list records one iteration order of the decoded map,
which Go deliberately leaves unspecified. -/
inductive Json where
  | null
  | bool (b : Bool)
  | num (s : String)
  | str (s : String)
  | arr (elems : List Json)
  | obj (fields : List (String × Json))

/-- Difference is the classification enum of src/jsondiff.go:11-20, in
declaration order (`FullMatch` is the Go zero value). -/
inductive Difference where
  | FullMatch
  | SupersetMatch
  | NoMatch
  | FirstArgIsInvalidJson
  | SecondArgIsInvalidJson
  | BothArgsAreInvalidJson
deriving DecidableEq, Repr

open Difference

/-- Translation of `context.result` (src/jsondiff.go:254-262): one step of the
verdict accumulator: `cur` is the stored `ctx.diff`, `d` the reported verdict. -/
def resultStep (cur d : Difference) : Difference :=
  if d = NoMatch then NoMatch
  else if d = SupersetMatch ∧ cur ≠ NoMatch then SupersetMatch
  else if cur ≠ NoMatch ∧ cur ≠ SupersetMatch then FullMatch
  else cur

/-- Severity rank used by the spec's aggregation order
NoMatch > SupersetMatch > FullMatch (spec section 3). -/
def sev : Difference → Nat
  | FullMatch => 0
  | SupersetMatch => 1
  | NoMatch => 2
  | FirstArgIsInvalidJson => 3
  | SecondArgIsInvalidJson => 4
  | BothArgsAreInvalidJson => 5

/-- Maximum of two verdicts under the severity order, left-biased. -/
def sevMax (x y : Difference) : Difference :=
  if sev y ≤ sev x then x else y

/-- Per-node verdicts reported during a walk: only the three match kinds. -/
def IsNodeVerdict (d : Difference) : Prop :=
  d = FullMatch ∨ d = SupersetMatch ∨ d = NoMatch

instance (d : Difference) : Decidable (IsNodeVerdict d) := by
  unfold IsNodeVerdict; infer_instance

/-- Go `reflect.Kind` of a decoded JSON value: `json.Number` is a string type,
so numbers and strings share the kind (src/jsondiff.go:309-331).  `kNull` is
unreachable in `printDiff` (nil is handled before the kind switch). -/
inductive GoKind where
  | kNull
  | kBool
  | kString
  | kSlice
  | kMap
deriving DecidableEq

def kindOf : Json → GoKind
  | .null => .kNull
  | .bool _ => .kBool
  | .num _ => .kString
  | .str _ => .kString
  | .arr _ => .kSlice
  | .obj _ => .kMap

/-- Tag is a begin/end marker pair (src/jsondiff.go:40-43). -/
structure Tag where
  Begin : String := ""
  End : String := ""
deriving DecidableEq

/-- Identity of a tag slot in `Options`.  Go compares `*Tag` pointers of the
five distinct `Options` fields; within one run those pointers are exactly the
five slots, so slot identity is a faithful model. -/
inductive TagId where
  | normal
  | added
  | removed
  | changed
  | skipped
deriving DecidableEq

/-- Options (src/jsondiff.go:45-62).  `Pfx` is the Go field `Prefix`.  Function
fields that are nil-able in Go are `Option`-valued. -/
structure Options where
  Normal : Tag := {}
  Added : Tag := {}
  Removed : Tag := {}
  Changed : Tag := {}
  Skipped : Tag := {}
  SkippedSliceString : Option (Nat → String) := none
  SkippedKeysString : Option (Nat → String) := none
  Pfx : String := ""
  Indent : String := ""
  PrintTypes : Bool := false
  ChangedSeparator : String := ""
  CompareNumbers : Option (String → String → Bool) := none
  SkipMatches : Bool := false

def tagOf (o : Options) : TagId → Tag
  | .normal => o.Normal
  | .added => o.Added
  | .removed => o.Removed
  | .changed => o.Changed
  | .skipped => o.Skipped

/-- Translation of `context.compareNumbers` (src/jsondiff.go:123-129): the
custom predicate if provided, else byte-for-byte literal equality of the
`json.Number` tokens. -/
def compareNumbersFn (o : Options) (a b : String) : Bool :=
  match o.CompareNumbers with
  | some f => f a b
  | none => a == b

/-- Render context: mutable fields of Go `context` other than the verdict
accumulator (src/jsondiff.go:116-121). -/
structure RCtx where
  level : Nat := 0
  lastTag : Option TagId := none
deriving DecidableEq

/-- Translation of `context.terminateTag` (src/jsondiff.go:131-136). -/
def terminateTag (o : Options) (c : RCtx) (buf : String) : RCtx × String :=
  match c.lastTag with
  | some t => ({ c with lastTag := none }, buf ++ (tagOf o t).End)
  | none => (c, buf)

def indentOf (o : Options) : Nat → String
  | 0 => ""
  | n + 1 => indentOf o n ++ o.Indent

/-- Translation of `context.newline` (src/jsondiff.go:138-147): note the
second `terminateTag` is always a no-op because the first one cleared
`lastTag`; translated anyway. -/
def newlineV2 (o : Options) (c : RCtx) (buf : String) (s : String) : RCtx × String :=
  let buf := buf ++ s
  let (c, buf) := terminateTag o c buf
  let buf := buf ++ "\n" ++ o.Pfx ++ indentOf o c.level
  terminateTag o c buf

/-- Hex digit, for the non-printable escape tail of `goQuote`. -/
def hexDigit (n : Nat) : Char :=
  if n < 10 then Char.ofNat (48 + n) else Char.ofNat (87 + n % 16)

def hex4 (n : Nat) : String :=
  String.mk [hexDigit (n / 4096 % 16), hexDigit (n / 256 % 16),
             hexDigit (n / 16 % 16), hexDigit (n % 16)]

/-- Boundary model of Go `strconv.Quote` for one character: exact on the
printable ASCII range and the common control escapes, which covers every
string any theorem below evaluates; other runes take the `\u` form (Go
additionally distinguishes `\a\b\f\v\x` ranges for them). -/
def goQuoteChar (ch : Char) : String :=
  if ch = '"' then "\\\""
  else if ch = '\\' then "\\\\"
  else if 0x20 ≤ ch.toNat ∧ ch.toNat < 0x7f then String.singleton ch
  else if ch = '\n' then "\\n"
  else if ch = '\t' then "\\t"
  else if ch = '\r' then "\\r"
  else "\\u" ++ hex4 ch.toNat

/-- Boundary model of Go `strconv.Quote` (see `goQuoteChar`). -/
def goQuote (s : String) : String :=
  "\"" ++ s.data.foldl (fun acc ch => acc ++ goQuoteChar ch) "" ++ "\""

/-- Translation of `context.key` (src/jsondiff.go:149-152). -/
def keyV2 (buf : String) (k : String) : String :=
  buf ++ goQuote k ++ ": "

/-- Translation of `context.tag` (src/jsondiff.go:244-252): skip if the same
tag slot is already open, else close the open one and open the new one. -/
def tagV2 (o : Options) (c : RCtx) (buf : String) (t : TagId) : RCtx × String :=
  if c.lastTag = some t then (c, buf)
  else
    let buf :=
      match c.lastTag with
      | some lt => buf ++ (tagOf o lt).End
      | none => buf
    ({ c with lastTag := some t }, buf ++ (tagOf o t).Begin)

/-- Translation of `context.writeType` (src/jsondiff.go:221-236). -/
def writeType (buf : String) (v : Json) : String :=
  buf ++ match v with
  | .bool _ => "(boolean)"
  | .num _ => "(number)"
  | .str _ => "(string)"
  | .arr _ => "(array)"
  | .obj _ => "(object)"
  | .null => "(null)"

/-- Translation of `context.writeTypeMaybe` (src/jsondiff.go:214-219). -/
def writeTypeMaybe (o : Options) (buf : String) (v : Json) : String :=
  if o.PrintTypes then writeType (buf ++ " ") v else buf

mutual

/-- Translation of `context.writeValue` (src/jsondiff.go:154-212).  `full`
false renders containers compactly as `[]`/`{}`.  The `obj` case iterates the
decoded map in its (unspecified) iteration order, i.e. the stored field-list
order — there is no sorting here, unlike the `printDiff` map case. -/
def writeValueF : Nat → Options → RCtx → String → Json → Bool → RCtx × String
  | 0, _, c, buf, _, _ => (c, buf)
  | n + 1, o, c, buf, v, full =>
    let (c, buf) :=
      match v with
      | .bool b => (c, buf ++ cond b "true" "false")
      | .num s => (c, buf ++ s)
      | .str s => (c, buf ++ goQuote s)
      | .null => (c, buf ++ "null")
      | .arr vv =>
        if full then
          let (c, buf) :=
            if vv.isEmpty then (c, buf ++ "[")
            else newlineV2 o { c with level := c.level + 1 } buf "["
          let (c, buf) := writeArrF n o c buf vv
          (c, buf ++ "]")
        else (c, buf ++ "[]")
      | .obj kvs =>
        if full then
          let (c, buf) :=
            if kvs.isEmpty then (c, buf ++ "\x7b")
            else newlineV2 o { c with level := c.level + 1 } buf "\x7b"
          let (c, buf) := writeObjF n o c buf kvs
          (c, buf ++ "\x7d")
        else (c, buf ++ "\x7b\x7d")
    (c, writeTypeMaybe o buf v)

/-- Element loop of `writeValue` for arrays (src/jsondiff.go:170-178). -/
def writeArrF : Nat → Options → RCtx → String → List Json → RCtx × String
  | 0, _, c, buf, _ => (c, buf)
  | _ + 1, _, c, buf, [] => (c, buf)
  | n + 1, o, c, buf, v :: vs =>
    let (c, buf) := writeValueF n o c buf v true
    match vs with
    | [] => newlineV2 o { c with level := c.level - 1 } buf ""
    | _ :: _ =>
      let (c, buf) := newlineV2 o c buf ","
      writeArrF n o c buf vs

/-- Key/value loop of `writeValue` for objects (src/jsondiff.go:191-202),
iterating in map order. -/
def writeObjF : Nat → Options → RCtx → String → List (String × Json) → RCtx × String
  | 0, _, c, buf, _ => (c, buf)
  | _ + 1, _, c, buf, [] => (c, buf)
  | n + 1, o, c, buf, (k, v) :: kvs =>
    let buf := keyV2 buf k
    let (c, buf) := writeValueF n o c buf v true
    match kvs with
    | [] => newlineV2 o { c with level := c.level - 1 } buf ""
    | _ :: _ =>
      let (c, buf) := newlineV2 o c buf ","
      writeObjF n o c buf kvs

end

/-- Translation of `context.writeMismatch` (src/jsondiff.go:238-242). -/
def writeMismatchF (n : Nat) (o : Options) (c : RCtx) (buf : String) (a b : Json) :
    RCtx × String :=
  let (c, buf) := writeValueF n o c buf a false
  let buf := buf ++ o.ChangedSeparator
  writeValueF n o c buf b false

/-- Translation of `context.printMismatch` (src/jsondiff.go:264-267). -/
def printMismatchF (n : Nat) (o : Options) (c : RCtx) (buf : String) (a b : Json) :
    RCtx × String :=
  let (c, buf) := tagV2 o c buf .changed
  writeMismatchF n o c buf a b

/-- Translation of `context.printSkipped` (src/jsondiff.go:269-280).  With a
pending run (`nds ≠ 0`) and a nil callback, Go dereferences a nil function and
panics: modelled as the error value. -/
def printSkippedF (o : Options) (c : RCtx) (buf : String) (nds : Nat)
    (strfunc : Option (Nat → String)) (last : Bool) :
    Except String (RCtx × String × Nat) :=
  if nds = 0 then .ok (c, buf, nds)
  else
    match strfunc with
    | none => .error "nil skip callback"
    | some f =>
      let (c, buf) := tagV2 o c buf .skipped
      let buf := buf ++ f nds
      let (c, buf) :=
        if !last then
          let (c, buf) := tagV2 o c buf .normal
          newlineV2 o c buf ","
        else (c, buf)
      .ok (c, buf, 0)

/-- Go map access `ma[k]` on the association-list representation (unique keys
for decoded maps). -/
def lookupJ (k : String) : List (String × Json) → Option Json
  | [] => none
  | (k2, v) :: rest => if k2 = k then some v else lookupJ k rest

def keysOf (l : List (String × Json)) : List String :=
  l.map (·.1)

/-- Key-set union accumulator: Go builds `keysMap` as a set
(src/jsondiff.go:421-431); membership is what matters, order is re-imposed by
sorting. -/
def dedupStrs (l : List String) : List String :=
  l.foldl (fun acc s => if s ∈ acc then acc else acc ++ [s]) []

/-- Lexicographic comparison of character sequences, the order Go's
`sort.Strings` sorts by (byte order, identical to code-point order on the
ASCII keys handled here). -/
def charsLt : List Char → List Char → Bool
  | [], [] => false
  | [], _ :: _ => true
  | _ :: _, [] => false
  | a :: as, b :: bs =>
    if a.toNat < b.toNat then true
    else if b.toNat < a.toNat then false
    else charsLt as bs

def strLt (a b : String) : Bool :=
  charsLt a.data b.data

def insertSorted (s : String) : List String → List String
  | [] => [s]
  | t :: ts => if strLt s t then s :: t :: ts else t :: insertSorted s ts

/-- Model of `sort.Strings` (src/jsondiff.go:432): insertion sort under Go's
lexicographic byte order, which agrees with Lean's `String` order on the
ASCII keys handled here. -/
def sortStrs (l : List String) : List String :=
  l.foldr insertSorted []

/-- Exit path shared by every mismatch branch of `printDiff`
(src/jsondiff.go: `printMismatch`, `result(NoMatch)`, `finalize`). -/
def mismatchExitF (n : Nat) (o : Options) (c : RCtx) (a b : Json) :
    Except String (RCtx × String × List Difference) :=
  let (c, buf) := printMismatchF n o c "" a b
  let (c, buf) := terminateTag o c buf
  .ok (c, buf, [NoMatch])

/-- Exit path for a matching scalar (bottom of `printDiff`,
src/jsondiff.go:501-506): render under the Normal tag and report `FullMatch`
unless matches are skipped. -/
def matchScalarExitF (n : Nat) (o : Options) (c : RCtx) (a : Json) :
    Except String (RCtx × String × List Difference) :=
  if o.SkipMatches then
    let (c, buf) := terminateTag o c ""
    .ok (c, buf, [])
  else
    let (c, buf) := tagV2 o c "" .normal
    let (c, buf) := writeValueF n o c buf a true
    let (c, buf) := terminateTag o c buf
    .ok (c, buf, [FullMatch])

mutual

/-- Translation of `context.printDiff` (src/jsondiff.go:287-507).  Returns the
post-state, the string that the call's own buffer holds at return, and the
sequence of `context.result` calls it made (the verdict trace).  The Go
`return ""` for an elided matching container (lines 414-416, 495-497) skips
`finalize`, so `lastTag` is left open there — translated faithfully. -/
def printDiffF : Nat → Options → RCtx → Json → Json → Except String (RCtx × String × List Difference)
  | 0, _, _, _, _ => .error "fuel"
  | n + 1, o, c, a, b =>
    match a, b with
    | .null, .null =>
      if o.SkipMatches then
        let (c, buf) := terminateTag o c ""
        .ok (c, buf, [])
      else
        let (c, buf) := tagV2 o c "" .normal
        let (c, buf) := writeValueF n o c buf .null false
        let (c, buf) := terminateTag o c buf
        .ok (c, buf, [FullMatch])
    | .null, _ => mismatchExitF n o c a b
    | _, .null => mismatchExitF n o c a b
    | .bool x, .bool y =>
      if x ≠ y then mismatchExitF n o c a b
      else matchScalarExitF n o c a
    | .num x, .num y =>
      if !compareNumbersFn o x y then mismatchExitF n o c a b
      else matchScalarExitF n o c a
    | .num _, .str _ => mismatchExitF n o c a b
    | .str _, .num _ => mismatchExitF n o c a b
    | .str x, .str y =>
      if x ≠ y then mismatchExitF n o c a b
      else matchScalarExitF n o c a
    | .arr sa, .arr sb =>
      let mx := max sa.length sb.length
      let (c, buf) := tagV2 o c "" .normal
      let (c, buf) :=
        if mx = 0 then (c, buf ++ "[")
        else newlineV2 o { c with level := c.level + 1 } buf "["
      let seenDiff := decide (0 < mx) && decide (sa.length ≠ sb.length)
      match loopArrF n o c buf sa sb 0 seenDiff with
      | .error e => .error e
      | .ok (c, buf, _, seenDiff, tr) =>
        let buf := buf ++ "]"
        let buf := writeTypeMaybe o buf a
        if o.SkipMatches && !seenDiff then .ok (c, "", tr)
        else
          let (c, buf) := terminateTag o c buf
          .ok (c, buf, tr)
    | .obj ma, .obj mb =>
      let keys := sortStrs (dedupStrs (keysOf ma ++ keysOf mb))
      let (c, buf) := tagV2 o c "" .normal
      let (c, buf) :=
        if keys.isEmpty then (c, buf ++ "\x7b")
        else newlineV2 o { c with level := c.level + 1 } buf "\x7b"
      match loopMapF n o c buf ma mb keys 0 false with
      | .error e => .error e
      | .ok (c, buf, _, seenDiff, tr) =>
        let buf := buf ++ "\x7d"
        let buf := writeTypeMaybe o buf a
        if o.SkipMatches && !seenDiff then .ok (c, "", tr)
        else
          let (c, buf) := terminateTag o c buf
          .ok (c, buf, tr)
    | _, _ => mismatchExitF n o c a b
termination_by structural n => n

/-- Index loop of the `printDiff` slice case (src/jsondiff.go:369-410): the
remaining suffixes of `sa` and `sb` stand for the indices not yet visited;
`nds` is `noDiffSpan`, `sd` is `seenDiff`. -/
def loopArrF : Nat → Options → RCtx → String → List Json → List Json → Nat → Bool →
    Except String (RCtx × String × Nat × Bool × List Difference)
  | 0, _, _, _, _, _, _, _ => .error "fuel"
  | _ + 1, _, c, buf, [], [], nds, sd => .ok (c, buf, nds, sd, [])
  | n + 1, o, c, buf, x :: xs, y :: ys, nds, sd => do
    let (c, childStr, tr1) ← printDiffF n o c x y
    if childStr.length > 0 then do
      let (c, buf, nds) ← printSkippedF o c buf nds o.SkippedSliceString false
      let buf := buf ++ childStr
      afterElemArrF n o c buf xs ys nds sd false tr1
    else
      afterElemArrF n o c buf xs ys nds sd true tr1
  | n + 1, o, c, buf, x :: xs, [], nds, sd => do
    let (c, buf, nds) ← printSkippedF o c buf nds o.SkippedSliceString false
    let (c, buf) := tagV2 o c buf .removed
    let (c, buf) := writeValueF n o c buf x true
    afterElemArrF n o c buf xs [] nds sd false [SupersetMatch]
  | n + 1, o, c, buf, [], y :: ys, nds, sd => do
    let (c, buf, nds) ← printSkippedF o c buf nds o.SkippedSliceString false
    let (c, buf) := tagV2 o c buf .added
    let (c, buf) := writeValueF n o c buf y true
    afterElemArrF n o c buf [] ys nds sd false [NoMatch]
termination_by structural n => n

/-- Tail of one slice-loop iteration (src/jsondiff.go:391-409): update
`noDiffSpan`/`seenDiff`, re-open the Normal tag, emit the separator or the
final skipped-run flush, then continue with the remaining indices. -/
def afterElemArrF : Nat → Options → RCtx → String → List Json → List Json → Nat → Bool →
    Bool → List Difference → Except String (RCtx × String × Nat × Bool × List Difference)
  | 0, _, _, _, _, _, _, _, _, _ => .error "fuel"
  | n + 1, o, c, buf, xs, ys, nds, sd, equals, tr1 =>
    let (nds, sd) :=
      if o.SkipMatches then (if equals then (nds + 1, sd) else (nds, true))
      else (nds, sd)
    let (c, buf) := tagV2 o c buf .normal
    if xs.isEmpty && ys.isEmpty then do
      let (c, buf, nds) ← printSkippedF o c buf nds o.SkippedSliceString true
      let (c, buf) := newlineV2 o { c with level := c.level - 1 } buf ""
      .ok (c, buf, nds, sd, tr1)
    else do
      let (c, buf) :=
        if !o.SkipMatches || !equals then newlineV2 o c buf "," else (c, buf)
      let (c, buf, nds, sd, tr2) ← loopArrF n o c buf xs ys nds sd
      .ok (c, buf, nds, sd, tr1 ++ tr2)
termination_by structural n => n

/-- Key loop of the `printDiff` map case (src/jsondiff.go:444-491) over the
sorted union of keys. -/
def loopMapF : Nat → Options → RCtx → String → List (String × Json) → List (String × Json) →
    List String → Nat → Bool → Except String (RCtx × String × Nat × Bool × List Difference)
  | 0, _, _, _, _, _, _, _, _ => .error "fuel"
  | _ + 1, _, c, buf, _, _, [], nds, sd => .ok (c, buf, nds, sd, [])
  | n + 1, o, c, buf, ma, mb, k :: ks, nds, sd =>
    match lookupJ k ma, lookupJ k mb with
    | some va, some vb => do
      let (c, childStr, tr1) ← printDiffF n o c va vb
      if childStr.length > 0 then do
        let (c, buf, nds) ← printSkippedF o c buf nds o.SkippedKeysString false
        let buf := keyV2 buf k
        let buf := buf ++ childStr
        afterKeyMapF n o c buf ma mb ks nds sd false tr1
      else
        afterKeyMapF n o c buf ma mb ks nds sd true tr1
    | some va, none => do
      let (c, buf, nds) ← printSkippedF o c buf nds o.SkippedKeysString false
      let (c, buf) := tagV2 o c buf .removed
      let buf := keyV2 buf k
      let (c, buf) := writeValueF n o c buf va true
      afterKeyMapF n o c buf ma mb ks nds sd false [SupersetMatch]
    | none, some vb => do
      let (c, buf, nds) ← printSkippedF o c buf nds o.SkippedKeysString false
      let (c, buf) := tagV2 o c buf .added
      let buf := keyV2 buf k
      let (c, buf) := writeValueF n o c buf vb true
      afterKeyMapF n o c buf ma mb ks nds sd false [NoMatch]
    | none, none =>
      afterKeyMapF n o c buf ma mb ks nds sd true []
termination_by structural n => n

/-- Tail of one map-loop iteration (src/jsondiff.go:471-490), mirroring
`afterElemArrF` with the object-keys skip callback. -/
def afterKeyMapF : Nat → Options → RCtx → String → List (String × Json) → List (String × Json) →
    List String → Nat → Bool → Bool → List Difference →
    Except String (RCtx × String × Nat × Bool × List Difference)
  | 0, _, _, _, _, _, _, _, _, _, _ => .error "fuel"
  | n + 1, o, c, buf, ma, mb, ks, nds, sd, equals, tr1 =>
    let (nds, sd) :=
      if o.SkipMatches then (if equals then (nds + 1, sd) else (nds, true))
      else (nds, sd)
    let (c, buf) := tagV2 o c buf .normal
    if ks.isEmpty then do
      let (c, buf, nds) ← printSkippedF o c buf nds o.SkippedKeysString true
      let (c, buf) := newlineV2 o { c with level := c.level - 1 } buf ""
      .ok (c, buf, nds, sd, tr1)
    else do
      let (c, buf) :=
        if !o.SkipMatches || !equals then newlineV2 o c buf "," else (c, buf)
      let (c, buf, nds, sd, tr2) ← loopMapF n o c buf ma mb ks nds sd
      .ok (c, buf, nds, sd, tr1 ++ tr2)
termination_by structural n => n

end

mutual

/-- Structural size of a JSON value, the fuel source for the entry points. -/
def jsize : Json → Nat
  | .null => 1
  | .bool _ => 1
  | .num _ => 1
  | .str _ => 1
  | .arr xs => 1 + jsizeL xs
  | .obj kvs => 1 + jsizeO kvs

def jsizeL : List Json → Nat
  | [] => 1
  | x :: xs => 2 + jsize x + jsizeL xs

def jsizeO : List (String × Json) → Nat
  | [] => 1
  | (_, v) :: kvs => 2 + jsize v + jsizeO kvs

end

/-- Fuel budget used by the entry point. -/
def fuelFor (a b : Json) : Nat :=
  jsize a + jsize b

/-- Translation of `Compare` after decoding (src/jsondiff.go:552-556): run
`printDiff` from a zero context and fold the recorded `context.result` calls
with `resultStep` from the zero value `FullMatch` — exactly the evolution of
the Go field `ctx.diff`. -/
def CompareVals (o : Options) (a b : Json) : Except String (Difference × String) :=
  match printDiffF (fuelFor a b) o {} a b with
  | .error e => .error e
  | .ok (_, s, tr) => .ok (tr.foldl resultStep FullMatch, s)

/-! ### Embedding of the earlier revision in src/unnamed/part_000 (suffix 1)

This revision carries the path-aware exclusion predicate `Skip`.  It writes
into one shared buffer through a lazily invoked `beforePrint`/`writeHeader`
closure chain; the whole mutable state is `St1`, closures are `St1 → St1`
functions, and the per-invocation `printedHeader` flags live in the `phs`
stack (one frame per active container case, pushed on entry, popped on exit,
addressed by its fixed index from the bottom — exactly the lifetime of the Go
local variable). -/

/-- Options of the part_000 revision (lines 73-88): no Skipped tag and no
skip-summary callbacks, but a `Skip` exclusion predicate. -/
structure OptionsV1 where
  Normal : Tag := {}
  Added : Tag := {}
  Removed : Tag := {}
  Changed : Tag := {}
  Pfx : String := ""
  Indent : String := ""
  PrintTypes : Bool := false
  ChangedSeparator : String := ""
  CompareNumbers : Option (String → String → Bool) := none
  SkipMatches : Bool := false
  Skip : Option (String → Json → Json → Bool) := none

def tagOf1 (o : OptionsV1) : TagId → Tag
  | .normal => o.Normal
  | .added => o.Added
  | .removed => o.Removed
  | .changed => o.Changed
  | .skipped => {}

/-- Whole mutable state of a part_000 `context` plus the `printedHeader`
flags of the active `printDiff` container frames. -/
structure St1 where
  buf : String := ""
  level : Nat := 0
  lastTag : Option TagId := none
  trace : List Difference := []
  phs : List Bool := []

def write1 (st : St1) (s : String) : St1 :=
  { st with buf := st.buf ++ s }

/-- Translation of part_000 `context.newline` (lines 141-154): unlike the
other revision it re-opens the last tag after the line break and does not
clear it. -/
def newline1 (o : OptionsV1) (st : St1) (s : String) : St1 :=
  let st := write1 st s
  let st :=
    match st.lastTag with
    | some t => write1 st (tagOf1 o t).End
    | none => st
  let st := write1 st ("\n" ++ o.Pfx ++ String.join (List.replicate st.level o.Indent))
  match st.lastTag with
  | some t => write1 st (tagOf1 o t).Begin
  | none => st

/-- Translation of part_000 `context.key` (lines 156-159). -/
def key1 (st : St1) (k : String) : St1 :=
  write1 st (goQuote k ++ ": ")

/-- Translation of part_000 `context.tag` (lines 251-259). -/
def tag1 (o : OptionsV1) (st : St1) (t : TagId) : St1 :=
  if st.lastTag = some t then st
  else
    let st :=
      match st.lastTag with
      | some lt => write1 st (tagOf1 o lt).End
      | none => st
    { write1 st (tagOf1 o t).Begin with lastTag := some t }

/-- Translation of part_000 `context.result` (lines 261-269): recorded as a
trace entry, folded with the shared `resultStep`. -/
def result1 (st : St1) (d : Difference) : St1 :=
  { st with trace := st.trace ++ [d] }

def compareNumbersFn1 (o : OptionsV1) (a b : String) : Bool :=
  match o.CompareNumbers with
  | some f => f a b
  | none => a == b

def writeType1 (st : St1) (v : Json) : St1 :=
  write1 st (match v with
    | .bool _ => "(boolean)"
    | .num _ => "(number)"
    | .str _ => "(string)"
    | .arr _ => "(array)"
    | .obj _ => "(object)"
    | .null => "(null)")

def writeTypeMaybe1 (o : OptionsV1) (st : St1) (v : Json) : St1 :=
  if o.PrintTypes then writeType1 (write1 st " ") v else st

mutual

/-- Translation of part_000 `context.writeValue` (lines 161-219). -/
def writeValue1F : Nat → OptionsV1 → St1 → Json → Bool → St1
  | 0, _, st, _, _ => st
  | n + 1, o, st, v, full =>
    let st :=
      match v with
      | .bool b => write1 st (cond b "true" "false")
      | .num s => write1 st s
      | .str s => write1 st (goQuote s)
      | .null => write1 st "null"
      | .arr vv =>
        if full then
          let st :=
            if vv.isEmpty then write1 st "["
            else newline1 o { st with level := st.level + 1 } "["
          let st := writeArr1F n o st vv
          write1 st "]"
        else write1 st "[]"
      | .obj kvs =>
        if full then
          let st :=
            if kvs.isEmpty then write1 st "\x7b"
            else newline1 o { st with level := st.level + 1 } "\x7b"
          let st := writeObj1F n o st kvs
          write1 st "\x7d"
        else write1 st "\x7b\x7d"
    writeTypeMaybe1 o st v
termination_by structural n => n

def writeArr1F : Nat → OptionsV1 → St1 → List Json → St1
  | 0, _, st, _ => st
  | _ + 1, _, st, [] => st
  | n + 1, o, st, v :: vs =>
    let st := writeValue1F n o st v true
    match vs with
    | [] => newline1 o { st with level := st.level - 1 } ""
    | _ :: _ => writeArr1F n o (newline1 o st ",") vs
termination_by structural n => n

def writeObj1F : Nat → OptionsV1 → St1 → List (String × Json) → St1
  | 0, _, st, _ => st
  | _ + 1, _, st, [] => st
  | n + 1, o, st, (k, v) :: kvs =>
    let st := key1 st k
    let st := writeValue1F n o st v true
    match kvs with
    | [] => newline1 o { st with level := st.level - 1 } ""
    | _ :: _ => writeObj1F n o (newline1 o st ",") kvs
termination_by structural n => n

end

/-- Translation of part_000 `context.writeMismatch` (lines 245-249). -/
def writeMismatch1F (n : Nat) (o : OptionsV1) (st : St1) (a b : Json) : St1 :=
  let st := writeValue1F n o st a false
  let st := write1 st o.ChangedSeparator
  writeValue1F n o st b false

/-- Translation of part_000 `context.printMismatch` (lines 271-274). -/
def printMismatch1F (n : Nat) (o : OptionsV1) (st : St1) (a b : Json) : St1 :=
  writeMismatch1F n o (tag1 o st .changed) a b

/-- Model of `strings.TrimLeft(path, ".")`. -/
def trimLeftDots : List Char → List Char
  | [] => []
  | c :: cs => if c = '.' then trimLeftDots cs else c :: cs

def trimDots (s : String) : String :=
  String.mk (trimLeftDots s.data)

/-- Translation of part_000 `context.shouldSkip` (lines 276-283): the
predicate is only consulted at a non-root `path` (guard `path != ""`), after
stripping the leading dot. -/
def shouldSkip1 (o : OptionsV1) (path : String) (a b : Json) : Bool :=
  if path ≠ "" then
    match o.Skip with
    | some p => p (trimDots path) a b
    | none => false
  else false

/-- Lazily printed container header for the part_000 slice case
(lines 356-374): guarded by this frame's `printedHeader` flag at stack index
`idx`; runs the caller's `beforePrint`, opens the Normal tag and prints the
bracket line at the level recorded when the closure was made. -/
def writeHeader1 (o : OptionsV1) (bp : St1 → St1) (idx : Nat) (isEmpty : Bool)
    (origLevel : Nat) (bracket : String) (st : St1) : St1 :=
  if st.phs.getD idx false then st
  else
    let st := { st with phs := st.phs.set idx true }
    let st := bp st
    let st := tag1 o st .normal
    if isEmpty then write1 st bracket
    else
      let cur := st.level
      let st := newline1 o { st with level := origLevel } bracket
      { st with level := cur }

mutual

/-- Translation of part_000 `context.printDiff` (lines 285-524): `bp` is the
`beforePrint` closure, the returned flag is `gotDifference`/`hadChanges`. -/
def printDiff1F : Nat → OptionsV1 → String → Json → Json → (St1 → St1) → St1 → St1 × Bool
  | 0, _, _, _, _, _, st => (st, false)
  | n + 1, o, path, a, b, bp, st =>
    if shouldSkip1 o path a b then (st, false)
    else
      match a, b with
      | .null, .null =>
        let st :=
          if o.SkipMatches then st
          else
            let st := bp st
            let st := tag1 o st .normal
            writeValue1F n o st .null false
        (result1 st FullMatch, false)
      | .null, _ => (result1 (printMismatch1F n o (bp st) a b) NoMatch, true)
      | _, .null => (result1 (printMismatch1F n o (bp st) a b) NoMatch, true)
      | .bool x, .bool y =>
        if x ≠ y then (result1 (printMismatch1F n o (bp st) a b) NoMatch, true)
        else scalarMatch1F n o a bp st
      | .num x, .num y =>
        if !compareNumbersFn1 o x y then
          (result1 (printMismatch1F n o (bp st) a b) NoMatch, true)
        else scalarMatch1F n o a bp st
      | .num _, .str _ => (result1 (printMismatch1F n o (bp st) a b) NoMatch, true)
      | .str _, .num _ => (result1 (printMismatch1F n o (bp st) a b) NoMatch, true)
      | .str x, .str y =>
        if x ≠ y then (result1 (printMismatch1F n o (bp st) a b) NoMatch, true)
        else scalarMatch1F n o a bp st
      | .arr sa, .arr sb =>
        let mx := max sa.length sb.length
        let st := if 0 < mx then { st with level := st.level + 1 } else st
        let origLevel := st.level
        let idx := st.phs.length
        let st := { st with phs := st.phs ++ [false] }
        let wh := writeHeader1 o bp idx (decide (mx = 0)) origLevel "["
        let st := if !o.SkipMatches then wh st else st
        let (st, gd) := loopArr1F n o path sa sb wh st false
        let st :=
          if gd || !o.SkipMatches then writeTypeMaybe1 o (write1 st "]") a else st
        ({ st with phs := st.phs.dropLast }, gd)
      | .obj ma, .obj mb =>
        let keys := sortStrs (dedupStrs (keysOf ma ++ keysOf mb))
        let st := if !keys.isEmpty then { st with level := st.level + 1 } else st
        let origLevel := st.level
        let idx := st.phs.length
        let st := { st with phs := st.phs ++ [false] }
        let wh := writeHeader1 o bp idx keys.isEmpty origLevel "\x7b"
        let st := if !o.SkipMatches then wh st else st
        let (st, gd) := loopMap1F n o path ma mb keys wh st false
        let st :=
          if gd || !o.SkipMatches then writeTypeMaybe1 o (write1 st "\x7d") a else st
        ({ st with phs := st.phs.dropLast }, gd)
      | _, _ => (result1 (printMismatch1F n o (bp st) a b) NoMatch, true)
termination_by structural n => n

/-- Fallthrough scalar-match path of part_000 `printDiff` (lines 516-523). -/
def scalarMatch1F : Nat → OptionsV1 → Json → (St1 → St1) → St1 → St1 × Bool
  | 0, _, _, _, st => (st, false)
  | n + 1, o, a, bp, st =>
    if o.SkipMatches then (st, false)
    else
      let st := bp st
      let st := tag1 o st .normal
      let st := writeValue1F n o st a true
      (result1 st FullMatch, false)

/-- Element loop of the part_000 slice case (lines 380-414). -/
def loopArr1F : Nat → OptionsV1 → String → List Json → List Json → (St1 → St1) → St1 →
    Bool → St1 × Bool
  | 0, _, _, _, _, _, st, gd => (st, gd)
  | _ + 1, _, _, [], [], _, st, gd => (st, gd)
  | n + 1, o, path, x :: xs, y :: ys, wh, st, gd =>
    let (st, hc) := printDiff1F n o path x y wh st
    afterElem1F n o path xs ys wh st gd hc
  | n + 1, o, path, x :: xs, [], wh, st, gd =>
    let st := tag1 o st .removed
    let st := writeValue1F n o st x true
    let st := result1 st SupersetMatch
    afterElem1F n o path xs [] wh st gd true
  | n + 1, o, path, [], y :: ys, wh, st, gd =>
    let st := tag1 o st .added
    let st := writeValue1F n o st y true
    let st := result1 st NoMatch
    afterElem1F n o path [] ys wh st gd true
termination_by structural n => n

/-- Tail of one part_000 slice-loop iteration (lines 398-413). -/
def afterElem1F : Nat → OptionsV1 → String → List Json → List Json → (St1 → St1) → St1 →
    Bool → Bool → St1 × Bool
  | 0, _, _, _, _, _, st, gd, _ => (st, gd)
  | n + 1, o, path, xs, ys, wh, st, gd, hc =>
    let last := xs.isEmpty && ys.isEmpty
    let st := if last then { st with level := st.level - 1 } else st
    let st :=
      if hc || !o.SkipMatches then
        let st := tag1 o st .normal
        if !last then newline1 o st "," else newline1 o st ""
      else st
    let gd := gd || hc
    if last then (st, gd)
    else loopArr1F n o path xs ys wh st gd
termination_by structural n => n

/-- Key loop of the part_000 map case (lines 465-506): the child's
`beforePrint` prints the header and then the key. -/
def loopMap1F : Nat → OptionsV1 → String → List (String × Json) → List (String × Json) →
    List String → (St1 → St1) → St1 → Bool → St1 × Bool
  | 0, _, _, _, _, _, _, st, gd => (st, gd)
  | _ + 1, _, _, _, _, [], _, st, gd => (st, gd)
  | n + 1, o, path, ma, mb, k :: ks, wh, st, gd =>
    match lookupJ k ma, lookupJ k mb with
    | some va, some vb =>
      let (st, hc) := printDiff1F n o (path ++ "." ++ k) va vb
        (fun st => key1 (wh st) k) st
      afterKey1F n o path ma mb ks wh st gd hc
    | some va, none =>
      let st := wh st
      let st := tag1 o st .removed
      let st := key1 st k
      let st := writeValue1F n o st va true
      let st := result1 st SupersetMatch
      afterKey1F n o path ma mb ks wh st gd true
    | none, some vb =>
      let st := wh st
      let st := tag1 o st .added
      let st := key1 st k
      let st := writeValue1F n o st vb true
      let st := result1 st NoMatch
      afterKey1F n o path ma mb ks wh st gd true
    | none, none =>
      afterKey1F n o path ma mb ks wh st gd false
termination_by structural n => n

/-- Tail of one part_000 map-loop iteration (lines 490-505). -/
def afterKey1F : Nat → OptionsV1 → String → List (String × Json) → List (String × Json) →
    List String → (St1 → St1) → St1 → Bool → Bool → St1 × Bool
  | 0, _, _, _, _, _, _, st, gd, _ => (st, gd)
  | n + 1, o, path, ma, mb, ks, wh, st, gd, hc =>
    let last := ks.isEmpty
    let st := if last then { st with level := st.level - 1 } else st
    let st :=
      if hc || !o.SkipMatches then
        let st := tag1 o st .normal
        if !last then newline1 o st "," else newline1 o st ""
      else st
    let gd := gd || hc
    if last then (st, gd)
    else loopMap1F n o path ma mb ks wh st gd
termination_by structural n => n

end

/-- Translation of the part_000 `Compare` tail (lines 569-574): run from the
root (empty path) with a no-op `beforePrint`, close a dangling tag, and fold
the verdict trace. -/
def Compare1 (o : OptionsV1) (a b : Json) : Difference × String :=
  let (st, _) := printDiff1F (fuelFor a b) o "" a b id {}
  let st :=
    match st.lastTag with
    | some t => write1 st (tagOf1 o t).End
    | none => st
  (st.trace.foldl resultStep FullMatch, st.buf)

/-! ### Model of the current revision, which is missing from src/ (suffix P)

Only the current revision's test file (src/jsondiff_test.go) is under src/;
the implementation itself is not.  The definitions below are modelled from the
spec, with the behaviours the repository's own tests pin taken from those
tests; each doc comment states its provenance. -/

/-- Modelled from the spec: the reserved presence-marker string constant
(spec section 3, "Presence marker"), exercised throughout
src/jsondiff_test.go:242-461. -/
def presenceMarker : String :=
  "<<PRESENCE>>"

/-- Modelled from the spec: whether a value is the presence-marker String leaf
(spec section 3: special only "when it appears as a String leaf on the
expected (second) argument's side"). -/
def isPresenceMarker : Json → Bool
  | .str s => s == presenceMarker
  | _ => false

/-- Modelled from the spec: Options of the current revision, missing from
src/; the skip-summary callback fields are named as the test file uses them
(`SkippedArrayElement`, `SkippedObjectProperty`,
src/jsondiff_test.go:176-187). -/
structure OptionsP where
  Normal : Tag := {}
  Added : Tag := {}
  Removed : Tag := {}
  Changed : Tag := {}
  Skipped : Tag := {}
  SkippedArrayElement : Option (Nat → String) := none
  SkippedObjectProperty : Option (Nat → String) := none
  Pfx : String := ""
  Indent : String := ""
  PrintTypes : Bool := false
  ChangedSeparator : String := ""
  CompareNumbers : Option (String → String → Bool) := none
  SkipMatches : Bool := false

def tagOfP (o : OptionsP) : TagId → Tag
  | .normal => o.Normal
  | .added => o.Added
  | .removed => o.Removed
  | .changed => o.Changed
  | .skipped => o.Skipped

def compareNumbersFnP (o : OptionsP) (a b : String) : Bool :=
  match o.CompareNumbers with
  | some f => f a b
  | none => a == b

def terminateTagP (o : OptionsP) (c : RCtx) (buf : String) : RCtx × String :=
  match c.lastTag with
  | some t => ({ c with lastTag := none }, buf ++ (tagOfP o t).End)
  | none => (c, buf)

def indentOfP (o : OptionsP) : Nat → String
  | 0 => ""
  | n + 1 => indentOfP o n ++ o.Indent

def newlineP (o : OptionsP) (c : RCtx) (buf : String) (s : String) : RCtx × String :=
  let buf := buf ++ s
  let (c, buf) := terminateTagP o c buf
  let buf := buf ++ "\n" ++ o.Pfx ++ indentOfP o c.level
  terminateTagP o c buf

def tagP (o : OptionsP) (c : RCtx) (buf : String) (t : TagId) : RCtx × String :=
  if c.lastTag = some t then (c, buf)
  else
    let buf :=
      match c.lastTag with
      | some lt => buf ++ (tagOfP o lt).End
      | none => buf
    ({ c with lastTag := some t }, buf ++ (tagOfP o t).Begin)

def writeTypeMaybeP (o : OptionsP) (buf : String) (v : Json) : String :=
  if o.PrintTypes then writeType (buf ++ " ") v else buf

mutual

def writeValuePF : Nat → OptionsP → RCtx → String → Json → Bool → RCtx × String
  | 0, _, c, buf, _, _ => (c, buf)
  | n + 1, o, c, buf, v, full =>
    let (c, buf) :=
      match v with
      | .bool b => (c, buf ++ cond b "true" "false")
      | .num s => (c, buf ++ s)
      | .str s => (c, buf ++ goQuote s)
      | .null => (c, buf ++ "null")
      | .arr vv =>
        if full then
          let (c, buf) :=
            if vv.isEmpty then (c, buf ++ "[")
            else newlineP o { c with level := c.level + 1 } buf "["
          let (c, buf) := writeArrPF n o c buf vv
          (c, buf ++ "]")
        else (c, buf ++ "[]")
      | .obj kvs =>
        if full then
          let (c, buf) :=
            if kvs.isEmpty then (c, buf ++ "\x7b")
            else newlineP o { c with level := c.level + 1 } buf "\x7b"
          let (c, buf) := writeObjPF n o c buf kvs
          (c, buf ++ "\x7d")
        else (c, buf ++ "\x7b\x7d")
    (c, writeTypeMaybeP o buf v)
termination_by structural n => n

def writeArrPF : Nat → OptionsP → RCtx → String → List Json → RCtx × String
  | 0, _, c, buf, _ => (c, buf)
  | _ + 1, _, c, buf, [] => (c, buf)
  | n + 1, o, c, buf, v :: vs =>
    let (c, buf) := writeValuePF n o c buf v true
    match vs with
    | [] => newlineP o { c with level := c.level - 1 } buf ""
    | _ :: _ =>
      let (c, buf) := newlineP o c buf ","
      writeArrPF n o c buf vs
termination_by structural n => n

def writeObjPF : Nat → OptionsP → RCtx → String → List (String × Json) → RCtx × String
  | 0, _, c, buf, _ => (c, buf)
  | _ + 1, _, c, buf, [] => (c, buf)
  | n + 1, o, c, buf, (k, v) :: kvs =>
    let buf := keyV2 buf k
    let (c, buf) := writeValuePF n o c buf v true
    match kvs with
    | [] => newlineP o { c with level := c.level - 1 } buf ""
    | _ :: _ =>
      let (c, buf) := newlineP o c buf ","
      writeObjPF n o c buf kvs
termination_by structural n => n

end

def printMismatchPF (n : Nat) (o : OptionsP) (c : RCtx) (buf : String) (a b : Json) :
    RCtx × String :=
  let (c, buf) := tagP o c buf .changed
  let (c, buf) := writeValuePF n o c buf a false
  let buf := buf ++ o.ChangedSeparator
  writeValuePF n o c buf b false

/-- Modelled from the spec: the current revision's skipped-run flush.  Unlike
src/jsondiff.go:269-280, a nil callback silently drops the run (spec section
4.3: "if no callback is configured, the run is silently dropped from output");
the tests exercise this with `SkippedArrayElement`/`SkippedObjectProperty` set
to nil (src/jsondiff_test.go:139-167,184-188). -/
def printSkippedPF (o : OptionsP) (c : RCtx) (buf : String) (nds : Nat)
    (strfunc : Option (Nat → String)) (last : Bool) : RCtx × String × Nat :=
  if nds = 0 then (c, buf, nds)
  else
    match strfunc with
    | none => (c, buf, 0)
    | some f =>
      let (c, buf) := tagP o c buf .skipped
      let buf := buf ++ f nds
      let (c, buf) :=
        if !last then
          let (c, buf) := tagP o c buf .normal
          newlineP o c buf ","
        else (c, buf)
      (c, buf, 0)

def mismatchExitPF (n : Nat) (o : OptionsP) (c : RCtx) (a b : Json) :
    RCtx × String × List Difference :=
  let (c, buf) := printMismatchPF n o c "" a b
  let (c, buf) := terminateTagP o c buf
  (c, buf, [NoMatch])

def matchScalarExitPF (n : Nat) (o : OptionsP) (c : RCtx) (a : Json) :
    RCtx × String × List Difference :=
  if o.SkipMatches then
    let (c, buf) := terminateTagP o c ""
    (c, buf, [])
  else
    let (c, buf) := tagP o c "" .normal
    let (c, buf) := writeValuePF n o c buf a true
    let (c, buf) := terminateTagP o c buf
    (c, buf, [FullMatch])

mutual

/-- Modelled from the spec: `printDiff` of the current revision, missing from
src/.  It is the src/jsondiff.go walk extended with the presence assertion
(spec section 4.2 rule 3) checked before everything else: when the expected
(second) side is the presence-marker string, the comparison succeeds as a
`FullMatch` for ANY first-side value — including explicit null, which the
spec's rule 3 would fail but the repository's own tests pin as present
(src/jsondiff_test.go:364-369, "null value vs presence requirement ...
FullMatch, null is considered present").  An absent key/index never reaches
this branch: it takes the added branch of the container loops, contributing
NoMatch, as both the spec and the tests agree. -/
def printDiffPF : Nat → OptionsP → RCtx → Json → Json → RCtx × String × List Difference
  | 0, _, c, _, _ => (c, "", [])
  | n + 1, o, c, a, b =>
    if isPresenceMarker b then matchScalarExitPF n o c a
    else
    match a, b with
    | .null, .null =>
      if o.SkipMatches then
        let (c, buf) := terminateTagP o c ""
        (c, buf, [])
      else
        let (c, buf) := tagP o c "" .normal
        let (c, buf) := writeValuePF n o c buf .null false
        let (c, buf) := terminateTagP o c buf
        (c, buf, [FullMatch])
    | .null, _ => mismatchExitPF n o c a b
    | _, .null => mismatchExitPF n o c a b
    | .bool x, .bool y =>
      if x ≠ y then mismatchExitPF n o c a b
      else matchScalarExitPF n o c a
    | .num x, .num y =>
      if !compareNumbersFnP o x y then mismatchExitPF n o c a b
      else matchScalarExitPF n o c a
    | .num _, .str _ => mismatchExitPF n o c a b
    | .str _, .num _ => mismatchExitPF n o c a b
    | .str x, .str y =>
      if x ≠ y then mismatchExitPF n o c a b
      else matchScalarExitPF n o c a
    | .arr sa, .arr sb =>
      let mx := max sa.length sb.length
      let (c, buf) := tagP o c "" .normal
      let (c, buf) :=
        if mx = 0 then (c, buf ++ "[")
        else newlineP o { c with level := c.level + 1 } buf "["
      let seenDiff := decide (0 < mx) && decide (sa.length ≠ sb.length)
      match loopArrPF n o c buf sa sb 0 seenDiff with
      | (c, buf, _, seenDiff, tr) =>
        let buf := buf ++ "]"
        let buf := writeTypeMaybeP o buf a
        if o.SkipMatches && !seenDiff then (c, "", tr)
        else
          let (c, buf) := terminateTagP o c buf
          (c, buf, tr)
    | .obj ma, .obj mb =>
      let keys := sortStrs (dedupStrs (keysOf ma ++ keysOf mb))
      let (c, buf) := tagP o c "" .normal
      let (c, buf) :=
        if keys.isEmpty then (c, buf ++ "\x7b")
        else newlineP o { c with level := c.level + 1 } buf "\x7b"
      match loopMapPF n o c buf ma mb keys 0 false with
      | (c, buf, _, seenDiff, tr) =>
        let buf := buf ++ "\x7d"
        let buf := writeTypeMaybeP o buf a
        if o.SkipMatches && !seenDiff then (c, "", tr)
        else
          let (c, buf) := terminateTagP o c buf
          (c, buf, tr)
    | _, _ => mismatchExitPF n o c a b
termination_by structural n => n

def loopArrPF : Nat → OptionsP → RCtx → String → List Json → List Json → Nat → Bool →
    RCtx × String × Nat × Bool × List Difference
  | 0, _, c, buf, _, _, nds, sd => (c, buf, nds, sd, [])
  | _ + 1, _, c, buf, [], [], nds, sd => (c, buf, nds, sd, [])
  | n + 1, o, c, buf, x :: xs, y :: ys, nds, sd =>
    match printDiffPF n o c x y with
    | (c, childStr, tr1) =>
      if childStr.length > 0 then
        let (c, buf, nds) := printSkippedPF o c buf nds o.SkippedArrayElement false
        let buf := buf ++ childStr
        afterElemArrPF n o c buf xs ys nds sd false tr1
      else
        afterElemArrPF n o c buf xs ys nds sd true tr1
  | n + 1, o, c, buf, x :: xs, [], nds, sd =>
    let (c, buf, nds) := printSkippedPF o c buf nds o.SkippedArrayElement false
    let (c, buf) := tagP o c buf .removed
    let (c, buf) := writeValuePF n o c buf x true
    afterElemArrPF n o c buf xs [] nds sd false [SupersetMatch]
  | n + 1, o, c, buf, [], y :: ys, nds, sd =>
    let (c, buf, nds) := printSkippedPF o c buf nds o.SkippedArrayElement false
    let (c, buf) := tagP o c buf .added
    let (c, buf) := writeValuePF n o c buf y true
    afterElemArrPF n o c buf [] ys nds sd false [NoMatch]
termination_by structural n => n

def afterElemArrPF : Nat → OptionsP → RCtx → String → List Json → List Json → Nat → Bool →
    Bool → List Difference → RCtx × String × Nat × Bool × List Difference
  | 0, _, c, buf, _, _, nds, sd, _, tr1 => (c, buf, nds, sd, tr1)
  | n + 1, o, c, buf, xs, ys, nds, sd, equals, tr1 =>
    let (nds, sd) :=
      if o.SkipMatches then (if equals then (nds + 1, sd) else (nds, true))
      else (nds, sd)
    let (c, buf) := tagP o c buf .normal
    if xs.isEmpty && ys.isEmpty then
      let (c, buf, nds) := printSkippedPF o c buf nds o.SkippedArrayElement true
      let (c, buf) := newlineP o { c with level := c.level - 1 } buf ""
      (c, buf, nds, sd, tr1)
    else
      let (c, buf) :=
        if !o.SkipMatches || !equals then newlineP o c buf "," else (c, buf)
      match loopArrPF n o c buf xs ys nds sd with
      | (c, buf, nds, sd, tr2) => (c, buf, nds, sd, tr1 ++ tr2)
termination_by structural n => n

def loopMapPF : Nat → OptionsP → RCtx → String → List (String × Json) → List (String × Json) →
    List String → Nat → Bool → RCtx × String × Nat × Bool × List Difference
  | 0, _, c, buf, _, _, _, nds, sd => (c, buf, nds, sd, [])
  | _ + 1, _, c, buf, _, _, [], nds, sd => (c, buf, nds, sd, [])
  | n + 1, o, c, buf, ma, mb, k :: ks, nds, sd =>
    match lookupJ k ma, lookupJ k mb with
    | some va, some vb =>
      match printDiffPF n o c va vb with
      | (c, childStr, tr1) =>
        if childStr.length > 0 then
          let (c, buf, nds) := printSkippedPF o c buf nds o.SkippedObjectProperty false
          let buf := keyV2 buf k
          let buf := buf ++ childStr
          afterKeyMapPF n o c buf ma mb ks nds sd false tr1
        else
          afterKeyMapPF n o c buf ma mb ks nds sd true tr1
    | some va, none =>
      let (c, buf, nds) := printSkippedPF o c buf nds o.SkippedObjectProperty false
      let (c, buf) := tagP o c buf .removed
      let buf := keyV2 buf k
      let (c, buf) := writeValuePF n o c buf va true
      afterKeyMapPF n o c buf ma mb ks nds sd false [SupersetMatch]
    | none, some vb =>
      let (c, buf, nds) := printSkippedPF o c buf nds o.SkippedObjectProperty false
      let (c, buf) := tagP o c buf .added
      let buf := keyV2 buf k
      let (c, buf) := writeValuePF n o c buf vb true
      afterKeyMapPF n o c buf ma mb ks nds sd false [NoMatch]
    | none, none =>
      afterKeyMapPF n o c buf ma mb ks nds sd true []
termination_by structural n => n

def afterKeyMapPF : Nat → OptionsP → RCtx → String → List (String × Json) → List (String × Json) →
    List String → Nat → Bool → Bool → List Difference →
    RCtx × String × Nat × Bool × List Difference
  | 0, _, c, buf, _, _, _, nds, sd, _, tr1 => (c, buf, nds, sd, tr1)
  | n + 1, o, c, buf, ma, mb, ks, nds, sd, equals, tr1 =>
    let (nds, sd) :=
      if o.SkipMatches then (if equals then (nds + 1, sd) else (nds, true))
      else (nds, sd)
    let (c, buf) := tagP o c buf .normal
    if ks.isEmpty then
      let (c, buf, nds) := printSkippedPF o c buf nds o.SkippedObjectProperty true
      let (c, buf) := newlineP o { c with level := c.level - 1 } buf ""
      (c, buf, nds, sd, tr1)
    else
      let (c, buf) :=
        if !o.SkipMatches || !equals then newlineP o c buf "," else (c, buf)
      match loopMapPF n o c buf ma mb ks nds sd with
      | (c, buf, nds, sd, tr2) => (c, buf, nds, sd, tr1 ++ tr2)
termination_by structural n => n

end

/-- Modelled from the spec: the current revision's `Compare` after decoding,
missing from src/.  A nil options pointer is replaced by the all-default
Options value (spec section 6: "absence implies all defaults"); the tests call
`Compare` with nil throughout src/jsondiff_test.go:242-461. -/
def CompareP (opts : Option OptionsP) (a b : Json) : Difference × String :=
  let o := opts.getD {}
  match printDiffPF (fuelFor a b) o {} a b with
  | (_, s, tr) => (tr.foldl resultStep FullMatch, s)

/-! ### Decoding boundary (for the `Compare` entry point on byte buffers)

`Compare` (src/jsondiff.go:534-550) decodes each buffer with
`json.NewDecoder(...).Decode(&v)` after `UseNumber()`.  `Decoder.Decode` reads
exactly ONE JSON value from the stream and leaves whatever follows unread, so
trailing bytes after a complete first value are not an error.  The parser
below is a boundary model of that decoder: numbers are kept as their literal
token (`UseNumber`), and the un-consumed remainder is returned and ignored by
`decodeGo`, exactly as `Compare` ignores the decoder's remaining input. -/

def isWsChar (c : Char) : Bool :=
  c = ' ' || c = '\t' || c = '\n' || c = '\r'

def skipWs : List Char → List Char
  | [] => []
  | c :: cs => if isWsChar c then skipWs cs else c :: cs

def isDigitChar (c : Char) : Bool :=
  '0'.toNat ≤ c.toNat && c.toNat ≤ '9'.toNat

def takeDigits : List Char → List Char × List Char
  | [] => ([], [])
  | c :: cs =>
    if isDigitChar c then
      let (ds, rest) := takeDigits cs
      (c :: ds, rest)
    else ([], c :: cs)

/-- Literal number token: optional minus, digits, optional fraction, optional
exponent — the token `json.Number` retains verbatim. -/
def parseNumTok (l : List Char) : Option (List Char × List Char) :=
  let (neg, l1) :=
    match l with
    | '-' :: rest => (['-'], rest)
    | _ => (([] : List Char), l)
  match takeDigits l1 with
  | ([], _) => none
  | (ds, l2) =>
    let (frac, l3) :=
      match l2 with
      | '.' :: rest =>
        match takeDigits rest with
        | ([], _) => (([] : List Char), l2)
        | (fs, r2) => ('.' :: fs, r2)
      | _ => (([] : List Char), l2)
    let (ex, l4) :=
      match l3 with
      | 'e' :: rest =>
        (match rest with
         | '+' :: r2 => (match takeDigits r2 with
           | ([], _) => (([] : List Char), l3)
           | (es, r3) => ('e' :: '+' :: es, r3))
         | '-' :: r2 => (match takeDigits r2 with
           | ([], _) => (([] : List Char), l3)
           | (es, r3) => ('e' :: '-' :: es, r3))
         | _ => (match takeDigits rest with
           | ([], _) => (([] : List Char), l3)
           | (es, r2) => ('e' :: es, r2)))
      | 'E' :: rest =>
        (match rest with
         | '+' :: r2 => (match takeDigits r2 with
           | ([], _) => (([] : List Char), l3)
           | (es, r3) => ('E' :: '+' :: es, r3))
         | '-' :: r2 => (match takeDigits r2 with
           | ([], _) => (([] : List Char), l3)
           | (es, r3) => ('E' :: '-' :: es, r3))
         | _ => (match takeDigits rest with
           | ([], _) => (([] : List Char), l3)
           | (es, r2) => ('E' :: es, r2)))
      | _ => (([] : List Char), l3)
    some (neg ++ ds ++ frac ++ ex, l4)

/-- JSON string body after the opening quote, with the common escapes. -/
def parseStrBody : Nat → List Char → Option (List Char × List Char)
  | 0, _ => none
  | _ + 1, [] => none
  | n + 1, c :: cs =>
    if c = '"' then some ([], cs)
    else if c = '\\' then
      match cs with
      | [] => none
      | e :: cs2 =>
        let dec : Option Char :=
          if e = '"' then some '"'
          else if e = '\\' then some '\\'
          else if e = '/' then some '/'
          else if e = 'n' then some '\n'
          else if e = 't' then some '\t'
          else if e = 'r' then some '\r'
          else none
        match dec with
        | none => none
        | some d =>
          match parseStrBody n cs2 with
          | some (body, rest) => some (d :: body, rest)
          | none => none
    else
      match parseStrBody n cs with
      | some (body, rest) => some (c :: body, rest)
      | none => none

mutual

/-- One JSON value from the front of the stream; returns the un-consumed
remainder. -/
def parseValue : Nat → List Char → Option (Json × List Char)
  | 0, _ => none
  | n + 1, l =>
    match skipWs l with
    | [] => none
    | c :: cs =>
      if c = 'n' then
        match cs with
        | 'u' :: 'l' :: 'l' :: rest => some (.null, rest)
        | _ => none
      else if c = 't' then
        match cs with
        | 'r' :: 'u' :: 'e' :: rest => some (.bool true, rest)
        | _ => none
      else if c = 'f' then
        match cs with
        | 'a' :: 'l' :: 's' :: 'e' :: rest => some (.bool false, rest)
        | _ => none
      else if c = '"' then
        match parseStrBody (n + 1) cs with
        | some (body, rest) => some (.str (String.mk body), rest)
        | none => none
      else if c = '[' then
        match skipWs cs with
        | ']' :: rest => some (.arr [], rest)
        | l2 => match parseArrElems n l2 with
          | some (elems, rest) => some (.arr elems, rest)
          | none => none
      else if c = '\x7b' then
        match skipWs cs with
        | '\x7d' :: rest => some (.obj [], rest)
        | l2 => match parseObjFields n l2 with
          | some (kvs, rest) => some (.obj kvs, rest)
          | none => none
      else
        match parseNumTok (c :: cs) with
        | some (tok, rest) => some (.num (String.mk tok), rest)
        | none => none
termination_by structural n => n

def parseArrElems : Nat → List Char → Option (List Json × List Char)
  | 0, _ => none
  | n + 1, l =>
    match parseValue n l with
    | none => none
    | some (v, rest) =>
      match skipWs rest with
      | ',' :: r2 =>
        (match parseArrElems n r2 with
         | some (vs, r3) => some (v :: vs, r3)
         | none => none)
      | ']' :: r2 => some ([v], r2)
      | _ => none
termination_by structural n => n

def parseObjFields : Nat → List Char → Option (List (String × Json) × List Char)
  | 0, _ => none
  | n + 1, l =>
    match skipWs l with
    | '"' :: cs =>
      (match parseStrBody n cs with
       | none => none
       | some (kbody, rest) =>
         match skipWs rest with
         | ':' :: r2 =>
           (match parseValue n r2 with
            | none => none
            | some (v, r3) =>
              match skipWs r3 with
              | ',' :: r4 =>
                (match parseObjFields n r4 with
                 | some (kvs, r5) => some ((String.mk kbody, v) :: kvs, r5)
                 | none => none)
              | '\x7d' :: r4 => some ([(String.mk kbody, v)], r4)
              | _ => none)
         | _ => none)
    | _ => none
termination_by structural n => n

end

/-- Boundary model of `json.NewDecoder(bytes.NewReader(s)).Decode(&v)` with
`UseNumber()`: decode ONLY the first JSON value and discard the un-consumed
remainder (trailing bytes are not an error for `Decoder.Decode`). -/
def decodeGo (s : String) : Option Json :=
  match parseValue (s.length + 1) s.data with
  | some (v, _) => some v
  | none => none

/-- Translation of `Compare` (src/jsondiff.go:534-557): decode both buffers,
report the three invalid-JSON classifications with their fixed messages, else
run the walk. -/
def CompareBytes (o : Options) (a b : String) : Except String (Difference × String) :=
  match decodeGo a, decodeGo b with
  | none, none => .ok (BothArgsAreInvalidJson, "both arguments are invalid json")
  | none, some _ => .ok (FirstArgIsInvalidJson, "first argument is invalid json")
  | some _, none => .ok (SecondArgIsInvalidJson, "second argument is invalid json")
  | some av, some bv => CompareVals o av bv

/-! ### Statement helpers -/

/-- Classification component of a comparison outcome. -/
def classOf (r : Except String (Difference × String)) : Option Difference :=
  match r with
  | .ok (d, _) => some d
  | .error _ => none

/-- Rendered-text component of a comparison outcome. -/
def textOf (r : Except String (Difference × String)) : Option String :=
  match r with
  | .ok (_, s) => some s
  | .error _ => none

def countOccurL (p : List Char) : List Char → Nat
  | [] => 0
  | c :: cs => (if p.isPrefixOf (c :: cs) then 1 else 0) + countOccurL p cs

/-- Number of (possibly overlapping) occurrences of `pat` in `s`. -/
def countOccur (pat s : String) : Nat :=
  countOccurL pat.data s.data

/-- Traces recorded by the walk hold only per-node verdicts. -/
def ValidTr (tr : List Difference) : Prop :=
  ∀ d ∈ tr, IsNodeVerdict d

instance (tr : List Difference) : Decidable (ValidTr tr) := by
  unfold ValidTr; infer_instance

/-! ### Aggregation lemmas (context.result) -/

lemma isNodeVerdict_FullMatch : IsNodeVerdict FullMatch := Or.inl rfl

lemma resultStep_eq_sevMax {c d : Difference} (hc : IsNodeVerdict c) (hd : IsNodeVerdict d) :
    resultStep c d = sevMax c d := by
  rcases hc with rfl | rfl | rfl <;> rcases hd with rfl | rfl | rfl <;> rfl

lemma isNodeVerdict_sevMax {c d : Difference} (hc : IsNodeVerdict c) (hd : IsNodeVerdict d) :
    IsNodeVerdict (sevMax c d) := by
  unfold sevMax
  split <;> assumption

lemma foldl_resultStep_eq_sevMax (ds : List Difference) :
    ∀ c, IsNodeVerdict c → (∀ d ∈ ds, IsNodeVerdict d) →
      ds.foldl resultStep c = ds.foldl sevMax c := by
  induction ds with
  | nil => intro c _ _; rfl
  | cons d ds ih =>
    intro c hc hds
    have hd : IsNodeVerdict d := hds d (by simp)
    rw [List.foldl_cons, List.foldl_cons, resultStep_eq_sevMax hc hd]
    exact ih _ (isNodeVerdict_sevMax hc hd) (fun e he => hds e (by simp [he]))

lemma resultStep_noMatch_left (d : Difference) : resultStep NoMatch d = NoMatch := by
  cases d <;> rfl

lemma resultStep_noMatch_right (c : Difference) : resultStep c NoMatch = NoMatch := rfl

lemma foldl_resultStep_from_noMatch (ds : List Difference) :
    ds.foldl resultStep NoMatch = NoMatch := by
  induction ds with
  | nil => rfl
  | cons d ds ih => rw [List.foldl_cons, resultStep_noMatch_left]; exact ih

lemma foldl_resultStep_noMatch_mem {ds : List Difference} (h : NoMatch ∈ ds) :
    ∀ c, ds.foldl resultStep c = NoMatch := by
  induction ds with
  | nil => cases h
  | cons d ds ih =>
    intro c
    rcases List.mem_cons.mp h with rfl | hmem
    · rw [List.foldl_cons, resultStep_noMatch_right, foldl_resultStep_from_noMatch]
    · exact ih hmem _

lemma foldl_resultStep_from_superset {ds : List Difference}
    (hds : ∀ d ∈ ds, IsNodeVerdict d) (hno : NoMatch ∉ ds) :
    ds.foldl resultStep SupersetMatch = SupersetMatch := by
  induction ds with
  | nil => rfl
  | cons d ds ih =>
    have hd : IsNodeVerdict d := hds d (by simp)
    have hd' : d ≠ NoMatch := fun h => hno (by simp [h])
    rw [List.foldl_cons]
    have : resultStep SupersetMatch d = SupersetMatch := by
      rcases hd with rfl | rfl | rfl
      · rfl
      · rfl
      · exact absurd rfl hd'
    rw [this]
    exact ih (fun e he => hds e (by simp [he])) (fun h => hno (by simp [h]))

lemma foldl_resultStep_superset_mem {ds : List Difference}
    (hds : ∀ d ∈ ds, IsNodeVerdict d) (hno : NoMatch ∉ ds) (hs : SupersetMatch ∈ ds) :
    ds.foldl resultStep FullMatch = SupersetMatch := by
  induction ds with
  | nil => cases hs
  | cons d ds ih =>
    have hd : IsNodeVerdict d := hds d (by simp)
    rw [List.foldl_cons]
    rcases List.mem_cons.mp hs with rfl | hmem
    · rw [show resultStep FullMatch SupersetMatch = SupersetMatch from rfl]
      exact foldl_resultStep_from_superset (fun e he => hds e (by simp [he]))
        (fun h => hno (by simp [h]))
    · have hd' : d ≠ NoMatch := fun h => hno (by simp [h])
      rcases hd with rfl | rfl | rfl
      · exact ih (fun e he => hds e (by simp [he])) (fun h => hno (by simp [h])) hmem
      · rw [show resultStep FullMatch SupersetMatch = SupersetMatch from rfl]
        exact foldl_resultStep_from_superset (fun e he => hds e (by simp [he]))
          (fun h => hno (by simp [h]))
      · exact absurd rfl hd'

lemma foldl_resultStep_allFull {ds : List Difference}
    (h : ∀ d ∈ ds, d = FullMatch) :
    ds.foldl resultStep FullMatch = FullMatch := by
  induction ds with
  | nil => rfl
  | cons d ds ih =>
    have hd := h d (by simp)
    subst hd
    rw [List.foldl_cons, show resultStep FullMatch FullMatch = FullMatch from rfl]
    exact ih (fun e he => h e (by simp [he]))

lemma sev_le_resultStep {c d : Difference} (hc : IsNodeVerdict c) (hd : IsNodeVerdict d) :
    sev c ≤ sev (resultStep c d) := by
  rcases hc with rfl | rfl | rfl <;> rcases hd with rfl | rfl | rfl <;> simp [resultStep, sev]

lemma validTr_nil : ValidTr [] := by
  intro d h; cases h

lemma validTr_single {d : Difference} (h : IsNodeVerdict d) : ValidTr [d] := by
  intro e he
  simp only [List.mem_singleton] at he
  subst he; exact h

lemma validTr_append {t1 t2 : List Difference} (h1 : ValidTr t1) (h2 : ValidTr t2) :
    ValidTr (t1 ++ t2) := by
  intro d hd
  rcases List.mem_append.mp hd with h | h
  · exact h1 d h
  · exact h2 d h

lemma mismatchExitF_shape (n : Nat) (o : Options) (c : RCtx) (a b : Json) :
    ∃ c' s, mismatchExitF n o c a b = .ok (c', s, [NoMatch]) :=
  ⟨_, _, rfl⟩

lemma matchScalarExitF_shape (n : Nat) (o : Options) (c : RCtx) (a : Json) :
    ∃ c' s, matchScalarExitF n o c a = .ok (c', s, []) ∨
      matchScalarExitF n o c a = .ok (c', s, [FullMatch]) := by
  unfold matchScalarExitF
  by_cases h : o.SkipMatches
  · simp only [h, if_true]
    exact ⟨_, _, Or.inl rfl⟩
  · simp only [h, if_false]
    exact ⟨_, _, Or.inr rfl⟩

lemma exceptBind_ok {α β γ : Type} {e : Except α β} {f : β → Except α γ} {r : γ}
    (h : e >>= f = .ok r) : ∃ v, e = .ok v ∧ f v = .ok r := by
  cases e with
  | error err => cases h
  | ok v => exact ⟨v, rfl, h⟩

lemma trace_of_ite_ok {p : Prop} [Decidable p] {c1 c2 : RCtx} {s1 s2 : String}
    {tr : List Difference} {r : RCtx × String × List Difference}
    (h : (if p then (Except.ok (c1, s1, tr) : Except String (RCtx × String × List Difference))
          else Except.ok (c2, s2, tr)) = Except.ok r) :
    r.2.2 = tr := by
  split at h <;> cases h <;> rfl

lemma validTr_run (n : Nat) :
    (∀ o c a b r, printDiffF n o c a b = .ok r → ValidTr r.2.2) ∧
    (∀ o c buf xs ys nds sd r,
      loopArrF n o c buf xs ys nds sd = .ok r → ValidTr r.2.2.2.2) ∧
    (∀ o c buf xs ys nds sd eq tr1 r, ValidTr tr1 →
      afterElemArrF n o c buf xs ys nds sd eq tr1 = .ok r → ValidTr r.2.2.2.2) ∧
    (∀ o c buf ma mb ks nds sd r,
      loopMapF n o c buf ma mb ks nds sd = .ok r → ValidTr r.2.2.2.2) ∧
    (∀ o c buf ma mb ks nds sd eq tr1 r, ValidTr tr1 →
      afterKeyMapF n o c buf ma mb ks nds sd eq tr1 = .ok r → ValidTr r.2.2.2.2) := by
  induction n with
  | zero =>
    refine ⟨?_, ?_, ?_, ?_, ?_⟩ <;> intros <;>
      simp_all [printDiffF, loopArrF, afterElemArrF, loopMapF, afterKeyMapF]
  | succ n ih =>
    obtain ⟨ihP, ihA, ihAE, ihM, ihAK⟩ := ih
    have hmis : ∀ o c a b r, mismatchExitF n o c a b = .ok r → ValidTr r.2.2 := by
      intro o c a b r h
      obtain ⟨c', s, heq⟩ := mismatchExitF_shape n o c a b
      rw [heq] at h
      cases h
      exact validTr_single (Or.inr (Or.inr rfl))
    have hmat : ∀ o c a r, matchScalarExitF n o c a = .ok r → ValidTr r.2.2 := by
      intro o c a r h
      obtain ⟨c', s, heq | heq⟩ := matchScalarExitF_shape n o c a <;> rw [heq] at h <;> cases h
      · exact validTr_nil
      · exact validTr_single (Or.inl rfl)
    refine ⟨?_, ?_, ?_, ?_, ?_⟩
    · -- printDiffF
      intro o c a b r h
      cases a <;> cases b <;> simp only [printDiffF] at h <;>
        first
        | exact hmis _ _ _ _ _ h
        | skip
      case null.null =>
        split at h <;> cases h
        · exact validTr_nil
        · exact validTr_single (Or.inl rfl)
      case bool.bool =>
        split at h
        · exact hmis _ _ _ _ _ h
        · exact hmat _ _ _ _ h
      case num.num =>
        split at h
        · exact hmis _ _ _ _ _ h
        · exact hmat _ _ _ _ h
      case str.str =>
        split at h
        · exact hmis _ _ _ _ _ h
        · exact hmat _ _ _ _ h
      case arr.arr sa sb =>
        split at h
        · exact Except.noConfusion h
        · rw [trace_of_ite_ok h]
          exact ihA _ _ _ _ _ _ _ _ (by assumption)
      case obj.obj ma mb =>
        split at h
        · exact Except.noConfusion h
        · rw [trace_of_ite_ok h]
          exact ihM _ _ _ _ _ _ _ _ _ (by assumption)
    · -- loopArrF
      intro o c buf xs ys nds sd r h
      match xs, ys with
      | [], [] =>
        simp only [loopArrF] at h
        cases h
        exact validTr_nil
      | x :: xs, y :: ys =>
        simp only [loopArrF] at h
        obtain ⟨⟨c1, childStr, tr1⟩, hpd, h⟩ := exceptBind_ok h
        have htr1 : ValidTr tr1 := ihP _ _ _ _ _ hpd
        simp only at h
        split at h
        · obtain ⟨⟨c2, b2, nds2⟩, hps, h⟩ := exceptBind_ok h
          simp only at h
          exact ihAE _ _ _ _ _ _ _ _ _ _ htr1 h
        · exact ihAE _ _ _ _ _ _ _ _ _ _ htr1 h
      | x :: xs, [] =>
        simp only [loopArrF] at h
        obtain ⟨⟨c2, b2, nds2⟩, hps, h⟩ := exceptBind_ok h
        simp only at h
        exact ihAE _ _ _ _ _ _ _ _ _ _ (validTr_single (Or.inr (Or.inl rfl))) h
      | [], y :: ys =>
        simp only [loopArrF] at h
        obtain ⟨⟨c2, b2, nds2⟩, hps, h⟩ := exceptBind_ok h
        simp only at h
        exact ihAE _ _ _ _ _ _ _ _ _ _ (validTr_single (Or.inr (Or.inr rfl))) h
    · -- afterElemArrF
      intro o c buf xs ys nds sd eq tr1 r htr1 h
      simp only [afterElemArrF] at h
      split at h
      · obtain ⟨⟨c2, b2, nds2⟩, hps, h⟩ := exceptBind_ok h
        simp only at h
        cases h
        exact htr1
      · obtain ⟨⟨c2, b2, nds2, sd2, tr2⟩, hl, h⟩ := exceptBind_ok h
        simp only at h
        cases h
        exact validTr_append htr1 (ihA _ _ _ _ _ _ _ _ hl)
    · -- loopMapF
      intro o c buf ma mb ks nds sd r h
      match ks with
      | [] =>
        simp only [loopMapF] at h
        cases h
        exact validTr_nil
      | k :: ks =>
        simp only [loopMapF] at h
        rcases hla : lookupJ k ma with _ | va <;> rcases hlb : lookupJ k mb with _ | vb <;>
          simp only [hla, hlb] at h
        · exact ihAK _ _ _ _ _ _ _ _ _ _ _ validTr_nil h
        · obtain ⟨⟨c2, b2, nds2⟩, hps, h⟩ := exceptBind_ok h
          simp only at h
          exact ihAK _ _ _ _ _ _ _ _ _ _ _ (validTr_single (Or.inr (Or.inr rfl))) h
        · obtain ⟨⟨c2, b2, nds2⟩, hps, h⟩ := exceptBind_ok h
          simp only at h
          exact ihAK _ _ _ _ _ _ _ _ _ _ _ (validTr_single (Or.inr (Or.inl rfl))) h
        · obtain ⟨⟨c1, childStr, tr1⟩, hpd, h⟩ := exceptBind_ok h
          have htr1 : ValidTr tr1 := ihP _ _ _ _ _ hpd
          simp only at h
          split at h
          · obtain ⟨⟨c2, b2, nds2⟩, hps, h⟩ := exceptBind_ok h
            simp only at h
            exact ihAK _ _ _ _ _ _ _ _ _ _ _ htr1 h
          · exact ihAK _ _ _ _ _ _ _ _ _ _ _ htr1 h
    · -- afterKeyMapF
      intro o c buf ma mb ks nds sd eq tr1 r htr1 h
      simp only [afterKeyMapF] at h
      split at h
      · obtain ⟨⟨c2, b2, nds2⟩, hps, h⟩ := exceptBind_ok h
        simp only at h
        cases h
        exact htr1
      · obtain ⟨⟨c2, b2, nds2, sd2, tr2⟩, hl, h⟩ := exceptBind_ok h
        simp only at h
        cases h
        exact validTr_append htr1 (ihM _ _ _ _ _ _ _ _ _ hl)

/-! ### Claim C2 — monotonic aggregation -/

/-- C2.  Monotonic aggregation: the whole-document verdict returned by
`CompareVals` is the fold of `resultStep` (the translation of
`context.result`) over the per-node verdicts recorded by the walk, starting
from the zero value `FullMatch`; that fold equals the severity maximum under
NoMatch > SupersetMatch > FullMatch; hence a NoMatch anywhere forces NoMatch,
a removed-only trace (SupersetMatch present, no NoMatch) yields
SupersetMatch, an all-FullMatch trace yields FullMatch, and one accumulator
step never lowers severity. -/
theorem C2_monotonic_aggregation :
    (∀ o a b d s, CompareVals o a b = .ok (d, s) →
      ∃ c' tr, printDiffF (fuelFor a b) o {} a b = .ok (c', s, tr) ∧ ValidTr tr ∧
        d = tr.foldl resultStep FullMatch ∧ d = tr.foldl sevMax FullMatch) ∧
    (∀ ds : List Difference, ValidTr ds →
      (ds.foldl resultStep FullMatch = ds.foldl sevMax FullMatch) ∧
      (NoMatch ∈ ds → ds.foldl resultStep FullMatch = NoMatch) ∧
      (NoMatch ∉ ds → SupersetMatch ∈ ds → ds.foldl resultStep FullMatch = SupersetMatch) ∧
      ((∀ d ∈ ds, d = FullMatch) → ds.foldl resultStep FullMatch = FullMatch)) ∧
    (∀ c d, IsNodeVerdict c → IsNodeVerdict d → sev c ≤ sev (resultStep c d)) := by
  refine ⟨?_, ?_, fun c d hc hd => sev_le_resultStep hc hd⟩
  · intro o a b d s h
    unfold CompareVals at h
    rcases hpd : printDiffF (fuelFor a b) o {} a b with e | ⟨c', s', tr⟩ <;> rw [hpd] at h
    · cases h
    · cases h
      have hv : ValidTr tr := (validTr_run (fuelFor a b)).1 _ _ _ _ _ hpd
      refine ⟨c', tr, rfl, hv, rfl,
        foldl_resultStep_eq_sevMax tr FullMatch isNodeVerdict_FullMatch hv⟩
  · intro ds hds
    refine ⟨foldl_resultStep_eq_sevMax ds FullMatch isNodeVerdict_FullMatch hds,
      fun hm => foldl_resultStep_noMatch_mem hm FullMatch,
      fun hno hs => foldl_resultStep_superset_mem hds hno hs,
      foldl_resultStep_allFull⟩

/-- Witness for C2 at concrete inputs: a comparison returning `.ok`, and
concrete verdict lists exercising each aggregation clause. -/
theorem C2_monotonic_aggregation_witness :
    (∃ c' tr, printDiffF (fuelFor (.obj [("a", Json.num "5")]) (.obj [("a", Json.num "5")]))
        {} {} (.obj [("a", .num "5")]) (.obj [("a", .num "5")]) =
          .ok (c', "\x7b\n\"a\": 5\n\x7d", tr) ∧
      ValidTr tr ∧ FullMatch = tr.foldl resultStep FullMatch ∧
      FullMatch = tr.foldl sevMax FullMatch) ∧
    [SupersetMatch, NoMatch, FullMatch].foldl resultStep FullMatch = NoMatch ∧
    [SupersetMatch, FullMatch].foldl resultStep FullMatch = SupersetMatch ∧
    [FullMatch, FullMatch].foldl resultStep FullMatch = FullMatch ∧
    sev NoMatch ≤ sev (resultStep NoMatch FullMatch) := by
  refine ⟨?_, ?_, ?_, ?_, ?_⟩
  · obtain ⟨c', tr, h1, h2, h3, h4⟩ :=
      C2_monotonic_aggregation.1 {} (.obj [("a", .num "5")]) (.obj [("a", .num "5")])
        FullMatch "\x7b\n\"a\": 5\n\x7d" (by rfl)
    exact ⟨c', tr, h1, h2, h3, h4⟩
  · exact (C2_monotonic_aggregation.2.1 [SupersetMatch, NoMatch, FullMatch] (by decide)).2.1
      (by decide)
  · exact (C2_monotonic_aggregation.2.1 [SupersetMatch, FullMatch] (by decide)).2.2.1
      (by decide) (by decide)
  · exact (C2_monotonic_aggregation.2.1 [FullMatch, FullMatch] (by decide)).2.2.2
      (by decide)
  · exact C2_monotonic_aggregation.2.2 NoMatch FullMatch (by decide) (by decide)

/-! ### Claim C3 — superset asymmetry of the container loops -/

lemma trace_mem_run (n : Nat) :
    (∀ o c buf ma mb ks nds sd r,
      loopMapF n o c buf ma mb ks nds sd = .ok r →
      (∀ k va, k ∈ ks → lookupJ k ma = some va → lookupJ k mb = none →
        SupersetMatch ∈ r.2.2.2.2) ∧
      (∀ k vb, k ∈ ks → lookupJ k ma = none → lookupJ k mb = some vb →
        NoMatch ∈ r.2.2.2.2)) ∧
    (∀ o c buf ma mb ks nds sd eq tr1 r,
      afterKeyMapF n o c buf ma mb ks nds sd eq tr1 = .ok r →
      (∀ d ∈ tr1, d ∈ r.2.2.2.2) ∧
      (∀ k va, k ∈ ks → lookupJ k ma = some va → lookupJ k mb = none →
        SupersetMatch ∈ r.2.2.2.2) ∧
      (∀ k vb, k ∈ ks → lookupJ k ma = none → lookupJ k mb = some vb →
        NoMatch ∈ r.2.2.2.2)) := by
  induction n with
  | zero =>
    constructor <;> intros <;> simp_all [loopMapF, afterKeyMapF]
  | succ n ih =>
    obtain ⟨ihM, ihAK⟩ := ih
    constructor
    · intro o c buf ma mb ks nds sd r h
      match ks with
      | [] =>
        constructor <;> intro k v hk <;> cases hk
      | k0 :: ks =>
        simp only [loopMapF] at h
        rcases hla : lookupJ k0 ma with _ | va0 <;> rcases hlb : lookupJ k0 mb with _ | vb0 <;>
          simp only [hla, hlb] at h
        · -- none, none
          obtain ⟨hsub, hrem, hadd⟩ := ihAK _ _ _ _ _ _ _ _ _ _ _ h
          constructor
          · intro k va hk h1 h2
            rcases List.mem_cons.mp hk with rfl | hk
            · rw [hla] at h1; cases h1
            · exact hrem k va hk h1 h2
          · intro k vb hk h1 h2
            rcases List.mem_cons.mp hk with rfl | hk
            · rw [hlb] at h2; cases h2
            · exact hadd k vb hk h1 h2
        · -- none, some: added, NoMatch
          obtain ⟨⟨c2, b2, nds2⟩, hps, h⟩ := exceptBind_ok h
          simp only at h
          obtain ⟨hsub, hrem, hadd⟩ := ihAK _ _ _ _ _ _ _ _ _ _ _ h
          constructor
          · intro k va hk h1 h2
            rcases List.mem_cons.mp hk with rfl | hk
            · rw [hla] at h1; cases h1
            · exact hrem k va hk h1 h2
          · intro k vb hk h1 h2
            rcases List.mem_cons.mp hk with rfl | hk
            · exact hsub NoMatch (by simp)
            · exact hadd k vb hk h1 h2
        · -- some, none: removed, SupersetMatch
          obtain ⟨⟨c2, b2, nds2⟩, hps, h⟩ := exceptBind_ok h
          simp only at h
          obtain ⟨hsub, hrem, hadd⟩ := ihAK _ _ _ _ _ _ _ _ _ _ _ h
          constructor
          · intro k va hk h1 h2
            rcases List.mem_cons.mp hk with rfl | hk
            · exact hsub SupersetMatch (by simp)
            · exact hrem k va hk h1 h2
          · intro k vb hk h1 h2
            rcases List.mem_cons.mp hk with rfl | hk
            · rw [hlb] at h2; cases h2
            · exact hadd k vb hk h1 h2
        · -- some, some: recurse
          obtain ⟨⟨c1, childStr, tr1⟩, hpd, h⟩ := exceptBind_ok h
          simp only at h
          have key : (∀ d ∈ tr1, d ∈ r.2.2.2.2) ∧
              (∀ k va, k ∈ ks → lookupJ k ma = some va → lookupJ k mb = none →
                SupersetMatch ∈ r.2.2.2.2) ∧
              (∀ k vb, k ∈ ks → lookupJ k ma = none → lookupJ k mb = some vb →
                NoMatch ∈ r.2.2.2.2) := by
            split at h
            · obtain ⟨⟨c2, b2, nds2⟩, hps, h⟩ := exceptBind_ok h
              simp only at h
              exact ihAK _ _ _ _ _ _ _ _ _ _ _ h
            · exact ihAK _ _ _ _ _ _ _ _ _ _ _ h
          obtain ⟨hsub, hrem, hadd⟩ := key
          constructor
          · intro k va hk h1 h2
            rcases List.mem_cons.mp hk with rfl | hk
            · rw [hlb] at h2; cases h2
            · exact hrem k va hk h1 h2
          · intro k vb hk h1 h2
            rcases List.mem_cons.mp hk with rfl | hk
            · rw [hla] at h1; cases h1
            · exact hadd k vb hk h1 h2
    · intro o c buf ma mb ks nds sd eq tr1 r h
      simp only [afterKeyMapF] at h
      split at h
      · obtain ⟨⟨c2, b2, nds2⟩, hps, h⟩ := exceptBind_ok h
        simp only at h
        cases h
        have hke : ks = [] := by
          rename_i hempty
          exact List.isEmpty_iff.mp (by simpa using hempty)
        subst hke
        refine ⟨fun d hd => hd, ?_, ?_⟩ <;> intro k v hk <;> cases hk
      · obtain ⟨⟨c2, b2, nds2, sd2, tr2⟩, hl, h⟩ := exceptBind_ok h
        simp only at h
        cases h
        obtain ⟨hrem, hadd⟩ := ihM _ _ _ _ _ _ _ _ _ hl
        refine ⟨fun d hd => by simp [hd], ?_, ?_⟩
        · intro k va hk h1 h2
          simp only [List.mem_append]
          exact Or.inr (hrem k va hk h1 h2)
        · intro k vb hk h1 h2
          simp only [List.mem_append]
          exact Or.inr (hadd k vb hk h1 h2)

/-- Tag/indent configuration of the repository's rendering tests
(src/jsondiff_test.go:171-178). -/
def markerOpts : Options := {
  Added := { Begin := "(A:", End := ":A)" }
  Removed := { Begin := "(R:", End := ":R)" }
  Changed := { Begin := "(C:", End := ":C)" }
  Skipped := { Begin := "(S:", End := ":S)" }
  ChangedSeparator := " => "
  Indent := "  "
}

/-- Trace growth through one slice-iteration tail: `afterElemArrF` only ever
appends to the verdicts already recorded (src/jsondiff.go:391-409 keeps
`ctx.diff` monotone), so members of `tr1` survive into the final trace. -/
lemma afterElemArr_sub (n : Nat) :
    ∀ o c buf xs ys nds sd eqs tr1 r,
      afterElemArrF n o c buf xs ys nds sd eqs tr1 = .ok r →
      ∀ d ∈ tr1, d ∈ r.2.2.2.2 := by
  cases n with
  | zero => intro o c buf xs ys nds sd eqs tr1 r h; cases h
  | succ n =>
    intro o c buf xs ys nds sd eqs tr1 r h
    simp only [afterElemArrF] at h
    split at h
    · obtain ⟨⟨c2, b2, nds2⟩, hps, h⟩ := exceptBind_ok h
      simp only at h
      cases h
      exact fun d hd => hd
    · obtain ⟨⟨c2, b2, nds2, sd2, tr2⟩, hl, h⟩ := exceptBind_ok h
      simp only at h
      cases h
      exact fun d hd => by simp [hd]

/-- C3.  Superset asymmetry for containers: in the map loop, a key found only
in the first map reports SupersetMatch into the verdict trace and a key found
only in the second map reports NoMatch; in the slice loop, an index present
only on the first side (second list exhausted, src/jsondiff.go:378-384)
reports SupersetMatch and an index present only on the second side
(src/jsondiff.go:385-390) reports NoMatch; concretely,
Compare({"a":5,"b":6},{"a":5}) classifies SupersetMatch with the extra pair
rendered inside the Removed tag, Compare({"a":5},{"a":5,"b":6}) classifies
NoMatch with the extra pair rendered inside the Added tag, and the array
pair [5,6] vs [5] / [5] vs [5,6] does exactly the same with the extra
element. -/
theorem C3_superset_asymmetry :
    (∀ n o c buf ma mb ks nds sd c' buf' nds' sd' tr k va,
      k ∈ ks → lookupJ k ma = some va → lookupJ k mb = none →
      loopMapF n o c buf ma mb ks nds sd = .ok (c', buf', nds', sd', tr) →
      SupersetMatch ∈ tr) ∧
    (∀ n o c buf ma mb ks nds sd c' buf' nds' sd' tr k vb,
      k ∈ ks → lookupJ k ma = none → lookupJ k mb = some vb →
      loopMapF n o c buf ma mb ks nds sd = .ok (c', buf', nds', sd', tr) →
      NoMatch ∈ tr) ∧
    (∀ n o c buf x xs nds sd c' buf' nds' sd' tr,
      loopArrF n o c buf (x :: xs) [] nds sd = .ok (c', buf', nds', sd', tr) →
      SupersetMatch ∈ tr) ∧
    (∀ n o c buf y ys nds sd c' buf' nds' sd' tr,
      loopArrF n o c buf [] (y :: ys) nds sd = .ok (c', buf', nds', sd', tr) →
      NoMatch ∈ tr) ∧
    CompareVals markerOpts (.obj [("a", .num "5"), ("b", .num "6")]) (.obj [("a", .num "5")]) =
      .ok (SupersetMatch,
        "\x7b\n  \"a\": 5,\n  (R:\"b\": 6:R)\n\x7d") ∧
    CompareVals markerOpts (.obj [("a", .num "5")]) (.obj [("a", .num "5"), ("b", .num "6")]) =
      .ok (NoMatch,
        "\x7b\n  \"a\": 5,\n  (A:\"b\": 6:A)\n\x7d") ∧
    CompareVals markerOpts (.arr [.num "5", .num "6"]) (.arr [.num "5"]) =
      .ok (SupersetMatch, "[\n  5,\n  (R:6:R)\n]") ∧
    CompareVals markerOpts (.arr [.num "5"]) (.arr [.num "5", .num "6"]) =
      .ok (NoMatch, "[\n  5,\n  (A:6:A)\n]") := by
  refine ⟨?_, ?_, ?_, ?_, by rfl, by rfl, by rfl, by rfl⟩
  · intro n o c buf ma mb ks nds sd c' buf' nds' sd' tr k va hk h1 h2 h
    exact ((trace_mem_run n).1 _ _ _ _ _ _ _ _ _ h).1 k va hk h1 h2
  · intro n o c buf ma mb ks nds sd c' buf' nds' sd' tr k vb hk h1 h2 h
    exact ((trace_mem_run n).1 _ _ _ _ _ _ _ _ _ h).2 k vb hk h1 h2
  · intro n o c buf x xs nds sd c' buf' nds' sd' tr h
    cases n with
    | zero => cases h
    | succ n =>
      simp only [loopArrF] at h
      obtain ⟨⟨c2, b2, nds2⟩, hps, h⟩ := exceptBind_ok h
      simp only at h
      exact afterElemArr_sub n _ _ _ _ _ _ _ _ _ _ h SupersetMatch (by simp)
  · intro n o c buf y ys nds sd c' buf' nds' sd' tr h
    cases n with
    | zero => cases h
    | succ n =>
      simp only [loopArrF] at h
      obtain ⟨⟨c2, b2, nds2⟩, hps, h⟩ := exceptBind_ok h
      simp only at h
      exact afterElemArr_sub n _ _ _ _ _ _ _ _ _ _ h NoMatch (by simp)

/-- Witness for C3: the four loop facts instantiated on concrete loop runs -
the map runs underlying the {"a":5,"b":6} examples, and slice runs with one
surplus element on either side. -/
theorem C3_superset_asymmetry_witness :
    SupersetMatch ∈ [FullMatch, SupersetMatch] ∧ NoMatch ∈ [FullMatch, NoMatch] ∧
    SupersetMatch ∈ [SupersetMatch] ∧ NoMatch ∈ [NoMatch] := by
  refine ⟨?_, ?_, ?_, ?_⟩
  · exact C3_superset_asymmetry.1 10 markerOpts ⟨1, some .normal⟩ ""
      [("a", .num "5"), ("b", .num "6")] [("a", .num "5")] ["a", "b"] 0 false
      ⟨0, none⟩ "\"a\": 5,\n  (R:\"b\": 6:R)\n" 0 false [FullMatch, SupersetMatch]
      "b" (.num "6") (by decide) (by rfl) (by rfl) (by rfl)
  · exact C3_superset_asymmetry.2.1 10 markerOpts ⟨1, some .normal⟩ ""
      [("a", .num "5")] [("a", .num "5"), ("b", .num "6")] ["a", "b"] 0 false
      ⟨0, none⟩ "\"a\": 5,\n  (A:\"b\": 6:A)\n" 0 false [FullMatch, NoMatch]
      "b" (.num "6") (by decide) (by rfl) (by rfl) (by rfl)
  · exact C3_superset_asymmetry.2.2.1 3 {} ⟨0, none⟩ "" .null [] 0 false
      ⟨0, none⟩ "null\n" 0 false [SupersetMatch] (by rfl)
  · exact C3_superset_asymmetry.2.2.2.1 3 {} ⟨0, none⟩ "" .null [] 0 false
      ⟨0, none⟩ "null\n" 0 false [NoMatch] (by rfl)

/-! ### Claim C4 — determinism and key order (corrected) -/

/-- Field list of one decoded map in one Go iteration order. -/
def c4fields1 : List (String × Json) :=
  [("b", .num "1"), ("a", .num "2")]

/-- The same decoded map in the other iteration order. -/
def c4fields2 : List (String × Json) :=
  [("a", .num "2"), ("b", .num "1")]

/-- Counterexample to C4.  `c4fields1` and `c4fields2` are the same decoded
map (a permutation with identical lookups — Go's map iteration order is
unspecified, so either can occur on a given run), yet rendering the map as a
removed subtree (`writeValue`, which iterates the map directly without
sorting, src/jsondiff.go:183-209) yields different text for the two orders,
and the first is not in lexicographic key order.  So two runs of Compare on
the same input documents can render different text. -/
theorem C4_counterexample :
    List.Perm c4fields1 c4fields2 ∧
    lookupJ "a" c4fields1 = lookupJ "a" c4fields2 ∧
    lookupJ "b" c4fields1 = lookupJ "b" c4fields2 ∧
    keysOf c4fields1 ≠ sortStrs (keysOf c4fields1) ∧
    CompareVals markerOpts (.obj [("x", .obj c4fields1)]) (.obj []) =
      .ok (SupersetMatch,
        "\x7b\n  (R:\"x\": \x7b:R)\n    \"b\": 1,\n    \"a\": 2\n  \x7d\n\x7d") ∧
    CompareVals markerOpts (.obj [("x", .obj c4fields2)]) (.obj []) =
      .ok (SupersetMatch,
        "\x7b\n  (R:\"x\": \x7b:R)\n    \"a\": 2,\n    \"b\": 1\n  \x7d\n\x7d") ∧
    textOf (CompareVals markerOpts (.obj [("x", .obj c4fields1)]) (.obj [])) ≠
      textOf (CompareVals markerOpts (.obj [("x", .obj c4fields2)]) (.obj [])) := by
  refine ⟨List.Perm.swap _ _ _, rfl, rfl, by decide, by rfl, by rfl, ?_⟩
  rw [show textOf (CompareVals markerOpts (.obj [("x", .obj c4fields1)]) (.obj [])) =
      some "\x7b\n  (R:\"x\": \x7b:R)\n    \"b\": 1,\n    \"a\": 2\n  \x7d\n\x7d" from rfl,
    show textOf (CompareVals markerOpts (.obj [("x", .obj c4fields2)]) (.obj [])) =
      some "\x7b\n  (R:\"x\": \x7b:R)\n    \"a\": 2,\n    \"b\": 1\n  \x7d\n\x7d" from rfl]
  decide

/-! ### Claim C6 — default numeric strictness and override -/

/-- Caller-side numeric override for C6: parse a JSON number token into
(integer mantissa, power-of-ten exponent) and compare the denoted values;
tokens that fail to parse fall back to literal comparison. -/
def digitsVal (ds : List Char) : Nat :=
  ds.foldl (fun acc c => acc * 10 + (c.toNat - 48)) 0

def parseDecTok (s : String) : Option (Int × Int) :=
  let (sgn, l1) :=
    match s.data with
    | '-' :: rest => ((-1 : Int), rest)
    | l => ((1 : Int), l)
  match takeDigits l1 with
  | ([], _) => none
  | (ds, l2) =>
    let (frac, l3) :=
      match l2 with
      | '.' :: rest => takeDigits rest
      | _ => ([], l2)
    let (ex, l4) :=
      match l3 with
      | 'e' :: '+' :: rest => (match takeDigits rest with
        | ([], _) => (none, l3)
        | (es, r) => (some ((1 : Int), es), r))
      | 'e' :: '-' :: rest => (match takeDigits rest with
        | ([], _) => (none, l3)
        | (es, r) => (some ((-1 : Int), es), r))
      | 'e' :: rest => (match takeDigits rest with
        | ([], _) => (none, l3)
        | (es, r) => (some ((1 : Int), es), r))
      | 'E' :: '+' :: rest => (match takeDigits rest with
        | ([], _) => (none, l3)
        | (es, r) => (some ((1 : Int), es), r))
      | 'E' :: '-' :: rest => (match takeDigits rest with
        | ([], _) => (none, l3)
        | (es, r) => (some ((-1 : Int), es), r))
      | 'E' :: rest => (match takeDigits rest with
        | ([], _) => (none, l3)
        | (es, r) => (some ((1 : Int), es), r))
      | _ => (none, l3)
    if l4.isEmpty then
      let mant : Int := sgn * (digitsVal ds * 10 ^ frac.length + digitsVal frac)
      let e0 : Int := -(frac.length : Int)
      let e1 : Int :=
        match ex with
        | some (es, eds) => e0 + es * (digitsVal eds : Int)
        | none => e0
      some (mant, e1)
    else none

/-- Numeric-value equality of two (mantissa, exponent) pairs:
m1 * 10^e1 = m2 * 10^e2, by cross-multiplying with the exponent gap. -/
def decValEq : Int × Int → Int × Int → Bool
  | (m1, e1), (m2, e2) =>
    if e2 ≤ e1 then m1 * 10 ^ (e1 - e2).toNat == m2
    else m1 == m2 * 10 ^ (e2 - e1).toNat

def numericTokenEq (a b : String) : Bool :=
  match parseDecTok a, parseDecTok b with
  | some x, some y => decValEq x y
  | _, _ => a == b

/-- C6.  Default numeric strictness and override: with no `CompareNumbers`
predicate, two number leaves are compared by byte-for-byte token equality, so
{"a":1.0} vs {"a":1.00} is NoMatch; a supplied predicate alone decides number
equality, so under `numericTokenEq` (which parses both tokens to their
numeric value) the same pair is FullMatch. -/
theorem C6_default_numeric_strictness :
    (∀ s t : String, compareNumbersFn { CompareNumbers := none } s t = (s == t)) ∧
    (∀ (o : Options) (f : String → String → Bool) (s t : String),
      o.CompareNumbers = some f → compareNumbersFn o s t = f s t) ∧
    classOf (CompareVals {} (.obj [("a", .num "1.0")]) (.obj [("a", .num "1.00")])) =
      some NoMatch ∧
    classOf (CompareVals { CompareNumbers := some numericTokenEq }
      (.obj [("a", .num "1.0")]) (.obj [("a", .num "1.00")])) = some FullMatch ∧
    numericTokenEq "1.0" "1.00" = true := by
  refine ⟨fun s t => rfl, ?_, by rfl, by rfl, by decide⟩
  intro o f s t h
  unfold compareNumbersFn
  rw [h]

/-- Witness for C6 at a concrete override and tokens. -/
theorem C6_default_numeric_strictness_witness :
    compareNumbersFn { CompareNumbers := some numericTokenEq } "1.0" "1.00" =
      numericTokenEq "1.0" "1.00" :=
  C6_default_numeric_strictness.2.1 { CompareNumbers := some numericTokenEq }
    numericTokenEq "1.0" "1.00" rfl

/-! ### Claim C8 — elided-run granularity -/

/-- Elision configuration of the repository's rendering tests: the marker
tags plus `SkipMatches` and the skip-summary callbacks
(src/jsondiff_test.go:171-187). -/
def elisionOpts : Options := { markerOpts with
  SkipMatches := true
  SkippedSliceString := some (fun n => "[skipped elements:" ++ toString n ++ "]")
  SkippedKeysString := some (fun n => "[skipped keys:" ++ toString n ++ "]") }

/-- C8.  Elided-run granularity: with `SkipMatches` and a configured
array-elements summary callback, comparing [1,2,3,4,5] with [1,3,3,4,5]
renders exactly one elided-run marker before the differing index (for the one
matching element) and exactly one after it (for the three trailing matching
elements) — two markers in total, never a single whole-array marker; this is
the repository's own expected rendering (src/jsondiff_test.go:115-121). -/
theorem C8_elided_run_granularity :
    CompareVals elisionOpts
      (.arr [.num "1", .num "2", .num "3", .num "4", .num "5"])
      (.arr [.num "1", .num "3", .num "3", .num "4", .num "5"]) =
      .ok (NoMatch,
        "[\n  (S:[skipped elements:1]:S),\n  (C:2 => 3:C),\n  (S:[skipped elements:3]:S)\n]") ∧
    countOccur "skipped elements"
      "[\n  (S:[skipped elements:1]:S),\n  (C:2 => 3:C),\n  (S:[skipped elements:3]:S)\n]" = 2 ∧
    countOccur "skipped elements" "[\n  (S:[skipped elements:1]:S),\n  " = 1 ∧
    countOccur "skipped elements" "(C:2 => 3:C)" = 0 ∧
    countOccur "skipped elements" ",\n  (S:[skipped elements:3]:S)\n]" = 1 ∧
    "[\n  (S:[skipped elements:1]:S),\n  (C:2 => 3:C),\n  (S:[skipped elements:3]:S)\n]" =
      "[\n  (S:[skipped elements:1]:S),\n  " ++ "(C:2 => 3:C)" ++
        ",\n  (S:[skipped elements:3]:S)\n]" := by
  exact ⟨by rfl, by decide, by decide, by decide, by decide, by decide⟩

/-! ### Claim C10 — trailing bytes after the first decoded value -/

/-- C10.  `Compare` decodes each buffer with a streaming decoder that reads
only the FIRST JSON value; trailing bytes after a complete first value do not
make the input invalid: comparing the bytes of "{} trailing garbage" against
"{}" yields FullMatch, not FirstArgIsInvalidJson. -/
theorem C10_trailing_bytes_first_value :
    decodeGo "\x7b\x7d trailing garbage" = some (.obj []) ∧
    CompareBytes {} "\x7b\x7d trailing garbage" "\x7b\x7d" = .ok (FullMatch, "\x7b\x7d") ∧
    classOf (CompareBytes {} "\x7b\x7d trailing garbage" "\x7b\x7d") ≠
      some FirstArgIsInvalidJson := by
  refine ⟨rfl, rfl, ?_⟩
  rw [show classOf (CompareBytes {} "\x7b\x7d trailing garbage" "\x7b\x7d") =
    some FullMatch from rfl]
  decide

/-! ### Claim C1 — presence assertion (corrected) -/

/-- Counterexample to C1.  The claim (and the spec's rule 3) says explicit
null on the first side fails a presence assertion with NoMatch; the
repository's own test pins the opposite (src/jsondiff_test.go:364-369,
expected FullMatch, "null is considered present"), and the model of the
current revision follows the tests: Compare({"field":null},
{"field":"<<PRESENCE>>"}) is FullMatch, not NoMatch. -/
theorem C1_presence_counterexample :
    (CompareP none (.obj [("field", .null)])
      (.obj [("field", .str "<<PRESENCE>>")])).1 = FullMatch ∧
    (CompareP none (.obj [("field", .null)])
      (.obj [("field", .str "<<PRESENCE>>")])).1 ≠ NoMatch := by
  refine ⟨by rfl, ?_⟩
  rw [show (CompareP none (.obj [("field", .null)])
    (.obj [("field", .str "<<PRESENCE>>")])).1 = FullMatch from rfl]
  decide

/-- C1 as amended: a presence assertion (the marker string on the expected,
second side) succeeds with FullMatch whenever the position exists on the
first side at all — any value counts as present, including false, 0, the
empty string, containers, and explicit null — and fails with NoMatch exactly
when the key/index is entirely absent on the first side; in particular
Compare({"name":"John","age":30}, {"name":"<<PRESENCE>>","age":"<<PRESENCE>>"})
= FullMatch and Compare({"field":null},{"field":"<<PRESENCE>>"}) = FullMatch. -/
theorem C1_presence_assertion_amended :
    (CompareP none (.obj [("name", .str "John"), ("age", .num "30")])
      (.obj [("name", .str "<<PRESENCE>>"), ("age", .str "<<PRESENCE>>")])).1 = FullMatch ∧
    (CompareP none (.obj [("field", .null)])
      (.obj [("field", .str "<<PRESENCE>>")])).1 = FullMatch ∧
    (CompareP none (.obj [("active", .bool false)])
      (.obj [("active", .str "<<PRESENCE>>")])).1 = FullMatch ∧
    (CompareP none (.obj [("count", .num "0")])
      (.obj [("count", .str "<<PRESENCE>>")])).1 = FullMatch ∧
    (CompareP none (.obj [("name", .str "")])
      (.obj [("name", .str "<<PRESENCE>>")])).1 = FullMatch ∧
    (CompareP none (.obj [("user", .obj [("name", .str "John")]), ("tags", .arr [.num "1"])])
      (.obj [("user", .str "<<PRESENCE>>"), ("tags", .str "<<PRESENCE>>")])).1 = FullMatch ∧
    (CompareP none (.obj [("name", .str "John")])
      (.obj [("name", .str "<<PRESENCE>>"), ("age", .str "<<PRESENCE>>")])).1 = NoMatch ∧
    (CompareP none (.obj [])
      (.obj [("required", .str "<<PRESENCE>>")])).1 = NoMatch ∧
    (CompareP none (.arr [])
      (.arr [.str "<<PRESENCE>>"])).1 = NoMatch ∧
    (CompareP none (.arr [.str "v1", .str "v2"])
      (.arr [.str "<<PRESENCE>>", .str "<<PRESENCE>>", .str "<<PRESENCE>>"])).1 = NoMatch ∧
    (CompareP none (.obj [("message", .str "<<PRESENCE>>")])
      (.obj [("message", .str "hello")])).1 = NoMatch := by
  exact ⟨rfl, rfl, rfl, rfl, rfl, rfl, rfl, rfl, rfl, rfl, rfl⟩

/-! ### Claim C5 — absent Options implies defaults -/

/-- C5.  A nil options pointer behaves exactly as an all-default Options
value: for every pair of decoded inputs the classification and the rendered
text coincide with those of the zero Options value (`CompareP` is total, so
the nil-pointer call returns normally); the defaults mean literal number
comparison, no elision, no type annotations, and no skip callbacks; under nil
options the default literal number comparison is observable:
{"a":1.0} vs {"a":1.00} is NoMatch. -/
theorem C5_nil_options_defaults :
    (∀ a b : Json, CompareP none a b = CompareP (some {}) a b) ∧
    ({} : OptionsP).CompareNumbers = none ∧
    ({} : OptionsP).SkipMatches = false ∧
    ({} : OptionsP).PrintTypes = false ∧
    ({} : OptionsP).SkippedArrayElement = none ∧
    ({} : OptionsP).SkippedObjectProperty = none ∧
    (CompareP none (.obj [("a", .num "1.0")]) (.obj [("a", .num "1.00")])).1 = NoMatch := by
  exact ⟨fun a b => rfl, rfl, rfl, rfl, rfl, rfl, rfl⟩

/-! ### Claim C9 — exclusion predicate (part_000 revision) -/

/-- Exclusion options for the C9 scenario: skip the path "secret". -/
def skipSecretOpts1 : OptionsV1 := {
  Changed := { Begin := "(C:", End := ":C)" }
  ChangedSeparator := " => "
  Indent := "  "
  Skip := some (fun path _ _ => path == "secret") }

/-- The same options without the exclusion predicate. -/
def noSkipOpts1 : OptionsV1 := {
  Changed := { Begin := "(C:", End := ":C)" }
  ChangedSeparator := " => "
  Indent := "  " }

def c9a : Json := .obj [("a", .num "1"), ("secret", .num "2")]

def c9b : Json := .obj [("a", .num "1"), ("secret", .num "3")]

/-- C9.  Exclusion predicate: `shouldSkip` never consults the predicate at
the root (empty) path, so the root comparison cannot be excluded; when it
returns true at a non-root path, the `printDiff` call returns immediately
with the state untouched — the subtree writes nothing and folds no verdict,
as if never visited.  Concretely, excluding path "secret" turns a NoMatch
comparison into FullMatch and removes the subtree from the rendering. -/
theorem C9_exclusion_predicate :
    (∀ (o : OptionsV1) (a b : Json), shouldSkip1 o "" a b = false) ∧
    (∀ (n : Nat) (o : OptionsV1) (path : String) (a b : Json) (bp : St1 → St1) (st : St1),
      shouldSkip1 o path a b = true →
      printDiff1F (n + 1) o path a b bp st = (st, false)) ∧
    Compare1 skipSecretOpts1 c9a c9b = (FullMatch, "\x7b\n  \"a\": 1,\n  \n\x7d") ∧
    Compare1 noSkipOpts1 c9a c9b =
      (NoMatch, "\x7b\n  \"a\": 1,\n  \"secret\": (C:2 => 3:C)\n\x7d") ∧
    countOccur "secret" "\x7b\n  \"a\": 1,\n  \n\x7d" = 0 ∧
    countOccur "secret" "\x7b\n  \"a\": 1,\n  \"secret\": (C:2 => 3:C)\n\x7d" = 1 := by
  refine ⟨?_, ?_, by rfl, by rfl, by decide, by decide⟩
  · intro o a b
    simp [shouldSkip1]
  · intro n o path a b bp st h
    simp only [printDiff1F, h, if_true]

/-- Witness for C9: the predicate fires at the non-root path ".secret" and
the call leaves the state untouched; the root guard evaluated at concrete
arguments. -/
theorem C9_exclusion_predicate_witness :
    shouldSkip1 skipSecretOpts1 ".secret" (.num "2") (.num "3") = true ∧
    printDiff1F 6 skipSecretOpts1 ".secret" (.num "2") (.num "3") id {} = ({}, false) ∧
    shouldSkip1 skipSecretOpts1 "" (.num "2") (.num "3") = false := by
  refine ⟨by rfl, ?_, C9_exclusion_predicate.1 skipSecretOpts1 (.num "2") (.num "3")⟩
  exact C9_exclusion_predicate.2.1 5 skipSecretOpts1 ".secret" (.num "2") (.num "3") id {}
    (by rfl)

/-! ### Claim C7 — reflexivity (helper lemmas) -/

/-- Traces of a reflexive walk hold only FullMatch. -/
def AllFull (tr : List Difference) : Prop :=
  ∀ d ∈ tr, d = FullMatch

lemma allFull_nil : AllFull [] := by
  intro d h; cases h

lemma allFull_single : AllFull [FullMatch] := by
  intro d h
  simp only [List.mem_singleton] at h
  exact h

lemma allFull_append {t1 t2 : List Difference} (h1 : AllFull t1) (h2 : AllFull t2) :
    AllFull (t1 ++ t2) := by
  intro d hd
  rcases List.mem_append.mp hd with h | h
  · exact h1 d h
  · exact h2 d h

lemma jsize_pos : ∀ x : Json, 1 ≤ jsize x := by
  intro x
  cases x <;> simp [jsize]

lemma jsizeL_pos (l : List Json) : 1 ≤ jsizeL l := by
  cases l with
  | nil => simp [jsizeL]
  | cons x l => simp [jsizeL]; omega

lemma jsizeO_pos (l : List (String × Json)) : 1 ≤ jsizeO l := by
  cases l with
  | nil => simp [jsizeO]
  | cons p l => rcases p with ⟨k, v⟩; simp [jsizeO]; omega

lemma two_len_le_jsizeO : ∀ l : List (String × Json), 2 * l.length ≤ jsizeO l := by
  intro l
  induction l with
  | nil => simp [jsizeO]
  | cons p l ih =>
    rcases p with ⟨k, v⟩
    have := jsize_pos v
    simp only [jsizeO, List.length_cons]
    omega

lemma jsizeO_lookup_bound {k : String} {v : Json} :
    ∀ {l : List (String × Json)}, lookupJ k l = some v →
      jsize v + 2 * l.length ≤ jsizeO l := by
  intro l
  induction l with
  | nil => intro h; cases h
  | cons p l ih =>
    rcases p with ⟨k2, v2⟩
    intro h
    simp only [lookupJ] at h
    split at h
    · cases h
      have := two_len_le_jsizeO l
      simp only [jsizeO, List.length_cons]
      omega
    · have := ih h
      have := jsize_pos v2
      simp only [jsizeO, List.length_cons]
      omega

lemma length_insertSorted (s : String) : ∀ l : List String,
    (insertSorted s l).length = l.length + 1 := by
  intro l
  induction l with
  | nil => rfl
  | cons t ts ih =>
    simp only [insertSorted]
    split <;> simp [ih]

lemma length_sortStrs (l : List String) : (sortStrs l).length = l.length := by
  induction l with
  | nil => rfl
  | cons s l ih =>
    simp only [sortStrs, List.foldr_cons] at ih ⊢
    rw [length_insertSorted, ih, List.length_cons]

lemma length_dedupStrs_aux : ∀ (l acc : List String),
    (l.foldl (fun acc s => if s ∈ acc then acc else acc ++ [s]) acc).length ≤
      acc.length + l.length := by
  intro l
  induction l with
  | nil => intro acc; simp
  | cons s l ih =>
    intro acc
    simp only [List.foldl_cons]
    split
    · have := ih acc
      simp only [List.length_cons]
      omega
    · have := ih (acc ++ [s])
      simp only [List.length_append, List.length_cons, List.length_nil] at this ⊢
      omega

lemma length_dedupStrs_le (l : List String) : (dedupStrs l).length ≤ l.length := by
  have := length_dedupStrs_aux l []
  simpa [dedupStrs] using this

lemma mem_insertSorted {s t : String} : ∀ {l : List String},
    t ∈ insertSorted s l ↔ t = s ∨ t ∈ l := by
  intro l
  induction l with
  | nil => simp [insertSorted]
  | cons u us ih =>
    simp only [insertSorted]
    split
    · simp [List.mem_cons]
    · simp only [List.mem_cons, ih]
      tauto

lemma mem_sortStrs {t : String} : ∀ {l : List String}, t ∈ sortStrs l ↔ t ∈ l := by
  intro l
  induction l with
  | nil => simp [sortStrs]
  | cons s l ih =>
    simp only [sortStrs, List.foldr_cons] at ih ⊢
    rw [mem_insertSorted]
    simp [ih, List.mem_cons]

lemma mem_dedupStrs_aux {t : String} : ∀ (l acc : List String),
    t ∈ l.foldl (fun acc s => if s ∈ acc then acc else acc ++ [s]) acc ↔
      t ∈ acc ∨ t ∈ l := by
  intro l
  induction l with
  | nil => intro acc; simp
  | cons s l ih =>
    intro acc
    simp only [List.foldl_cons]
    split
    · rename_i hmem
      rw [ih acc]
      constructor
      · tauto
      · rintro (h | h)
        · exact Or.inl h
        · rcases List.mem_cons.mp h with rfl | h
          · exact Or.inl hmem
          · exact Or.inr h
    · rw [ih (acc ++ [s])]
      simp only [List.mem_append, List.mem_singleton, List.mem_cons]
      tauto

lemma mem_dedupStrs {t : String} {l : List String} : t ∈ dedupStrs l ↔ t ∈ l := by
  unfold dedupStrs
  rw [mem_dedupStrs_aux l []]
  simp

lemma lookupJ_isSome_of_mem_keys {k : String} :
    ∀ {l : List (String × Json)}, k ∈ keysOf l → ∃ v, lookupJ k l = some v := by
  intro l
  induction l with
  | nil => intro h; cases h
  | cons p l ih =>
    rcases p with ⟨k2, v2⟩
    intro h
    simp only [keysOf, List.map_cons, List.mem_cons] at h
    by_cases he : k2 = k
    · exact ⟨v2, by simp [lookupJ, he]⟩
    · rcases h with rfl | h
      · exact absurd rfl he
      · simpa [lookupJ, he] using ih (by simpa [keysOf] using h)

lemma printSkippedF_ok {o : Options} {c : RCtx} {buf : String} {nds : Nat}
    {f : Option (Nat → String)} {last : Bool}
    (h : nds = 0 ∨ ∃ g, f = some g) :
    ∃ c' b', printSkippedF o c buf nds f last = .ok (c', b', 0) := by
  unfold printSkippedF
  rcases h with rfl | ⟨g, rfl⟩
  · exact ⟨c, buf, by simp⟩
  · by_cases hz : nds = 0
    · subst hz
      exact ⟨c, buf, by simp⟩
    · simp only [hz, if_false]
      exact ⟨_, _, rfl⟩

/-- Options under which the walk cannot hit the nil-skip-callback panic:
default numeric comparison, and either no elision or both summary callbacks
configured. -/
def GoodOpts (o : Options) : Prop :=
  o.CompareNumbers = none ∧
  (o.SkipMatches = false ∨ (o.SkippedSliceString.isSome ∧ o.SkippedKeysString.isSome))

def OkFullP (r : Except String (RCtx × String × List Difference)) : Prop :=
  ∃ v, r = .ok v ∧ AllFull v.2.2

def OkFullL (r : Except String (RCtx × String × Nat × Bool × List Difference)) : Prop :=
  ∃ v, r = .ok v ∧ AllFull v.2.2.2.2

lemma goodOpts_sliceFlush {o : Options} {nds : Nat} (hG : GoodOpts o)
    (hn : o.SkipMatches = false → nds = 0) :
    nds = 0 ∨ ∃ g, o.SkippedSliceString = some g := by
  rcases hG.2 with hsm | ⟨hs, _⟩
  · exact Or.inl (hn hsm)
  · exact Or.inr (Option.isSome_iff_exists.mp hs)

lemma goodOpts_keysFlush {o : Options} {nds : Nat} (hG : GoodOpts o)
    (hn : o.SkipMatches = false → nds = 0) :
    nds = 0 ∨ ∃ g, o.SkippedKeysString = some g := by
  rcases hG.2 with hsm | ⟨_, hk⟩
  · exact Or.inl (hn hsm)
  · exact Or.inr (Option.isSome_iff_exists.mp hk)

/-- Shared tail of the `arr`/`obj` branches of `printDiffF` (close the
bracket, maybe annotate the type, elide or finalize — src/jsondiff.go:411-419,
492-500), factored out over the loop's result. -/
def arrObjTail (o : Options) (a : Json) (suffix : String)
    (e : Except String (RCtx × String × Nat × Bool × List Difference)) :
    Except String (RCtx × String × List Difference) :=
  match e with
  | .error err => .error err
  | .ok (c, buf, _, seenDiff, tr) =>
    let buf := buf ++ suffix
    let buf := writeTypeMaybe o buf a
    if o.SkipMatches && !seenDiff then .ok (c, "", tr)
    else
      let (c, buf) := terminateTag o c buf
      .ok (c, buf, tr)

lemma printDiffF_arr (n : Nat) (o : Options) (c : RCtx) (sa sb : List Json) :
    printDiffF (n + 1) o c (.arr sa) (.arr sb) =
      (let mx := max sa.length sb.length
       let (c, buf) := tagV2 o c "" .normal
       let (c, buf) :=
         if mx = 0 then (c, buf ++ "[")
         else newlineV2 o { c with level := c.level + 1 } buf "["
       let seenDiff := decide (0 < mx) && decide (sa.length ≠ sb.length)
       arrObjTail o (.arr sa) "]" (loopArrF n o c buf sa sb 0 seenDiff)) := by
  cases h : loopArrF n o (tagV2 o c "" .normal).1
      (if max sa.length sb.length = 0 then (tagV2 o c "" .normal).2 ++ "["
       else (newlineV2 o { (tagV2 o c "" .normal).1 with
         level := (tagV2 o c "" .normal).1.level + 1 } (tagV2 o c "" .normal).2 "[").2)
      sa sb 0 (decide (0 < max sa.length sb.length) && decide (sa.length ≠ sb.length)) with
  | error e => rfl
  | ok v => rfl

lemma printDiffF_obj (n : Nat) (o : Options) (c : RCtx) (ma mb : List (String × Json)) :
    printDiffF (n + 1) o c (.obj ma) (.obj mb) =
      (let keys := sortStrs (dedupStrs (keysOf ma ++ keysOf mb))
       let (c, buf) := tagV2 o c "" .normal
       let (c, buf) :=
         if keys.isEmpty then (c, buf ++ "\x7b")
         else newlineV2 o { c with level := c.level + 1 } buf "\x7b"
       arrObjTail o (.obj ma) "\x7d" (loopMapF n o c buf ma mb keys 0 false)) := by
  cases h : loopMapF n o (tagV2 o c "" .normal).1
      (if (sortStrs (dedupStrs (keysOf ma ++ keysOf mb))).isEmpty
       then (tagV2 o c "" .normal).2 ++ "\x7b"
       else (newlineV2 o { (tagV2 o c "" .normal).1 with
         level := (tagV2 o c "" .normal).1.level + 1 } (tagV2 o c "" .normal).2 "\x7b").2)
      ma mb (sortStrs (dedupStrs (keysOf ma ++ keysOf mb))) 0 false with
  | error e => rfl
  | ok v => rfl

lemma arrObjTail_okFull (o : Options) (a : Json) (suffix : String)
    {e : Except String (RCtx × String × Nat × Bool × List Difference)}
    (he : OkFullL e) :
    OkFullP (arrObjTail o a suffix e) := by
  obtain ⟨⟨c1, b1, nds1, sd1, tr⟩, rfl, htr⟩ := he
  dsimp only [arrObjTail]
  split
  · exact ⟨_, rfl, htr⟩
  · exact ⟨_, rfl, htr⟩

lemma matchScalarExitF_okFull (n : Nat) (o : Options) (c : RCtx) (a : Json) :
    OkFullP (matchScalarExitF n o c a) := by
  obtain ⟨c', s, h | h⟩ := matchScalarExitF_shape n o c a
  · exact ⟨_, h, allFull_nil⟩
  · exact ⟨_, h, allFull_single⟩

lemma ebind_ok {ε α β : Type} (v : α) (f : α → Except ε β) :
    ((Except.ok v : Except ε α) >>= f) = f v := rfl

/-- Reflexive walks: on identical operands, under `GoodOpts`, every layer of
`printDiff` returns successfully and every `context.result` call in the trace
reports `FullMatch`. -/
lemma reflexive_walk : ∀ n : Nat,
    (∀ o c x, GoodOpts o → 2 * jsize x ≤ n → OkFullP (printDiffF n o c x x)) ∧
    (∀ o c buf xs nds sd, GoodOpts o → (o.SkipMatches = false → nds = 0) →
      2 * jsizeL xs ≤ n → OkFullL (loopArrF n o c buf xs xs nds sd)) ∧
    (∀ o c buf xs nds sd eqs tr1, GoodOpts o → (o.SkipMatches = false → nds = 0) →
      AllFull tr1 → 2 * jsizeL xs + 1 ≤ n →
      OkFullL (afterElemArrF n o c buf xs xs nds sd eqs tr1)) ∧
    (∀ o c buf ma ks nds sd, GoodOpts o → (o.SkipMatches = false → nds = 0) →
      1 ≤ n → (∀ k, k ∈ ks → k ∈ keysOf ma) →
      (∀ k v, k ∈ ks → lookupJ k ma = some v → 2 * jsize v + 2 * ks.length ≤ n) →
      OkFullL (loopMapF n o c buf ma ma ks nds sd)) ∧
    (∀ o c buf ma ks nds sd eqs tr1, GoodOpts o → (o.SkipMatches = false → nds = 0) →
      AllFull tr1 → 1 ≤ n → (∀ k, k ∈ ks → k ∈ keysOf ma) →
      (∀ k v, k ∈ ks → lookupJ k ma = some v → 2 * jsize v + 2 * ks.length + 1 ≤ n) →
      OkFullL (afterKeyMapF n o c buf ma ma ks nds sd eqs tr1)) := by
  intro n
  induction n with
  | zero =>
    refine ⟨?_, ?_, ?_, ?_, ?_⟩
    · intro o c x hG hsz; have := jsize_pos x; omega
    · intro o c buf xs nds sd hG hn hsz; have := jsizeL_pos xs; omega
    · intro o c buf xs nds sd eqs tr1 hG hn htr1 hsz; have := jsizeL_pos xs; omega
    · intro o c buf ma ks nds sd hG hn h1 hmem hbound; omega
    · intro o c buf ma ks nds sd eqs tr1 hG hn htr1 h1 hmem hbound; omega
  | succ n ih =>
    obtain ⟨ihP, ihA, ihAE, ihM, ihAK⟩ := ih
    refine ⟨?_, ?_, ?_, ?_, ?_⟩
    · -- printDiffF on x vs x
      intro o c x hG hsz
      cases x with
      | null =>
        simp only [printDiffF]
        split
        · exact ⟨_, rfl, allFull_nil⟩
        · exact ⟨_, rfl, allFull_single⟩
      | bool b =>
        simp only [printDiffF]
        rw [if_neg (fun h => h rfl)]
        exact matchScalarExitF_okFull n o c (.bool b)
      | num s =>
        have hcn : compareNumbersFn o s s = true := by
          unfold compareNumbersFn
          rw [hG.1]
          simp
        simp only [printDiffF]
        rw [if_neg (by simp [hcn])]
        exact matchScalarExitF_okFull n o c (.num s)
      | str s =>
        simp only [printDiffF]
        rw [if_neg (fun h => h rfl)]
        exact matchScalarExitF_okFull n o c (.str s)
      | arr xs =>
        rw [printDiffF_arr]
        exact arrObjTail_okFull o (.arr xs) "]"
          (ihA o _ _ xs 0 _ hG (fun _ => rfl)
            (by simp only [jsize] at hsz; omega))
      | obj ma =>
        rw [printDiffF_obj]
        refine arrObjTail_okFull o (.obj ma) "\x7d"
          (ihM o _ _ ma _ 0 _ hG (fun _ => rfl) ?_ ?_ ?_)
        · have := jsizeO_pos ma
          simp only [jsize] at hsz
          omega
        · intro k hk
          rw [mem_sortStrs, mem_dedupStrs, List.mem_append] at hk
          rcases hk with h | h <;> exact h
        · intro k v hk hv
          have h1 := jsizeO_lookup_bound hv
          have h3 : jsize (Json.obj ma) = 1 + jsizeO ma := rfl
          have h4 := length_sortStrs (dedupStrs (keysOf ma ++ keysOf ma))
          have h5 := length_dedupStrs_le (keysOf ma ++ keysOf ma)
          have h6 : (keysOf ma ++ keysOf ma).length = 2 * ma.length := by
            simp only [keysOf, List.length_append, List.length_map]
            omega
          rw [h3] at hsz
          omega
    · -- loopArrF on xs vs xs
      intro o c buf xs nds sd hG hn hsz
      cases xs with
      | nil => exact ⟨_, rfl, allFull_nil⟩
      | cons x xs =>
        simp only [loopArrF]
        have hx : 2 * jsize x ≤ n := by simp only [jsizeL] at hsz; omega
        obtain ⟨⟨c1, s1, tr1⟩, hv, htr1⟩ := ihP o c x hG hx
        rw [hv]
        simp only [ebind_ok]
        split
        · obtain ⟨c2, b2, hps⟩ := printSkippedF_ok (goodOpts_sliceFlush hG hn)
          rw [hps]
          simp only [ebind_ok]
          exact ihAE o _ _ xs 0 sd false tr1 hG (fun _ => rfl) htr1
            (by simp only [jsizeL] at hsz; omega)
        · exact ihAE o _ _ xs nds sd true tr1 hG hn htr1
            (by simp only [jsizeL] at hsz; omega)
    · -- afterElemArrF on xs vs xs
      intro o c buf xs nds sd eqs tr1 hG hn htr1 hsz
      simp only [afterElemArrF]
      have hflush : ∀ nds2 : Nat, (o.SkipMatches = false → nds2 = 0) →
          ∀ c3 b3, ∃ c4 b4,
            printSkippedF o c3 b3 nds2 o.SkippedSliceString true = .ok (c4, b4, 0) :=
        fun nds2 hn2 c3 b3 => printSkippedF_ok (goodOpts_sliceFlush hG hn2)
      cases hsm : o.SkipMatches with
      | false =>
        simp only [hsm, Bool.false_eq_true, if_false]
        cases xs with
        | nil =>
          simp only [List.isEmpty_nil, Bool.and_self, if_true]
          obtain ⟨c4, b4, hps⟩ := hflush nds hn _ _
          rw [hps]
          simp only [ebind_ok]
          exact ⟨_, rfl, htr1⟩
        | cons x xs =>
          simp only [List.isEmpty_cons, Bool.and_self, Bool.false_eq_true, if_false,
            Bool.not_false, Bool.true_or]
          obtain ⟨⟨c2, b2, nds2, sd2, tr2⟩, hl, htr2⟩ :=
            ihA o _ _ (x :: xs) nds sd hG hn (by omega)
          rw [hl]
          simp only [ebind_ok]
          exact ⟨_, rfl, allFull_append htr1 htr2⟩
      | true =>
        have hn' : o.SkipMatches = false → False := by
          intro h; rw [hsm] at h; cases h
        cases heq : eqs with
        | false =>
          simp only [hsm, heq, Bool.false_eq_true, if_false, if_true]
          cases xs with
          | nil =>
            simp only [List.isEmpty_nil, Bool.and_self, if_true]
            obtain ⟨c4, b4, hps⟩ := hflush nds (fun h => absurd h (fun h2 => hn' h2)) _ _
            rw [hps]
            simp only [ebind_ok]
            exact ⟨_, rfl, htr1⟩
          | cons x xs =>
            simp only [List.isEmpty_cons, Bool.and_self, Bool.false_eq_true, if_false,
              Bool.not_false, Bool.or_true]
            obtain ⟨⟨c2, b2, nds2, sd2, tr2⟩, hl, htr2⟩ :=
              ihA o _ _ (x :: xs) nds true hG (fun h => absurd h hn') (by omega)
            rw [hl]
            simp only [ebind_ok]
            exact ⟨_, rfl, allFull_append htr1 htr2⟩
        | true =>
          simp only [hsm, heq, if_true]
          cases xs with
          | nil =>
            simp only [List.isEmpty_nil, Bool.and_self, if_true]
            obtain ⟨c4, b4, hps⟩ :=
              hflush (nds + 1) (fun h => absurd h hn') _ _
            rw [hps]
            simp only [ebind_ok]
            exact ⟨_, rfl, htr1⟩
          | cons x xs =>
            simp only [List.isEmpty_cons, Bool.and_self, Bool.false_eq_true, if_false,
              Bool.not_true, Bool.or_self]
            obtain ⟨⟨c2, b2, nds2, sd2, tr2⟩, hl, htr2⟩ :=
              ihA o _ _ (x :: xs) (nds + 1) sd hG (fun h => absurd h hn') (by omega)
            rw [hl]
            simp only [ebind_ok]
            exact ⟨_, rfl, allFull_append htr1 htr2⟩
    · -- loopMapF on ma vs ma
      intro o c buf ma ks nds sd hG hn h1 hmem hbound
      cases ks with
      | nil => exact ⟨_, rfl, allFull_nil⟩
      | cons k ks =>
        obtain ⟨va, hva⟩ := lookupJ_isSome_of_mem_keys (hmem k (List.mem_cons_self k ks))
        have hbk := hbound k va (List.mem_cons_self k ks) hva
        have hjva := jsize_pos va
        simp only [loopMapF, hva]
        have hx : 2 * jsize va ≤ n := by
          simp only [List.length_cons] at hbk; omega
        obtain ⟨⟨c1, s1, tr1⟩, hv, htr1⟩ := ihP o c va hG hx
        rw [hv]
        simp only [ebind_ok]
        have hmem' : ∀ k2, k2 ∈ ks → k2 ∈ keysOf ma :=
          fun k2 hk2 => hmem k2 (List.mem_cons_of_mem k hk2)
        have hbound' : ∀ k2 v2, k2 ∈ ks → lookupJ k2 ma = some v2 →
            2 * jsize v2 + 2 * ks.length + 1 ≤ n := by
          intro k2 v2 hk2 hv2
          have := hbound k2 v2 (List.mem_cons_of_mem k hk2) hv2
          simp only [List.length_cons] at this
          omega
        have h1' : 1 ≤ n := by
          simp only [List.length_cons] at hbk; omega
        split
        · obtain ⟨c2, b2, hps⟩ := printSkippedF_ok (goodOpts_keysFlush hG hn)
          rw [hps]
          simp only [ebind_ok]
          exact ihAK o _ _ ma ks 0 sd false tr1 hG (fun _ => rfl) htr1 h1' hmem' hbound'
        · exact ihAK o _ _ ma ks nds sd true tr1 hG hn htr1 h1' hmem' hbound'
    · -- afterKeyMapF on ma vs ma
      intro o c buf ma ks nds sd eqs tr1 hG hn htr1 h1 hmem hbound
      simp only [afterKeyMapF]
      have hflush : ∀ nds2 : Nat, (o.SkipMatches = false → nds2 = 0) →
          ∀ c3 b3, ∃ c4 b4,
            printSkippedF o c3 b3 nds2 o.SkippedKeysString true = .ok (c4, b4, 0) :=
        fun nds2 hn2 c3 b3 => printSkippedF_ok (goodOpts_keysFlush hG hn2)
      have hcont : ∀ k2 ks2, ks = k2 :: ks2 → ∀ nds2 sd2 c3 b3,
          (o.SkipMatches = false → nds2 = 0) →
          OkFullL (loopMapF n o c3 b3 ma ma (k2 :: ks2) nds2 sd2) := by
        intro k2 ks2 hks nds2 sd2 c3 b3 hn2
        subst hks
        obtain ⟨v2, hv2⟩ := lookupJ_isSome_of_mem_keys (hmem k2 (List.mem_cons_self k2 ks2))
        have hbk := hbound k2 v2 (List.mem_cons_self k2 ks2) hv2
        have := jsize_pos v2
        refine ihM o c3 b3 ma (k2 :: ks2) nds2 sd2 hG hn2 (by omega) hmem ?_
        intro k3 v3 hk3 hv3
        have := hbound k3 v3 hk3 hv3
        omega
      cases hsm : o.SkipMatches with
      | false =>
        simp only [hsm, Bool.false_eq_true, if_false]
        cases ks with
        | nil =>
          simp only [List.isEmpty_nil, if_true]
          obtain ⟨c4, b4, hps⟩ := hflush nds hn _ _
          rw [hps]
          simp only [ebind_ok]
          exact ⟨_, rfl, htr1⟩
        | cons k2 ks2 =>
          simp only [List.isEmpty_cons, Bool.false_eq_true, if_false,
            Bool.not_false, Bool.true_or]
          obtain ⟨⟨c2, b2, nds2, sd2, tr2⟩, hl, htr2⟩ :=
            hcont k2 ks2 rfl nds sd _ _ hn
          rw [hl]
          simp only [ebind_ok]
          exact ⟨_, rfl, allFull_append htr1 htr2⟩
      | true =>
        have hn' : o.SkipMatches = false → False := by
          intro h; rw [hsm] at h; cases h
        cases heq : eqs with
        | false =>
          simp only [hsm, heq, Bool.false_eq_true, if_false, if_true]
          cases ks with
          | nil =>
            simp only [List.isEmpty_nil, if_true]
            obtain ⟨c4, b4, hps⟩ := hflush nds (fun h => absurd h hn') _ _
            rw [hps]
            simp only [ebind_ok]
            exact ⟨_, rfl, htr1⟩
          | cons k2 ks2 =>
            simp only [List.isEmpty_cons, Bool.false_eq_true, if_false,
              Bool.not_false, Bool.or_true]
            obtain ⟨⟨c2, b2, nds2, sd2, tr2⟩, hl, htr2⟩ :=
              hcont k2 ks2 rfl nds true _ _ (fun h => absurd h hn')
            rw [hl]
            simp only [ebind_ok]
            exact ⟨_, rfl, allFull_append htr1 htr2⟩
        | true =>
          simp only [hsm, heq, if_true]
          cases ks with
          | nil =>
            simp only [List.isEmpty_nil, if_true]
            obtain ⟨c4, b4, hps⟩ := hflush (nds + 1) (fun h => absurd h hn') _ _
            rw [hps]
            simp only [ebind_ok]
            exact ⟨_, rfl, htr1⟩
          | cons k2 ks2 =>
            simp only [List.isEmpty_cons, Bool.false_eq_true, if_false,
              Bool.not_true, Bool.or_self]
            obtain ⟨⟨c2, b2, nds2, sd2, tr2⟩, hl, htr2⟩ :=
              hcont k2 ks2 rfl (nds + 1) sd _ _ (fun h => absurd h hn')
            rw [hl]
            simp only [ebind_ok]
            exact ⟨_, rfl, allFull_append htr1 htr2⟩

/-- Claim C7 (code bug): reflexivity does not hold as stated.  With elision
enabled (`SkipMatches`) and the skip-summary callbacks left nil — an Options
value with the default numeric comparison, which the claim quantifies over —
`printSkipped` calls the nil callback (src/jsondiff.go:274) and comparing
`[1]` with itself panics instead of returning FullMatch (modelled as the
error value).  Under `GoodOpts` (default numeric comparison, and elision
either off or with both summary callbacks set) reflexivity does hold:
comparing any document with itself classifies FullMatch. -/
theorem C7_reflexivity :
    CompareVals { SkipMatches := true } (.arr [.num "1"]) (.arr [.num "1"]) =
      .error "nil skip callback" ∧
    (∀ (o : Options) (x : Json), GoodOpts o →
      ∃ s, CompareVals o x x = .ok (FullMatch, s)) := by
  refine ⟨rfl, ?_⟩
  intro o x hG
  obtain ⟨⟨c1, s1, tr⟩, hv, htr⟩ :=
    (reflexive_walk (fuelFor x x)).1 o {} x hG (by unfold fuelFor; omega)
  refine ⟨s1, ?_⟩
  unfold CompareVals
  rw [hv]
  dsimp only
  rw [foldl_resultStep_allFull htr]

/-- Concrete instantiation of `C7_reflexivity`: the all-default Options value
satisfies `GoodOpts`, and comparing the document with itself returns
FullMatch. -/
theorem C7_reflexivity_witness :
    GoodOpts {} ∧
    ∃ s, CompareVals {} (.obj [("a", .num "1")]) (.obj [("a", .num "1")]) =
      .ok (FullMatch, s) :=
  ⟨⟨rfl, Or.inl rfl⟩, C7_reflexivity.2 {} (.obj [("a", .num "1")]) ⟨rfl, Or.inl rfl⟩⟩

/-! ### Claim C4 — universal machinery: the string order under `sort.Strings` -/

lemma charsLt_irrefl : ∀ l : List Char, charsLt l l = false
  | [] => rfl
  | a :: as => by
    simp only [charsLt, Nat.lt_irrefl, if_false]
    exact charsLt_irrefl as

lemma charsLt_asymm : ∀ l1 l2 : List Char,
    charsLt l1 l2 = true → charsLt l2 l1 = true → False
  | [], [], h1, _ => by cases h1
  | [], _ :: _, _, h2 => by cases h2
  | _ :: _, [], h1, _ => by cases h1
  | a :: as, b :: bs, h1, h2 => by
    simp only [charsLt] at h1 h2
    rcases Nat.lt_trichotomy a.toNat b.toNat with hab | hab | hab
    · rw [if_neg (by omega), if_pos hab] at h2; cases h2
    · rw [if_neg (by omega), if_neg (by omega)] at h1 h2
      exact charsLt_asymm as bs h1 h2
    · rw [if_neg (by omega), if_pos hab] at h1; cases h1

lemma charsLt_trans : ∀ l1 l2 l3 : List Char,
    charsLt l1 l2 = true → charsLt l2 l3 = true → charsLt l1 l3 = true
  | [], [], _, h1, _ => by cases h1
  | [], _ :: _, [], _, h2 => by cases h2
  | [], _ :: _, _ :: _, _, _ => rfl
  | _ :: _, [], _, h1, _ => by cases h1
  | _ :: _, _ :: _, [], _, h2 => by cases h2
  | a :: as, b :: bs, c :: cs, h1, h2 => by
    simp only [charsLt] at h1 h2 ⊢
    rcases Nat.lt_trichotomy a.toNat b.toNat with hab | hab | hab
    · rcases Nat.lt_trichotomy b.toNat c.toNat with hbc | hbc | hbc
      · rw [if_pos (by omega)]
      · rw [if_pos (by omega)]
      · rw [if_neg (by omega), if_pos hbc] at h2; cases h2
    · rcases Nat.lt_trichotomy b.toNat c.toNat with hbc | hbc | hbc
      · rw [if_pos (by omega)]
      · rw [if_neg (by omega), if_neg (by omega)]
        rw [if_neg (by omega), if_neg (by omega)] at h1
        rw [if_neg (by omega), if_neg (by omega)] at h2
        exact charsLt_trans as bs cs h1 h2
      · rw [if_neg (by omega), if_pos hbc] at h2; cases h2
    · rw [if_neg (by omega), if_pos hab] at h1; cases h1

lemma charsLt_conn : ∀ l1 l2 : List Char,
    charsLt l1 l2 = false → charsLt l2 l1 = false → l1 = l2
  | [], [], _, _ => rfl
  | [], _ :: _, h1, _ => by cases h1
  | _ :: _, [], _, h2 => by cases h2
  | a :: as, b :: bs, h1, h2 => by
    simp only [charsLt] at h1 h2
    rcases Nat.lt_trichotomy a.toNat b.toNat with hab | hab | hab
    · rw [if_pos hab] at h1; cases h1
    · rw [if_neg (by omega), if_neg (by omega)] at h1 h2
      have hc : a = b := Char.ext (UInt32.ext hab)
      rw [hc, charsLt_conn as bs h1 h2]
    · rw [if_pos hab] at h2; cases h2

/-- The strict order `sort.Strings` sorts by, as a proposition. -/
def strLtP (a b : String) : Prop := strLt a b = true

lemma strLtP_asymm {a b : String} (h1 : strLtP a b) (h2 : strLtP b a) : False :=
  charsLt_asymm a.data b.data h1 h2

lemma strLtP_trans {a b c : String} (h1 : strLtP a b) (h2 : strLtP b c) : strLtP a c :=
  charsLt_trans a.data b.data c.data h1 h2

lemma strLt_conn {a b : String} (h1 : strLt a b = false) (h2 : strLt b a = false) :
    a = b := by
  have hd : a.data = b.data := charsLt_conn a.data b.data h1 h2
  cases a with
  | mk da =>
    cases b with
    | mk db => simp only at hd; rw [hd]

lemma strLtP_of_ne_of_not_lt {a b : String} (hne : a ≠ b) (h : ¬ strLtP a b) :
    strLtP b a := by
  have h1 : strLt a b = false := by
    cases hab : strLt a b
    · rfl
    · exact absurd hab h
  cases hba : strLt b a
  · exact absurd (strLt_conn h1 hba) hne
  · exact hba

lemma insertSorted_perm (s : String) : ∀ l : List String,
    (insertSorted s l).Perm (s :: l)
  | [] => List.Perm.refl _
  | t :: ts => by
    simp only [insertSorted]
    split
    · exact List.Perm.refl _
    · exact ((insertSorted_perm s ts).cons t).trans (List.Perm.swap s t ts)

lemma sortStrs_perm : ∀ l : List String, (sortStrs l).Perm l
  | [] => List.Perm.refl _
  | x :: l => by
    simp only [sortStrs, List.foldr_cons]
    have h1 := insertSorted_perm x (sortStrs l)
    exact h1.trans ((sortStrs_perm l).cons x)

lemma sorted_insertSorted {s : String} : ∀ {l : List String}, s ∉ l →
    List.Pairwise strLtP l → List.Pairwise strLtP (insertSorted s l)
  | [], _, _ => List.Pairwise.cons (by intro x hx; cases hx) List.Pairwise.nil
  | t :: ts, hs, h => by
    simp only [insertSorted]
    rcases List.pairwise_cons.mp h with ⟨hhead, htail⟩
    split
    · rename_i hst
      refine List.pairwise_cons.mpr ⟨?_, h⟩
      intro x hx
      rcases List.mem_cons.mp hx with rfl | hx
      · exact hst
      · exact strLtP_trans hst (hhead x hx)
    · rename_i hst
      have hne : s ≠ t := fun he => hs (he ▸ List.mem_cons_self s ts)
      have hts : strLtP t s := strLtP_of_ne_of_not_lt hne hst
      refine List.pairwise_cons.mpr ⟨?_, ?_⟩
      · intro x hx
        rcases (mem_insertSorted).mp hx with rfl | hx
        · exact hts
        · exact hhead x hx
      · exact sorted_insertSorted (fun hc => hs (List.mem_cons_of_mem t hc)) htail

lemma sortStrs_sorted : ∀ {l : List String}, l.Nodup →
    List.Pairwise strLtP (sortStrs l)
  | [], _ => List.Pairwise.nil
  | x :: l, h => by
    simp only [sortStrs, List.foldr_cons]
    rcases List.nodup_cons.mp h with ⟨hx, hl⟩
    exact sorted_insertSorted (fun hc => hx (mem_sortStrs.mp hc)) (sortStrs_sorted hl)

lemma nodup_dedupStrs_aux : ∀ (l acc : List String), acc.Nodup →
    (l.foldl (fun acc s => if s ∈ acc then acc else acc ++ [s]) acc).Nodup
  | [], acc, h => h
  | s :: l, acc, h => by
    simp only [List.foldl_cons]
    split
    · exact nodup_dedupStrs_aux l acc h
    · rename_i hmem
      refine nodup_dedupStrs_aux l (acc ++ [s]) ?_
      simp [List.nodup_append, h, hmem]

lemma nodup_dedupStrs (l : List String) : (dedupStrs l).Nodup :=
  nodup_dedupStrs_aux l [] List.nodup_nil

/-- Sorting the deduplicated key set depends only on key membership: the walk
order of `printDiff`'s map case is independent of the decoder map's iteration
order (src/jsondiff.go:421-432). -/
lemma sortStrs_ext {l1 l2 : List String} (h : ∀ k, k ∈ l1 ↔ k ∈ l2) :
    sortStrs (dedupStrs l1) = sortStrs (dedupStrs l2) := by
  haveI : IsAntisymm String strLtP :=
    ⟨fun a b h1 h2 => absurd h1 (fun hc => strLtP_asymm hc h2)⟩
  have hperm : (sortStrs (dedupStrs l1)).Perm (sortStrs (dedupStrs l2)) := by
    refine (sortStrs_perm _).trans (List.Perm.trans ?_ (sortStrs_perm _).symm)
    refine (List.perm_ext_iff_of_nodup (nodup_dedupStrs l1) (nodup_dedupStrs l2)).mpr ?_
    intro k
    rw [mem_dedupStrs, mem_dedupStrs]
    exact h k
  exact List.eq_of_perm_of_sorted hperm
    (sortStrs_sorted (nodup_dedupStrs l1)) (sortStrs_sorted (nodup_dedupStrs l2))

/-- Strict lexicographic sortedness of the walked key list, for the amended
ordering clause. -/
lemma sortStrs_dedup_sorted (l : List String) :
    List.Pairwise strLtP (sortStrs (dedupStrs l)) :=
  sortStrs_sorted (nodup_dedupStrs l)

/-! ### Claim C4 — documents equal up to Go map iteration order -/

/-- Two decoded documents that differ only in the order Go's map iteration
happened to produce: scalars identical, arrays pointwise related, objects
with duplicate-free equal key sets (decoded maps have unique keys) and
related values at every common key. -/
inductive JPerm : Json → Json → Prop
  | null : JPerm .null .null
  | bool (b : Bool) : JPerm (.bool b) (.bool b)
  | num (s : String) : JPerm (.num s) (.num s)
  | str (s : String) : JPerm (.str s) (.str s)
  | arr {xs ys : List Json} : xs.length = ys.length →
      (∀ (i : Nat) x y, xs[i]? = some x → ys[i]? = some y → JPerm x y) →
      JPerm (.arr xs) (.arr ys)
  | obj {ma mb : List (String × Json)} :
      (keysOf ma).Nodup → (keysOf mb).Nodup →
      (∀ k, k ∈ keysOf ma ↔ k ∈ keysOf mb) →
      (∀ k va vb, lookupJ k ma = some va → lookupJ k mb = some vb → JPerm va vb) →
      JPerm (.obj ma) (.obj mb)

/-- Pointwise relation on array element lists. -/
def JPermL (xs ys : List Json) : Prop :=
  xs.length = ys.length ∧
  ∀ (i : Nat) x y, xs[i]? = some x → ys[i]? = some y → JPerm x y

lemma jpermL_nil {l : List Json} (h : JPermL [] l) : l = [] :=
  List.length_eq_zero.mp h.1.symm

lemma jpermL_cons {x : Json} {xs l : List Json} (h : JPermL (x :: xs) l) :
    ∃ y ys, l = y :: ys ∧ JPerm x y ∧ JPermL xs ys := by
  cases l with
  | nil => cases h.1
  | cons y ys =>
    refine ⟨y, ys, rfl, h.2 0 x y (by simp) (by simp), ?_, ?_⟩
    · simpa using h.1
    · intro i a b ha hb
      exact h.2 (i + 1) a b (by simpa using ha) (by simpa using hb)

lemma mem_keys_of_lookupJ_some {k : String} {v : Json} :
    ∀ {m : List (String × Json)}, lookupJ k m = some v → k ∈ keysOf m := by
  intro m
  induction m with
  | nil => intro h; cases h
  | cons p rest ih =>
    rcases p with ⟨k2, w⟩
    intro h
    simp only [lookupJ] at h
    split at h
    · rename_i he; simp [keysOf, he]
    · simp only [keysOf, List.map_cons, List.mem_cons]
      exact Or.inr (ih h)

lemma lookupJ_eq_none_iff {k : String} {m : List (String × Json)} :
    lookupJ k m = none ↔ k ∉ keysOf m := by
  constructor
  · intro h hmem
    obtain ⟨v, hv⟩ := lookupJ_isSome_of_mem_keys hmem
    rw [h] at hv; cases hv
  · intro h
    cases hl : lookupJ k m with
    | none => rfl
    | some v => exact absurd (mem_keys_of_lookupJ_some hl) h

/-- Removal of the first binding of a key, for the key-set surgery below. -/
def eraseK (k : String) : List (String × Json) → List (String × Json)
  | [] => []
  | (k2, v) :: rest => if k2 = k then rest else (k2, v) :: eraseK k rest

lemma jsizeO_eraseK {k : String} {v : Json} :
    ∀ {m : List (String × Json)}, lookupJ k m = some v →
      jsizeO m = 2 + jsize v + jsizeO (eraseK k m) := by
  intro m
  induction m with
  | nil => intro h; cases h
  | cons p rest ih =>
    rcases p with ⟨k2, w⟩
    intro h
    simp only [lookupJ] at h
    simp only [eraseK]
    split
    · rename_i he
      rw [if_pos he] at h
      cases h
      simp [jsizeO]
    · rename_i he
      rw [if_neg he] at h
      simp only [jsizeO, ih h]
      omega

lemma lookupJ_eraseK_ne {k k2 : String} (hne : k2 ≠ k) :
    ∀ m : List (String × Json), lookupJ k2 (eraseK k m) = lookupJ k2 m := by
  intro m
  induction m with
  | nil => rfl
  | cons p rest ih =>
    rcases p with ⟨k3, w⟩
    simp only [eraseK]
    split
    · rename_i he
      subst he
      simp only [lookupJ, if_neg (Ne.symm hne)]
    · simp only [lookupJ]
      split
      · rfl
      · exact ih

lemma mem_keys_eraseK {k k2 : String} :
    ∀ {m : List (String × Json)}, (keysOf m).Nodup →
      (k2 ∈ keysOf (eraseK k m) ↔ k2 ∈ keysOf m ∧ k2 ≠ k) := by
  intro m
  induction m with
  | nil => intro _; simp [eraseK, keysOf]
  | cons p rest ih =>
    rcases p with ⟨k3, w⟩
    intro hnd
    have hnd' : (keysOf rest).Nodup := (List.nodup_cons.mp hnd).2
    have hk3 : k3 ∉ keysOf rest := (List.nodup_cons.mp hnd).1
    simp only [eraseK]
    split
    · rename_i he
      subst he
      constructor
      · intro h
        exact ⟨List.mem_cons_of_mem _ h, fun hc => hk3 (hc ▸ h)⟩
      · rintro ⟨h, hne⟩
        rcases List.mem_cons.mp h with rfl | h
        · exact absurd rfl hne
        · exact h
    · rename_i he
      simp only [keysOf, List.map_cons, List.mem_cons] at *
      rw [ih hnd']
      constructor
      · rintro (rfl | ⟨h, hne⟩)
        · exact ⟨Or.inl rfl, he⟩
        · exact ⟨Or.inr h, hne⟩
      · rintro ⟨rfl | h, hne⟩
        · exact Or.inl rfl
        · exact Or.inr ⟨h, hne⟩

lemma nodup_keys_eraseK {k : String} :
    ∀ {m : List (String × Json)}, (keysOf m).Nodup → (keysOf (eraseK k m)).Nodup := by
  intro m
  induction m with
  | nil => intro _; simp [eraseK, keysOf]
  | cons p rest ih =>
    rcases p with ⟨k3, w⟩
    intro hnd
    rcases List.nodup_cons.mp hnd with ⟨hk3, hnd'⟩
    simp only [eraseK]
    split
    · exact hnd'
    · simp only [keysOf, List.map_cons, List.nodup_cons]
      refine ⟨fun hc => hk3 ((mem_keys_eraseK hnd').mp hc).1, ih hnd'⟩

/-- Per-key size, for the map-loop fuel bookkeeping. -/
def jsizeK (m : List (String × Json)) (k : String) : Nat :=
  match lookupJ k m with
  | some v => jsize v
  | none => 0

lemma jsizeK_bound (m : List (String × Json)) (k : String) :
    jsizeK m k + 2 * m.length ≤ jsizeO m := by
  unfold jsizeK
  cases hl : lookupJ k m with
  | none => simpa using two_len_le_jsizeO m
  | some v => exact jsizeO_lookup_bound hl

/-- Relating one side's lookup results across the two iteration orders. -/
def OJRel : Option Json → Option Json → Prop
  | none, none => True
  | some v, some w => JPerm v w
  | _, _ => False

def ORel (m m' : List (String × Json)) : Prop :=
  ∀ k, OJRel (lookupJ k m) (lookupJ k m')

lemma orel_of_obj {ma mb : List (String × Json)}
    (hmem : ∀ k, k ∈ keysOf ma ↔ k ∈ keysOf mb)
    (hlk : ∀ k va vb, lookupJ k ma = some va → lookupJ k mb = some vb → JPerm va vb) :
    ORel ma mb := by
  intro k
  cases hla : lookupJ k ma with
  | none =>
    have : k ∉ keysOf mb := fun hc =>
      (lookupJ_eq_none_iff.mp hla) ((hmem k).mpr hc)
    rw [lookupJ_eq_none_iff.mpr this]
    exact trivial
  | some va =>
    have hb : k ∈ keysOf mb := (hmem k).mp (mem_keys_of_lookupJ_some hla)
    obtain ⟨vb, hvb⟩ := lookupJ_isSome_of_mem_keys hb
    rw [hvb]
    exact hlk k va vb hla hvb

/-- `JPerm` preserves the structural size at every level. -/
lemma jperm_size : ∀ n : Nat,
    (∀ a b, JPerm a b → jsize a ≤ n → jsize a = jsize b) ∧
    (∀ xs ys, JPermL xs ys → jsizeL xs ≤ n → jsizeL xs = jsizeL ys) ∧
    (∀ ma mb, (keysOf ma).Nodup → (keysOf mb).Nodup →
      (∀ k, k ∈ keysOf ma ↔ k ∈ keysOf mb) →
      (∀ k va vb, lookupJ k ma = some va → lookupJ k mb = some vb → JPerm va vb) →
      jsizeO ma ≤ n → jsizeO ma = jsizeO mb) := by
  intro n
  induction n with
  | zero =>
    refine ⟨?_, ?_, ?_⟩
    · intro a b _ hsz; have := jsize_pos a; omega
    · intro xs ys _ hsz; have := jsizeL_pos xs; omega
    · intro ma mb _ _ _ _ hsz; have := jsizeO_pos ma; omega
  | succ n ih =>
    obtain ⟨ihP, ihL, ihO⟩ := ih
    refine ⟨?_, ?_, ?_⟩
    · intro a b h hsz
      cases h with
      | null => rfl
      | bool => rfl
      | num => rfl
      | str => rfl
      | arr hlen hpt =>
        simp only [jsize]
        rw [ihL _ _ ⟨hlen, hpt⟩ (by simp only [jsize] at hsz; omega)]
      | obj hnda hndb hmem hlk =>
        simp only [jsize]
        rw [ihO _ _ hnda hndb hmem hlk (by simp only [jsize] at hsz; omega)]
    · intro xs ys h hsz
      cases xs with
      | nil => rw [jpermL_nil h]
      | cons x xs =>
        obtain ⟨y, ys2, rfl, hxy, htl⟩ := jpermL_cons h
        simp only [jsizeL] at hsz ⊢
        have h1 := jsize_pos x
        have h2 := jsizeL_pos xs
        rw [ihP x y hxy (by omega), ihL xs ys2 htl (by omega)]
    · intro ma mb hnda hndb hmem hlk hsz
      cases ma with
      | nil =>
        have : mb = [] := by
          cases mb with
          | nil => rfl
          | cons p rest =>
            rcases p with ⟨k, v⟩
            exact absurd ((hmem k).mpr (by simp [keysOf])) (by simp [keysOf])
        rw [this]
      | cons p rest =>
        rcases p with ⟨k, v⟩
        have hlka : lookupJ k ((k, v) :: rest) = some v := by simp [lookupJ]
        have hkmem : k ∈ keysOf ((k, v) :: rest) := by simp [keysOf]
        obtain ⟨w, hw⟩ := lookupJ_isSome_of_mem_keys ((hmem k).mp hkmem)
        have hvw : JPerm v w := hlk k v w hlka hw
        have hszv : jsize v ≤ n := by simp only [jsizeO] at hsz; omega
        have hrest_nd : (keysOf rest).Nodup := (List.nodup_cons.mp hnda).2
        have hknotin : k ∉ keysOf rest := (List.nodup_cons.mp hnda).1
        have hmem' : ∀ k2, k2 ∈ keysOf rest ↔ k2 ∈ keysOf (eraseK k mb) := by
          intro k2
          rw [mem_keys_eraseK hndb]
          constructor
          · intro h2
            have hne : k2 ≠ k := fun hc => hknotin (hc ▸ h2)
            exact ⟨(hmem k2).mp (List.mem_cons_of_mem _ h2), hne⟩
          · rintro ⟨h2, hne⟩
            have := (hmem k2).mpr h2
            simp only [keysOf, List.map_cons, List.mem_cons] at this
            rcases this with rfl | h3
            · exact absurd rfl hne
            · exact h3
        have hlk' : ∀ k2 va vb, lookupJ k2 rest = some va →
            lookupJ k2 (eraseK k mb) = some vb → JPerm va vb := by
          intro k2 va vb hva hvb
          have hne : k2 ≠ k := by
            intro hc
            subst hc
            exact hknotin (mem_keys_of_lookupJ_some hva)
          refine hlk k2 va vb ?_ ?_
          · simp only [lookupJ, if_neg (Ne.symm hne)]
            exact hva
          · rw [← lookupJ_eraseK_ne hne mb]
            exact hvb
        have hrec : jsizeO rest = jsizeO (eraseK k mb) := by
          refine ihO rest (eraseK k mb) hrest_nd (nodup_keys_eraseK hndb) hmem' hlk' ?_
          simp only [jsizeO] at hsz; omega
        rw [jsizeO_eraseK hw]
        simp only [jsizeO]
        rw [ihP v w hvw hszv, hrec]

lemma jperm_jsize {a b : Json} (h : JPerm a b) : jsize a = jsize b :=
  (jperm_size (jsize a)).1 a b h le_rfl

/-- Nonempty-container classification: the only fact about a value that the
context evolution of `writeValue` depends on. -/
def isNEC : Json → Bool
  | .arr (_ :: _) => true
  | .obj (_ :: _) => true
  | _ => false

lemma jperm_isNEC {a b : Json} (h : JPerm a b) : isNEC a = isNEC b := by
  cases h with
  | null => rfl
  | bool => rfl
  | num => rfl
  | str => rfl
  | arr hlen hpt =>
    rename_i xs ys
    cases xs with
    | nil => rw [List.length_nil] at hlen; rw [(List.length_eq_zero.mp hlen.symm)]
    | cons x xs =>
      cases ys with
      | nil => rw [List.length_cons, List.length_nil] at hlen; cases hlen
      | cons y ys => rfl
  | obj hnda hndb hmem hlk =>
    rename_i ma mb
    cases ma with
    | nil =>
      cases mb with
      | nil => rfl
      | cons p rest =>
        rcases p with ⟨k, v⟩
        exact absurd ((hmem k).mpr (by simp [keysOf])) (by simp [keysOf])
    | cons p rest =>
      cases mb with
      | nil =>
        rcases p with ⟨k, v⟩
        exact absurd ((hmem k).mp (by simp [keysOf])) (by simp [keysOf])
      | cons q rest2 => rfl

/-! ### Claim C4 — rendering and context-evolution lemmas -/

/-- Mismatches render both values compactly (`writeValue` with `full=false`,
src/jsondiff.go:238-242): containers become bare brackets, so the mismatch
output is identical for iteration-order variants. -/
lemma wvFalse {v v' : Json} (h : JPerm v v') (n : Nat) (o : Options) (c : RCtx)
    (buf : String) : writeValueF n o c buf v false = writeValueF n o c buf v' false := by
  cases n with
  | zero => rfl
  | succ n => cases h <;> rfl

lemma mismatchExit_jperm {a b a' b' : Json} (n : Nat) (o : Options) (c : RCtx)
    (ha : JPerm a a') (hb : JPerm b b') :
    mismatchExitF n o c a b = mismatchExitF n o c a' b' := by
  unfold mismatchExitF printMismatchF writeMismatchF
  rcases h1 : tagV2 o c "" .changed with ⟨c1, b1⟩
  dsimp only
  rw [wvFalse ha]
  rcases h2 : writeValueF n o c1 b1 a' false with ⟨c2, b2⟩
  dsimp only
  rw [wvFalse hb]

lemma tagV2_fst (o : Options) (c : RCtx) (buf buf' : String) (t : TagId) :
    (tagV2 o c buf t).1 = (tagV2 o c buf' t).1 := by
  unfold tagV2
  split <;> rfl

lemma terminateTag_fst_eq (o : Options) (c : RCtx) (buf buf' : String) :
    (terminateTag o c buf).1 = (terminateTag o c buf').1 := by
  unfold terminateTag
  cases c.lastTag <;> rfl

lemma terminateTag_fst (o : Options) (c : RCtx) (buf : String) :
    (terminateTag o c buf).1 = { level := c.level, lastTag := none } := by
  unfold terminateTag
  cases hc : c.lastTag with
  | none => cases c with | mk lvl lt => simp only at hc; rw [hc]
  | some t => rfl

lemma newlineV2_fst_eq (o : Options) (c : RCtx) (buf s : String) :
    (newlineV2 o c buf s).1 = { level := c.level, lastTag := none } := by
  unfold newlineV2
  dsimp only
  rcases h1 : terminateTag o c (buf ++ s) with ⟨c1, b1⟩
  have hc1 : c1 = { level := c.level, lastTag := none } := by
    have := terminateTag_fst o c (buf ++ s)
    rw [h1] at this
    exact this
  dsimp only
  rw [terminateTag_fst, hc1]

lemma newlineV2_fst (o : Options) (c : RCtx) (buf buf' s s' : String) :
    (newlineV2 o c buf s).1 = (newlineV2 o c buf' s').1 := by
  rw [newlineV2_fst_eq, newlineV2_fst_eq]

/-- Context evolution of a full `writeValue` render with enough fuel: a
nonempty container flushes the open tag (through its newlines) and restores
the level; everything else leaves the context alone.  The buffer never
feeds back into the context. -/
lemma wv_ctx : ∀ n : Nat,
    (∀ o c buf v, jsize v ≤ n →
      (writeValueF n o c buf v true).1 =
        if isNEC v then { level := c.level, lastTag := none } else c) ∧
    (∀ o c buf vs, vs ≠ ([] : List Json) → jsizeL vs ≤ n →
      (writeArrF n o c buf vs).1 = { level := c.level - 1, lastTag := none }) ∧
    (∀ o c buf kvs, kvs ≠ ([] : List (String × Json)) → jsizeO kvs ≤ n →
      (writeObjF n o c buf kvs).1 = { level := c.level - 1, lastTag := none }) := by
  intro n
  induction n with
  | zero =>
    refine ⟨?_, ?_, ?_⟩
    · intro o c buf v hsz; have := jsize_pos v; omega
    · intro o c buf vs _ hsz; have := jsizeL_pos vs; omega
    · intro o c buf kvs _ hsz; have := jsizeO_pos kvs; omega
  | succ n ih =>
    obtain ⟨ihV, ihA, ihO⟩ := ih
    refine ⟨?_, ?_, ?_⟩
    · intro o c buf v hsz
      cases v with
      | null => rfl
      | bool b => rfl
      | num s => rfl
      | str s => rfl
      | arr vv =>
        cases vv with
        | nil =>
          show (writeValueF (n + 1) o c buf (.arr []) true).1 = c
          cases n <;> rfl
        | cons x xs =>
          show (writeValueF (n + 1) o c buf (.arr (x :: xs)) true).1 =
            { level := c.level, lastTag := none }
          simp only [writeValueF, List.isEmpty_cons, Bool.false_eq_true, if_false,
            if_true]
          rw [ihA o _ _ (x :: xs) (by simp) (by simp only [jsize] at hsz; omega)]
          rw [newlineV2_fst_eq]
          simp
      | obj kvs =>
        cases kvs with
        | nil =>
          show (writeValueF (n + 1) o c buf (.obj []) true).1 = c
          cases n <;> rfl
        | cons p ps =>
          show (writeValueF (n + 1) o c buf (.obj (p :: ps)) true).1 =
            { level := c.level, lastTag := none }
          simp only [writeValueF, List.isEmpty_cons, Bool.false_eq_true, if_false,
            if_true]
          rw [ihO o _ _ (p :: ps) (by simp) (by simp only [jsize] at hsz; omega)]
          rw [newlineV2_fst_eq]
          simp
    · intro o c buf vs hne hsz
      cases vs with
      | nil => exact absurd rfl hne
      | cons x xs =>
        simp only [writeArrF]
        have hx : (writeValueF n o c buf x true).1 =
            if isNEC x then { level := c.level, lastTag := none } else c :=
          ihV o c buf x (by simp only [jsizeL] at hsz; omega)
        have hlvl : (writeValueF n o c buf x true).1.level = c.level := by
          rw [hx]; split <;> rfl
        cases xs with
        | nil =>
          rw [newlineV2_fst_eq]
          rw [hlvl]
        | cons y ys =>
          rw [ihA o _ _ (y :: ys) (by simp)
            (by have := jsize_pos x; simp only [jsizeL] at hsz ⊢; omega)]
          rw [newlineV2_fst_eq, hlvl]
    · intro o c buf kvs hne hsz
      cases kvs with
      | nil => exact absurd rfl hne
      | cons p ps =>
        rcases p with ⟨k, v⟩
        simp only [writeObjF]
        have hx : (writeValueF n o c (keyV2 buf k) v true).1 =
            if isNEC v then { level := c.level, lastTag := none } else c :=
          ihV o c _ v (by simp only [jsizeO] at hsz; omega)
        have hlvl : (writeValueF n o c (keyV2 buf k) v true).1.level = c.level := by
          rw [hx]; split <;> rfl
        cases ps with
        | nil =>
          rw [newlineV2_fst_eq]
          rw [hlvl]
        | cons q qs =>
          rw [ihO o _ _ (q :: qs) (by simp)
            (by have := jsize_pos v; simp only [jsizeO] at hsz ⊢; omega)]
          rw [newlineV2_fst_eq, hlvl]

/-- The two context results of rendering iteration-order variants with enough
fuel coincide. -/
lemma wv_ctx_jperm {v v' : Json} (h : JPerm v v') (n : Nat) (o : Options) (c : RCtx)
    (buf buf' : String) (hsz : jsize v ≤ n) :
    (writeValueF n o c buf v true).1 = (writeValueF n o c buf' v' true).1 := by
  rw [(wv_ctx n).1 o c buf v hsz,
    (wv_ctx n).1 o c buf' v' (by rw [← jperm_jsize h]; exact hsz),
    jperm_isNEC h]

lemma str_len_zero_eq_empty {s : String} (h : s.length = 0) : s = "" := by
  cases s with
  | mk data =>
    cases data with
    | nil => rfl
    | cons c cs => simp [String.length] at h

lemma str_ne_empty_of_len_pos {s : String} (h : 0 < s.length) : s ≠ "" := by
  intro he
  rw [he] at h
  cases h

lemma append_len_lower (s t : String) : t.length ≤ (s ++ t).length := by
  rw [String.length_append]
  omega

lemma terminateTag_len (o : Options) (c : RCtx) (buf : String) :
    buf.length ≤ (terminateTag o c buf).2.length := by
  unfold terminateTag
  cases c.lastTag with
  | none => exact le_refl _
  | some t =>
    simp only
    rw [String.length_append]
    omega

lemma writeTypeMaybe_len (o : Options) (buf : String) (v : Json) :
    buf.length ≤ (writeTypeMaybe o buf v).length := by
  unfold writeTypeMaybe
  split
  · unfold writeType
    rw [String.length_append, String.length_append]
    omega
  · exact le_refl _

/-- Emptiness relation between the strings two iteration-order variants
return: only emptiness steers control flow (`len > 0` checks and the elision
return), the content never does. -/
def SRel (s s' : String) : Prop := s = "" ↔ s' = ""

def PRel : Except String (RCtx × String × List Difference) →
    Except String (RCtx × String × List Difference) → Prop
  | .error e, .error e' => e = e'
  | .ok (c, s, tr), .ok (c', s', tr') => c = c' ∧ SRel s s' ∧ tr = tr'
  | _, _ => False

def LRel : Except String (RCtx × String × Nat × Bool × List Difference) →
    Except String (RCtx × String × Nat × Bool × List Difference) → Prop
  | .error e, .error e' => e = e'
  | .ok (c, _, nds, sd, tr), .ok (c', _, nds', sd', tr') =>
    c = c' ∧ nds = nds' ∧ sd = sd' ∧ tr = tr'
  | _, _ => False

lemma prel_refl (r : Except String (RCtx × String × List Difference)) : PRel r r := by
  cases r with
  | error e => exact rfl
  | ok v => exact ⟨rfl, Iff.rfl, rfl⟩

lemma prel_of_eq {r r' : Except String (RCtx × String × List Difference)}
    (h : r = r') : PRel r r' := h ▸ prel_refl r

lemma srel_len_pos {s s' : String} (h : SRel s s') : 0 < s.length ↔ 0 < s'.length := by
  constructor
  · intro hp
    rcases Nat.eq_zero_or_pos s'.length with hz | hz
    · rw [h.mpr (str_len_zero_eq_empty hz)] at hp
      cases hp
    · exact hz
  · intro hp
    rcases Nat.eq_zero_or_pos s.length with hz | hz
    · rw [h.mp (str_len_zero_eq_empty hz)] at hp
      cases hp
    · exact hz

/-- `printSkipped` with equal context, pending count and callback either
fails identically (nil callback dereference) or returns equal contexts and
counts; the buffers may differ in content. -/
lemma psk_rel (o : Options) (c : RCtx) (buf buf' : String) (nds : Nat)
    (f : Option (Nat → String)) (last : Bool) :
    (∃ e, printSkippedF o c buf nds f last = .error e ∧
      printSkippedF o c buf' nds f last = .error e) ∨
    (∃ c2 n2 b2 b2', printSkippedF o c buf nds f last = .ok (c2, b2, n2) ∧
      printSkippedF o c buf' nds f last = .ok (c2, b2', n2)) := by
  unfold printSkippedF
  by_cases hz : nds = 0
  · rw [if_pos hz, if_pos hz]
    exact Or.inr ⟨c, nds, buf, buf', rfl, rfl⟩
  · rw [if_neg hz, if_neg hz]
    cases f with
    | none => exact Or.inl ⟨_, rfl, rfl⟩
    | some g =>
      simp only
      rcases h1 : tagV2 o c buf .skipped with ⟨c1, b1⟩
      rcases h2 : tagV2 o c buf' .skipped with ⟨c1', b1'⟩
      have hc1 : c1 = c1' := by
        have := tagV2_fst o c buf buf' .skipped
        rw [h1, h2] at this
        exact this
      subst hc1
      cases last with
      | true => exact Or.inr ⟨c1, 0, _, _, rfl, rfl⟩
      | false =>
        simp only [Bool.not_false, if_true]
        rcases h3 : tagV2 o c1 (b1 ++ g nds) .normal with ⟨c3, b3⟩
        rcases h4 : tagV2 o c1 (b1' ++ g nds) .normal with ⟨c3', b3'⟩
        have hc3 : c3 = c3' := by
          have := tagV2_fst o c1 (b1 ++ g nds) (b1' ++ g nds) .normal
          rw [h3, h4] at this
          exact this
        subst hc3
        rcases h5 : newlineV2 o c3 b3 "," with ⟨c5, b5⟩
        rcases h6 : newlineV2 o c3 b3' "," with ⟨c5', b5'⟩
        have hc5 : c5 = c5' := by
          have := newlineV2_fst o c3 b3 b3' "," ","
          rw [h5, h6] at this
          exact this
        subst hc5
        exact Or.inr ⟨c5, 0, _, _, rfl, rfl⟩

lemma arrObjTail_rel (o : Options) (a a' : Json) (suffix : String)
    (hsuf : 0 < suffix.length)
    {e e' : Except String (RCtx × String × Nat × Bool × List Difference)}
    (he : LRel e e') :
    PRel (arrObjTail o a suffix e) (arrObjTail o a' suffix e') := by
  cases e with
  | error err =>
    cases e' with
    | error err' =>
      have heq : err = err' := he
      subst heq
      exact rfl
    | ok v => exact he.elim
  | ok v =>
    cases e' with
    | error err => exact he.elim
    | ok v' =>
      obtain ⟨c1, s1, nds1, sd1, tr1⟩ := v
      obtain ⟨c1', s1', nds1', sd1', tr1'⟩ := v'
      obtain ⟨hceq, hnds, hsd, htr⟩ := he
      subst hceq
      subst hsd
      subst htr
      dsimp only [arrObjTail]
      by_cases hb : (o.SkipMatches && !sd1) = true
      · rw [if_pos hb, if_pos hb]
        exact ⟨rfl, Iff.rfl, rfl⟩
      · rw [if_neg hb, if_neg hb]
        refine ⟨terminateTag_fst_eq o c1 _ _, ?_, rfl⟩
        have hne1 : (terminateTag o c1 (writeTypeMaybe o (s1 ++ suffix) a)).2 ≠ "" := by
          refine str_ne_empty_of_len_pos ?_
          calc 0 < suffix.length := hsuf
            _ ≤ (s1 ++ suffix).length := append_len_lower s1 suffix
            _ ≤ (writeTypeMaybe o (s1 ++ suffix) a).length := writeTypeMaybe_len o _ a
            _ ≤ _ := terminateTag_len o c1 _
        have hne2 : (terminateTag o c1 (writeTypeMaybe o (s1' ++ suffix) a')).2 ≠ "" := by
          refine str_ne_empty_of_len_pos ?_
          calc 0 < suffix.length := hsuf
            _ ≤ (s1' ++ suffix).length := append_len_lower s1' suffix
            _ ≤ (writeTypeMaybe o (s1' ++ suffix) a').length := writeTypeMaybe_len o _ a'
            _ ≤ _ := terminateTag_len o c1 _
        exact ⟨fun h => absurd h hne1, fun h => absurd h hne2⟩

lemma jpermL_nil_nil : JPermL [] [] :=
  ⟨rfl, fun i x y h1 _ => by cases h1⟩

lemma keysOf_length (m : List (String × Json)) : (keysOf m).length = m.length :=
  List.length_map m _

lemma keys_len_eq {ma ma' : List (String × Json)}
    (hnd : (keysOf ma).Nodup) (hnd' : (keysOf ma').Nodup)
    (hmem : ∀ k, k ∈ keysOf ma ↔ k ∈ keysOf ma') : ma.length = ma'.length := by
  have hperm := (List.perm_ext_iff_of_nodup hnd hnd').mpr hmem
  have := hperm.length_eq
  rwa [keysOf_length, keysOf_length] at this

/-- Relation between two `printSkipped` results across the runs: identical
failure or equal context and pending count. -/
def PSRel : Except String (RCtx × String × Nat) →
    Except String (RCtx × String × Nat) → Prop
  | .error e, .error e' => e = e'
  | .ok (c, _, nds), .ok (c', _, nds') => c = c' ∧ nds = nds'
  | _, _ => False

lemma psk_rel2 (o : Options) {c c' : RCtx} (hc : c = c') (buf buf' : String)
    (nds : Nat) (f : Option (Nat → String)) (last : Bool) :
    PSRel (printSkippedF o c buf nds f last) (printSkippedF o c' buf' nds f last) := by
  subst hc
  rcases psk_rel o c buf buf' nds f last with ⟨e, h1, h2⟩ | ⟨c2, n2, b2, b2', h1, h2⟩
  · rw [h1, h2]; exact rfl
  · rw [h1, h2]; exact ⟨rfl, rfl⟩

lemma lrel_bind_ps {e e' : Except String (RCtx × String × Nat)} (he : PSRel e e')
    {f f' : RCtx × String × Nat →
      Except String (RCtx × String × Nat × Bool × List Difference)}
    (hf : ∀ c1 b1 b1' n1, LRel (f (c1, b1, n1)) (f' (c1, b1', n1))) :
    LRel (e >>= f) (e' >>= f') := by
  cases e with
  | error err =>
    cases e' with
    | error err' =>
      have heq : err = err' := he
      subst heq
      exact rfl
    | ok v => exact he.elim
  | ok v =>
    cases e' with
    | error err => exact he.elim
    | ok v' =>
      obtain ⟨c1, b1, n1⟩ := v
      obtain ⟨c1', b1', n1'⟩ := v'
      obtain ⟨hc, hn⟩ := he
      subst hc
      subst hn
      exact hf c1 b1 b1' n1

lemma lrel_bind_p {e e' : Except String (RCtx × String × List Difference)}
    (he : PRel e e')
    {f f' : RCtx × String × List Difference →
      Except String (RCtx × String × Nat × Bool × List Difference)}
    (hf : ∀ c1 s1 s1' tr1, SRel s1 s1' → LRel (f (c1, s1, tr1)) (f' (c1, s1', tr1))) :
    LRel (e >>= f) (e' >>= f') := by
  cases e with
  | error err =>
    cases e' with
    | error err' =>
      have heq : err = err' := he
      subst heq
      exact rfl
    | ok v => exact he.elim
  | ok v =>
    cases e' with
    | error err => exact he.elim
    | ok v' =>
      obtain ⟨c1, s1, tr1⟩ := v
      obtain ⟨c1', s1', tr1'⟩ := v'
      obtain ⟨hc, hsr, htr⟩ := he
      subst hc
      subst htr
      exact hf c1 s1 s1' tr1 hsr

lemma lrel_bind_l {e e' : Except String (RCtx × String × Nat × Bool × List Difference)}
    (he : LRel e e')
    {f f' : RCtx × String × Nat × Bool × List Difference →
      Except String (RCtx × String × Nat × Bool × List Difference)}
    (hf : ∀ c1 b1 b1' n1 sd1 tr2,
      LRel (f (c1, b1, n1, sd1, tr2)) (f' (c1, b1', n1, sd1, tr2))) :
    LRel (e >>= f) (e' >>= f') := by
  cases e with
  | error err =>
    cases e' with
    | error err' =>
      have heq : err = err' := he
      subst heq
      exact rfl
    | ok v => exact he.elim
  | ok v =>
    cases e' with
    | error err => exact he.elim
    | ok v' =>
      obtain ⟨c1, b1, n1, sd1, tr2⟩ := v
      obtain ⟨c1', b1', n1', sd1', tr2'⟩ := v'
      obtain ⟨hc, hn, hsd, htr⟩ := he
      subst hc
      subst hn
      subst hsd
      subst htr
      exact hf c1 b1 b1' n1 sd1 tr2

/-- Two runs of the `printDiff` walk over iteration-order variants of the
same decoded documents stay in lock-step: they fail identically, record the
same verdict trace, evolve the same render context and elision state, and
return strings of the same emptiness — content can differ only inside
`writeValue`-rendered chunks, which never steer control flow. -/
lemma jperm_walk : ∀ n : Nat,
    (∀ o c c' a b a' b', c = c' → JPerm a a' → JPerm b b' →
      jsize a + jsize b ≤ n →
      PRel (printDiffF n o c a b) (printDiffF n o c' a' b')) ∧
    (∀ o c c' buf buf' xs ys xs' ys' nds sd, c = c' → JPermL xs xs' → JPermL ys ys' →
      jsizeL xs + jsizeL ys ≤ n →
      LRel (loopArrF n o c buf xs ys nds sd) (loopArrF n o c' buf' xs' ys' nds sd)) ∧
    (∀ o c c' buf buf' xs ys xs' ys' nds sd eqs tr1, c = c' → JPermL xs xs' →
      JPermL ys ys' → jsizeL xs + jsizeL ys + 1 ≤ n →
      LRel (afterElemArrF n o c buf xs ys nds sd eqs tr1)
        (afterElemArrF n o c' buf' xs' ys' nds sd eqs tr1)) ∧
    (∀ o c c' buf buf' ma mb ma' mb' ks nds sd, c = c' → ORel ma ma' → ORel mb mb' →
      (∀ k, k ∈ ks → jsizeK ma k + jsizeK mb k + 2 * ks.length ≤ n) →
      LRel (loopMapF n o c buf ma mb ks nds sd)
        (loopMapF n o c' buf' ma' mb' ks nds sd)) ∧
    (∀ o c c' buf buf' ma mb ma' mb' ks nds sd eqs tr1, c = c' → ORel ma ma' →
      ORel mb mb' →
      (∀ k, k ∈ ks → jsizeK ma k + jsizeK mb k + 2 * ks.length + 1 ≤ n) →
      LRel (afterKeyMapF n o c buf ma mb ks nds sd eqs tr1)
        (afterKeyMapF n o c' buf' ma' mb' ks nds sd eqs tr1)) := by
  intro n
  induction n with
  | zero =>
    refine ⟨?_, ?_, ?_, ?_, ?_⟩ <;> intros <;> exact rfl
  | succ n ih =>
    obtain ⟨ihP, ihA, ihAE, ihM, ihAK⟩ := ih
    refine ⟨?_, ?_, ?_, ?_, ?_⟩
    · -- printDiffF
      intro o c c' a b a' b' hceq haa hbb hsz
      subst hceq
      cases haa with
      | null =>
        cases hbb with
        | null => exact prel_refl _
        | bool b0 => exact prel_refl _
        | num s0 => exact prel_refl _
        | str s0 => exact prel_refl _
        | arr hlen hpt =>
          exact prel_of_eq (mismatchExit_jperm n o c JPerm.null (JPerm.arr hlen hpt))
        | obj h1 h2 h3 h4 =>
          exact prel_of_eq (mismatchExit_jperm n o c JPerm.null (JPerm.obj h1 h2 h3 h4))
      | bool x0 =>
        cases hbb with
        | null => exact prel_refl _
        | bool b0 => exact prel_refl _
        | num s0 => exact prel_refl _
        | str s0 => exact prel_refl _
        | arr hlen hpt =>
          exact prel_of_eq
            (mismatchExit_jperm n o c (JPerm.bool x0) (JPerm.arr hlen hpt))
        | obj h1 h2 h3 h4 =>
          exact prel_of_eq
            (mismatchExit_jperm n o c (JPerm.bool x0) (JPerm.obj h1 h2 h3 h4))
      | num sx =>
        cases hbb with
        | null => exact prel_refl _
        | bool b0 => exact prel_refl _
        | num s0 => exact prel_refl _
        | str s0 => exact prel_refl _
        | arr hlen hpt =>
          exact prel_of_eq
            (mismatchExit_jperm n o c (JPerm.num sx) (JPerm.arr hlen hpt))
        | obj h1 h2 h3 h4 =>
          exact prel_of_eq
            (mismatchExit_jperm n o c (JPerm.num sx) (JPerm.obj h1 h2 h3 h4))
      | str sx =>
        cases hbb with
        | null => exact prel_refl _
        | bool b0 => exact prel_refl _
        | num s0 => exact prel_refl _
        | str s0 => exact prel_refl _
        | arr hlen hpt =>
          exact prel_of_eq
            (mismatchExit_jperm n o c (JPerm.str sx) (JPerm.arr hlen hpt))
        | obj h1 h2 h3 h4 =>
          exact prel_of_eq
            (mismatchExit_jperm n o c (JPerm.str sx) (JPerm.obj h1 h2 h3 h4))
      | arr hlen1 hpt1 =>
        rename_i sa sa'
        cases hbb with
        | null =>
          exact prel_of_eq (mismatchExit_jperm n o c (JPerm.arr hlen1 hpt1) JPerm.null)
        | bool b0 =>
          exact prel_of_eq
            (mismatchExit_jperm n o c (JPerm.arr hlen1 hpt1) (JPerm.bool b0))
        | num s0 =>
          exact prel_of_eq
            (mismatchExit_jperm n o c (JPerm.arr hlen1 hpt1) (JPerm.num s0))
        | str s0 =>
          exact prel_of_eq
            (mismatchExit_jperm n o c (JPerm.arr hlen1 hpt1) (JPerm.str s0))
        | obj h1 h2 h3 h4 =>
          exact prel_of_eq
            (mismatchExit_jperm n o c (JPerm.arr hlen1 hpt1) (JPerm.obj h1 h2 h3 h4))
        | arr hlen2 hpt2 =>
          rename_i sb sb'
          rw [printDiffF_arr, printDiffF_arr]
          dsimp only
          rw [hlen1, hlen2]
          refine arrObjTail_rel o _ _ "]" (by decide) ?_
          refine ihA o _ _ _ _ sa sb sa' sb' 0 _ rfl ⟨hlen1, hpt1⟩ ⟨hlen2, hpt2⟩ ?_
          simp only [jsize] at hsz
          omega
      | obj hnda1 hndb1 hmem1 hlk1 =>
        rename_i ma ma'
        cases hbb with
        | null =>
          exact prel_of_eq
            (mismatchExit_jperm n o c (JPerm.obj hnda1 hndb1 hmem1 hlk1) JPerm.null)
        | bool b0 =>
          exact prel_of_eq
            (mismatchExit_jperm n o c (JPerm.obj hnda1 hndb1 hmem1 hlk1)
              (JPerm.bool b0))
        | num s0 =>
          exact prel_of_eq
            (mismatchExit_jperm n o c (JPerm.obj hnda1 hndb1 hmem1 hlk1)
              (JPerm.num s0))
        | str s0 =>
          exact prel_of_eq
            (mismatchExit_jperm n o c (JPerm.obj hnda1 hndb1 hmem1 hlk1)
              (JPerm.str s0))
        | arr hlen hpt =>
          exact prel_of_eq
            (mismatchExit_jperm n o c (JPerm.obj hnda1 hndb1 hmem1 hlk1)
              (JPerm.arr hlen hpt))
        | obj hnda2 hndb2 hmem2 hlk2 =>
          rename_i mb mb'
          rw [printDiffF_obj, printDiffF_obj]
          dsimp only
          have hkeys : sortStrs (dedupStrs (keysOf ma ++ keysOf mb)) =
              sortStrs (dedupStrs (keysOf ma' ++ keysOf mb')) := by
            refine sortStrs_ext ?_
            intro k
            simp only [List.mem_append]
            exact or_congr (hmem1 k) (hmem2 k)
          rw [hkeys]
          refine arrObjTail_rel o _ _ "\x7d" (by decide) ?_
          refine ihM o _ _ _ _ ma mb ma' mb'
            (sortStrs (dedupStrs (keysOf ma' ++ keysOf mb'))) 0 false rfl
            (orel_of_obj hmem1 hlk1) (orel_of_obj hmem2 hlk2) ?_
          intro k hk
          have hba := jsizeK_bound ma k
          have hbb2 := jsizeK_bound mb k
          have hl1 : ma.length = ma'.length := keys_len_eq hnda1 hndb1 hmem1
          have hl2 : mb.length = mb'.length := keys_len_eq hnda2 hndb2 hmem2
          have hlen3 := length_sortStrs (dedupStrs (keysOf ma' ++ keysOf mb'))
          have hlen4 := length_dedupStrs_le (keysOf ma' ++ keysOf mb')
          have hlen5 : (keysOf ma' ++ keysOf mb').length = ma'.length + mb'.length := by
            rw [List.length_append, keysOf_length, keysOf_length]
          simp only [jsize] at hsz
          omega
    · -- loopArrF
      intro o c c' buf buf' xs ys xs' ys' nds sd hceq hx hy hsz
      subst hceq
      cases xs with
      | nil =>
        obtain rfl := jpermL_nil hx
        cases ys with
        | nil =>
          obtain rfl := jpermL_nil hy
          exact ⟨rfl, rfl, rfl, rfl⟩
        | cons y ys2 =>
          obtain ⟨y', ys2', rfl, hyy, hyt⟩ := jpermL_cons hy
          simp only [loopArrF]
          refine lrel_bind_ps (psk_rel2 o rfl buf buf' nds o.SkippedSliceString false)
            ?_
          intro c2 b2 b2' n2
          dsimp only
          refine ihAE o _ _ _ _ [] ys2 [] ys2' n2 sd false [NoMatch] ?_
            jpermL_nil_nil hyt ?_
          · rw [show (tagV2 o c2 b2' .added).1 = (tagV2 o c2 b2 .added).1 from
              tagV2_fst o c2 b2' b2 .added]
            exact wv_ctx_jperm hyy n o _ _ _
              (by have := jsize_pos y; simp only [jsizeL] at hsz; omega)
          · have := jsize_pos y
            simp only [jsizeL] at hsz ⊢
            omega
      | cons x xs2 =>
        obtain ⟨x', xs2', rfl, hxx, hxt⟩ := jpermL_cons hx
        cases ys with
        | nil =>
          obtain rfl := jpermL_nil hy
          simp only [loopArrF]
          refine lrel_bind_ps (psk_rel2 o rfl buf buf' nds o.SkippedSliceString false)
            ?_
          intro c2 b2 b2' n2
          dsimp only
          refine ihAE o _ _ _ _ xs2 [] xs2' [] n2 sd false [SupersetMatch] ?_
            hxt jpermL_nil_nil ?_
          · rw [show (tagV2 o c2 b2' .removed).1 = (tagV2 o c2 b2 .removed).1 from
              tagV2_fst o c2 b2' b2 .removed]
            exact wv_ctx_jperm hxx n o _ _ _
              (by have := jsize_pos x; simp only [jsizeL] at hsz; omega)
          · have := jsize_pos x
            simp only [jsizeL] at hsz ⊢
            omega
        | cons y ys2 =>
          obtain ⟨y', ys2', rfl, hyy, hyt⟩ := jpermL_cons hy
          simp only [loopArrF]
          refine lrel_bind_p (ihP o c c x y x' y' rfl hxx hyy
            (by simp only [jsizeL] at hsz; omega)) ?_
          intro c1 s1 s1' tr1 hsr
          dsimp only
          by_cases hlen : 0 < s1.length
          · have hlen' : 0 < s1'.length := (srel_len_pos hsr).mp hlen
            rw [if_pos hlen, if_pos hlen']
            refine lrel_bind_ps (psk_rel2 o rfl buf buf' nds o.SkippedSliceString
              false) ?_
            intro c2 b2 b2' n2
            dsimp only
            refine ihAE o c2 c2 _ _ xs2 ys2 xs2' ys2' n2 sd false tr1 rfl hxt hyt ?_
            have h1 := jsize_pos x
            have h2 := jsize_pos y
            simp only [jsizeL] at hsz ⊢
            omega
          · have hlen' : ¬ 0 < s1'.length :=
              fun hc => hlen ((srel_len_pos hsr).mpr hc)
            rw [if_neg hlen, if_neg hlen']
            refine ihAE o c1 c1 _ _ xs2 ys2 xs2' ys2' nds sd true tr1 rfl hxt hyt ?_
            have h1 := jsize_pos x
            have h2 := jsize_pos y
            simp only [jsizeL] at hsz ⊢
            omega
    · -- afterElemArrF
      intro o c c' buf buf' xs ys xs' ys' nds sd eqs tr1 hceq hx hy hsz
      subst hceq
      simp only [afterElemArrF]
      have hctag : (tagV2 o c buf .normal).1 = (tagV2 o c buf' .normal).1 :=
        tagV2_fst o c buf buf' .normal
      have hsep : ∀ s s' : String,
          (newlineV2 o (tagV2 o c buf .normal).1 s ",").1 =
          (newlineV2 o (tagV2 o c buf' .normal).1 s' ",").1 := by
        intro s s'
        rw [newlineV2_fst_eq, newlineV2_fst_eq, hctag]
      cases hsm : o.SkipMatches with
      | false =>
        simp only [hsm, Bool.false_eq_true, if_false, Bool.not_false, Bool.true_or,
          if_true]
        cases xs with
        | nil =>
          obtain rfl := jpermL_nil hx
          cases ys with
          | nil =>
            obtain rfl := jpermL_nil hy
            simp only [List.isEmpty_nil, Bool.and_self, if_true]
            refine lrel_bind_ps (psk_rel2 o hctag _ _ nds o.SkippedSliceString true)
              ?_
            intro c4 b4 b4' n4
            exact ⟨newlineV2_fst o _ b4 b4' "" "", rfl, rfl, rfl⟩
          | cons y ys2 =>
            obtain ⟨y', ys2', rfl, hyy, hyt⟩ := jpermL_cons hy
            simp only [List.isEmpty_nil, List.isEmpty_cons, Bool.true_and,
              Bool.false_eq_true, if_false]
            refine lrel_bind_l (ihA o _ _ _ _ [] (y :: ys2) [] (y' :: ys2') nds sd
              (hsep _ _) hx hy (by simp only [jsizeL] at hsz ⊢; omega)) ?_
            intro c6 b6 b6' n6 sd6 tr2
            exact ⟨rfl, rfl, rfl, rfl⟩
        | cons x xs2 =>
          obtain ⟨x', xs2', rfl, hxx, hxt⟩ := jpermL_cons hx
          simp only [List.isEmpty_cons, Bool.false_and, Bool.false_eq_true, if_false]
          refine lrel_bind_l (ihA o _ _ _ _ (x :: xs2) ys (x' :: xs2') ys' nds sd
            (hsep _ _) hx hy (by simp only [jsizeL] at hsz ⊢; omega)) ?_
          intro c6 b6 b6' n6 sd6 tr2
          exact ⟨rfl, rfl, rfl, rfl⟩
      | true =>
        simp only [hsm, if_true, Bool.not_true, Bool.false_or]
        cases heq : eqs with
        | false =>
          simp only [Bool.false_eq_true, if_false, Bool.not_false, if_true]
          cases xs with
          | nil =>
            obtain rfl := jpermL_nil hx
            cases ys with
            | nil =>
              obtain rfl := jpermL_nil hy
              simp only [List.isEmpty_nil, Bool.and_self, if_true]
              refine lrel_bind_ps (psk_rel2 o hctag _ _ nds o.SkippedSliceString
                true) ?_
              intro c4 b4 b4' n4
              exact ⟨newlineV2_fst o _ b4 b4' "" "", rfl, rfl, rfl⟩
            | cons y ys2 =>
              obtain ⟨y', ys2', rfl, hyy, hyt⟩ := jpermL_cons hy
              simp only [List.isEmpty_nil, List.isEmpty_cons, Bool.true_and,
                Bool.false_eq_true, if_false]
              refine lrel_bind_l (ihA o _ _ _ _ [] (y :: ys2) [] (y' :: ys2') nds
                true (hsep _ _) hx hy (by simp only [jsizeL] at hsz ⊢; omega)) ?_
              intro c6 b6 b6' n6 sd6 tr2
              exact ⟨rfl, rfl, rfl, rfl⟩
          | cons x xs2 =>
            obtain ⟨x', xs2', rfl, hxx, hxt⟩ := jpermL_cons hx
            simp only [List.isEmpty_cons, Bool.false_and, Bool.false_eq_true,
              if_false]
            refine lrel_bind_l (ihA o _ _ _ _ (x :: xs2) ys (x' :: xs2') ys' nds
              true (hsep _ _) hx hy (by simp only [jsizeL] at hsz ⊢; omega)) ?_
            intro c6 b6 b6' n6 sd6 tr2
            exact ⟨rfl, rfl, rfl, rfl⟩
        | true =>
          simp only [if_true]
          cases xs with
          | nil =>
            obtain rfl := jpermL_nil hx
            cases ys with
            | nil =>
              obtain rfl := jpermL_nil hy
              simp only [List.isEmpty_nil, Bool.and_self, if_true]
              refine lrel_bind_ps (psk_rel2 o hctag _ _ (nds + 1)
                o.SkippedSliceString true) ?_
              intro c4 b4 b4' n4
              exact ⟨newlineV2_fst o _ b4 b4' "" "", rfl, rfl, rfl⟩
            | cons y ys2 =>
              obtain ⟨y', ys2', rfl, hyy, hyt⟩ := jpermL_cons hy
              simp only [List.isEmpty_nil, List.isEmpty_cons, Bool.true_and,
                Bool.false_eq_true, if_false]
              refine lrel_bind_l (ihA o _ _ _ _ [] (y :: ys2) [] (y' :: ys2')
                (nds + 1) sd hctag hx hy (by simp only [jsizeL] at hsz ⊢; omega)) ?_
              intro c6 b6 b6' n6 sd6 tr2
              exact ⟨rfl, rfl, rfl, rfl⟩
          | cons x xs2 =>
            obtain ⟨x', xs2', rfl, hxx, hxt⟩ := jpermL_cons hx
            simp only [List.isEmpty_cons, Bool.false_and, Bool.false_eq_true,
              if_false]
            refine lrel_bind_l (ihA o _ _ _ _ (x :: xs2) ys (x' :: xs2') ys'
              (nds + 1) sd hctag hx hy (by simp only [jsizeL] at hsz ⊢; omega)) ?_
            intro c6 b6 b6' n6 sd6 tr2
            exact ⟨rfl, rfl, rfl, rfl⟩
    · -- loopMapF
      intro o c c' buf buf' ma mb ma' mb' ks nds sd hceq hma hmb hbound
      subst hceq
      cases ks with
      | nil => exact ⟨rfl, rfl, rfl, rfl⟩
      | cons k ks2 =>
        have hra := hma k
        have hrb := hmb k
        have hbk := hbound k (List.mem_cons_self k ks2)
        have hbtail : ∀ k2, k2 ∈ ks2 →
            jsizeK ma k2 + jsizeK mb k2 + 2 * ks2.length + 1 ≤ n := by
          intro k2 hk2
          have := hbound k2 (List.mem_cons_of_mem k hk2)
          simp only [List.length_cons] at this
          omega
        simp only [loopMapF]
        cases hla : lookupJ k ma with
        | none =>
          cases hla' : lookupJ k ma' with
          | some w => rw [hla, hla'] at hra; exact hra.elim
          | none =>
            cases hlb : lookupJ k mb with
            | none =>
              cases hlb' : lookupJ k mb' with
              | some w => rw [hlb, hlb'] at hrb; exact hrb.elim
              | none =>
                simp only [hla, hla', hlb, hlb']
                exact ihAK o c c buf buf' ma mb ma' mb' ks2 nds sd true [] rfl
                  hma hmb hbtail
            | some vb =>
              cases hlb' : lookupJ k mb' with
              | none => rw [hlb, hlb'] at hrb; exact hrb.elim
              | some vb' =>
                have hvbb : JPerm vb vb' := by rw [hlb, hlb'] at hrb; exact hrb
                have hszb : jsizeK mb k = jsize vb := by unfold jsizeK; rw [hlb]
                simp only [hla, hla', hlb, hlb']
                refine lrel_bind_ps (psk_rel2 o rfl buf buf' nds
                  o.SkippedKeysString false) ?_
                intro c2 b2 b2' n2
                dsimp only
                refine ihAK o _ _ _ _ ma mb ma' mb' ks2 n2 sd false [NoMatch] ?_
                  hma hmb hbtail
                rw [show (tagV2 o c2 b2' .added).1 = (tagV2 o c2 b2 .added).1 from
                  tagV2_fst o c2 b2' b2 .added]
                exact wv_ctx_jperm hvbb n o _ _ _
                  (by rw [← hszb]; simp only [List.length_cons] at hbk; omega)
        | some va =>
          cases hla' : lookupJ k ma' with
          | none => rw [hla, hla'] at hra; exact hra.elim
          | some va' =>
            have hvaa : JPerm va va' := by rw [hla, hla'] at hra; exact hra
            have hsza : jsizeK ma k = jsize va := by unfold jsizeK; rw [hla]
            cases hlb : lookupJ k mb with
            | none =>
              cases hlb' : lookupJ k mb' with
              | some w => rw [hlb, hlb'] at hrb; exact hrb.elim
              | none =>
                simp only [hla, hla', hlb, hlb']
                refine lrel_bind_ps (psk_rel2 o rfl buf buf' nds
                  o.SkippedKeysString false) ?_
                intro c2 b2 b2' n2
                dsimp only
                refine ihAK o _ _ _ _ ma mb ma' mb' ks2 n2 sd false [SupersetMatch]
                  ?_ hma hmb hbtail
                rw [show (tagV2 o c2 b2' .removed).1 = (tagV2 o c2 b2 .removed).1
                  from tagV2_fst o c2 b2' b2 .removed]
                exact wv_ctx_jperm hvaa n o _ _ _
                  (by rw [← hsza]; simp only [List.length_cons] at hbk; omega)
            | some vb =>
              cases hlb' : lookupJ k mb' with
              | none => rw [hlb, hlb'] at hrb; exact hrb.elim
              | some vb' =>
                have hvbb : JPerm vb vb' := by rw [hlb, hlb'] at hrb; exact hrb
                have hszb : jsizeK mb k = jsize vb := by unfold jsizeK; rw [hlb]
                simp only [hla, hla', hlb, hlb']
                refine lrel_bind_p (ihP o c c va vb va' vb' rfl hvaa hvbb ?_) ?_
                · rw [← hsza, ← hszb]
                  simp only [List.length_cons] at hbk
                  omega
                · intro c1 s1 s1' tr1 hsr
                  dsimp only
                  by_cases hlen : 0 < s1.length
                  · have hlen' : 0 < s1'.length := (srel_len_pos hsr).mp hlen
                    rw [if_pos hlen, if_pos hlen']
                    refine lrel_bind_ps (psk_rel2 o rfl buf buf' nds
                      o.SkippedKeysString false) ?_
                    intro c2 b2 b2' n2
                    dsimp only
                    exact ihAK o c2 c2 _ _ ma mb ma' mb' ks2 n2 sd false tr1 rfl
                      hma hmb hbtail
                  · have hlen' : ¬ 0 < s1'.length :=
                      fun hc => hlen ((srel_len_pos hsr).mpr hc)
                    rw [if_neg hlen, if_neg hlen']
                    exact ihAK o c1 c1 buf buf' ma mb ma' mb' ks2 nds sd true tr1
                      rfl hma hmb hbtail
    · -- afterKeyMapF
      intro o c c' buf buf' ma mb ma' mb' ks nds sd eqs tr1 hceq hma hmb hbound
      subst hceq
      simp only [afterKeyMapF]
      have hctag : (tagV2 o c buf .normal).1 = (tagV2 o c buf' .normal).1 :=
        tagV2_fst o c buf buf' .normal
      have hsep : ∀ s s' : String,
          (newlineV2 o (tagV2 o c buf .normal).1 s ",").1 =
          (newlineV2 o (tagV2 o c buf' .normal).1 s' ",").1 := by
        intro s s'
        rw [newlineV2_fst_eq, newlineV2_fst_eq, hctag]
      have hbn : ∀ k, k ∈ ks → jsizeK ma k + jsizeK mb k + 2 * ks.length ≤ n := by
        intro k hk
        have := hbound k hk
        omega
      cases hsm : o.SkipMatches with
      | false =>
        simp only [hsm, Bool.false_eq_true, if_false, Bool.not_false, Bool.true_or,
          if_true]
        cases ks with
        | nil =>
          simp only [List.isEmpty_nil, if_true]
          refine lrel_bind_ps (psk_rel2 o hctag _ _ nds o.SkippedKeysString true)
            ?_
          intro c4 b4 b4' n4
          exact ⟨newlineV2_fst o _ b4 b4' "" "", rfl, rfl, rfl⟩
        | cons k ks2 =>
          simp only [List.isEmpty_cons, Bool.false_eq_true, if_false]
          refine lrel_bind_l (ihM o _ _ _ _ ma mb ma' mb' (k :: ks2) nds sd
            (hsep _ _) hma hmb hbn) ?_
          intro c6 b6 b6' n6 sd6 tr2
          exact ⟨rfl, rfl, rfl, rfl⟩
      | true =>
        simp only [hsm, if_true, Bool.not_true, Bool.false_or]
        cases heq : eqs with
        | false =>
          simp only [Bool.false_eq_true, if_false, Bool.not_false, if_true]
          cases ks with
          | nil =>
            simp only [List.isEmpty_nil, if_true]
            refine lrel_bind_ps (psk_rel2 o hctag _ _ nds o.SkippedKeysString true)
              ?_
            intro c4 b4 b4' n4
            exact ⟨newlineV2_fst o _ b4 b4' "" "", rfl, rfl, rfl⟩
          | cons k ks2 =>
            simp only [List.isEmpty_cons, Bool.false_eq_true, if_false]
            refine lrel_bind_l (ihM o _ _ _ _ ma mb ma' mb' (k :: ks2) nds true
              (hsep _ _) hma hmb hbn) ?_
            intro c6 b6 b6' n6 sd6 tr2
            exact ⟨rfl, rfl, rfl, rfl⟩
        | true =>
          simp only [if_true]
          cases ks with
          | nil =>
            simp only [List.isEmpty_nil, if_true]
            refine lrel_bind_ps (psk_rel2 o hctag _ _ (nds + 1)
              o.SkippedKeysString true) ?_
            intro c4 b4 b4' n4
            exact ⟨newlineV2_fst o _ b4 b4' "" "", rfl, rfl, rfl⟩
          | cons k ks2 =>
            simp only [List.isEmpty_cons, Bool.false_eq_true, if_false]
            refine lrel_bind_l (ihM o _ _ _ _ ma mb ma' mb' (k :: ks2) (nds + 1) sd
              hctag hma hmb hbn) ?_
            intro c6 b6 b6' n6 sd6 tr2
            exact ⟨rfl, rfl, rfl, rfl⟩

/-- The two iteration orders of the counterexample's decoded map are related
documents. -/
lemma jperm_c4fields : JPerm (.obj c4fields1) (.obj c4fields2) := by
  refine JPerm.obj (by decide) (by decide) ?_ ?_
  · intro k
    simp only [c4fields1, c4fields2, keysOf, List.map_cons, List.map_nil,
      List.mem_cons]
    tauto
  · intro k va vb h1 h2
    by_cases hb : ("b" : String) = k
    · subst hb
      rw [show lookupJ "b" c4fields1 = some (.num "1") from rfl] at h1
      rw [show lookupJ "b" c4fields2 = some (.num "1") from rfl] at h2
      cases h1
      cases h2
      exact JPerm.num _
    · by_cases ha : ("a" : String) = k
      · subst ha
        rw [show lookupJ "a" c4fields1 = some (.num "2") from rfl] at h1
        rw [show lookupJ "a" c4fields2 = some (.num "2") from rfl] at h2
        cases h1
        cases h2
        exact JPerm.num _
      · rw [show lookupJ k c4fields1 =
            (if "b" = k then some (.num "1")
             else if "a" = k then some (.num "2") else none) from rfl,
          if_neg hb, if_neg ha] at h1
        cases h1

lemma jperm_c4outer :
    JPerm (.obj [("x", .obj c4fields1)]) (.obj [("x", .obj c4fields2)]) := by
  refine JPerm.obj (by decide) (by decide) (fun k => Iff.rfl) ?_
  intro k va vb h1 h2
  by_cases hx : ("x" : String) = k
  · subst hx
    rw [show lookupJ "x" [("x", Json.obj c4fields1)] = some (.obj c4fields1)
      from rfl] at h1
    rw [show lookupJ "x" [("x", Json.obj c4fields2)] = some (.obj c4fields2)
      from rfl] at h2
    cases h1
    cases h2
    exact jperm_c4fields
  · rw [show lookupJ k [("x", Json.obj c4fields1)] =
        (if "x" = k then some (.obj c4fields1) else none) from rfl,
      if_neg hx] at h1
    cases h1

lemma jperm_emptyobj : JPerm (.obj []) (.obj []) :=
  JPerm.obj (by decide) (by decide) (fun _ => Iff.rfl) (fun k va vb h1 _ => by cases h1)

/-- C4 as amended: the classification never depends on the decoder map's
iteration order — for every Options value and every pair of decoded documents,
replacing each by an iteration-order variant (`JPerm`) leaves the returned
classification (and error behaviour) unchanged; the key list the comparator
itself walks for an object pair is `sortStrs (dedupStrs ...)` of the key union
(src/jsondiff.go:421-432, the equation `printDiffF_obj`), which is strictly
lexicographically sorted and holds exactly the union keys, for every pair of
decoded maps; only subtrees rendered whole as added/removed (`writeValue`)
follow the decoded map's unspecified iteration order, so their text is not
reproducible across runs — that half is `C4_counterexample`. -/
theorem C4_determinism_amended :
    (∀ o a b a' b', JPerm a a' → JPerm b b' →
      classOf (CompareVals o a b) = classOf (CompareVals o a' b')) ∧
    (∀ ma mb : List (String × Json),
      List.Pairwise strLtP (sortStrs (dedupStrs (keysOf ma ++ keysOf mb))) ∧
      (∀ k, k ∈ sortStrs (dedupStrs (keysOf ma ++ keysOf mb)) ↔
        k ∈ keysOf ma ∨ k ∈ keysOf mb)) ∧
    classOf (CompareVals markerOpts (.obj [("x", .obj c4fields1)]) (.obj [])) =
      some SupersetMatch ∧
    CompareVals markerOpts (.obj c4fields1) (.obj c4fields1) =
      .ok (FullMatch, "\x7b\n  \"a\": 2,\n  \"b\": 1\n\x7d") ∧
    sortStrs (dedupStrs (keysOf c4fields1 ++ keysOf c4fields1)) = ["a", "b"] := by
  refine ⟨?_, ?_, rfl, rfl, by decide⟩
  · intro o a b a' b' haa hbb
    have hfuel : fuelFor a b = fuelFor a' b' := by
      unfold fuelFor
      rw [jperm_jsize haa, jperm_jsize hbb]
    have hp := (jperm_walk (fuelFor a b)).1 o {} {} a b a' b' rfl haa hbb le_rfl
    unfold CompareVals
    rw [← hfuel]
    cases h1 : printDiffF (fuelFor a b) o {} a b with
    | error e =>
      cases h2 : printDiffF (fuelFor a b) o {} a' b' with
      | error e' =>
        rw [h1, h2] at hp
        have he : e = e' := hp
        subst he
        rfl
      | ok v' =>
        rw [h1, h2] at hp
        exact hp.elim
    | ok v =>
      cases h2 : printDiffF (fuelFor a b) o {} a' b' with
      | error e' =>
        rw [h1, h2] at hp
        exact hp.elim
      | ok v' =>
        obtain ⟨c1, s1, tr⟩ := v
        obtain ⟨c1', s1', tr'⟩ := v'
        rw [h1, h2] at hp
        obtain ⟨hc, hsr, htr⟩ := hp
        subst htr
        rfl
  · intro ma mb
    refine ⟨sortStrs_dedup_sorted _, ?_⟩
    intro k
    rw [mem_sortStrs, mem_dedupStrs, List.mem_append]

/-- Witness for the amended C4: the universal order-independence clause fired
at the counterexample's two iteration orders, and the ordering clause at its
key lists. -/
theorem C4_determinism_amended_witness :
    classOf (CompareVals markerOpts (.obj [("x", .obj c4fields1)]) (.obj [])) =
      classOf (CompareVals markerOpts (.obj [("x", .obj c4fields2)]) (.obj [])) ∧
    List.Pairwise strLtP
      (sortStrs (dedupStrs (keysOf c4fields1 ++ keysOf c4fields2))) :=
  ⟨C4_determinism_amended.1 markerOpts _ _ _ _ jperm_c4outer jperm_emptyobj,
    (C4_determinism_amended.2.1 c4fields1 c4fields2).1⟩
